import Mathlib

/-!
# Verification of `docker/auto-monitor/sync_monitors.py`

A shallow embedding, in Lean 4, of the reconciliation engine that keeps an
Uptime Kuma instance's monitors in sync with hosts discovered from Traefik
routers and containers discovered from Docker daemons.

The embedding mirrors the Python source function by function:

* `fnmatch`, `should_ignore` — the ignore-pattern glob matching
  (`fnmatch.fnmatch` on a POSIX platform plus the hostname extraction of
  `should_ignore`, lines 74–91 of the source);
* `get_or_create_tag`, `get_docker_host_id`, `add_tags_to_monitor` — the
  retry-on-auth-expiry wrappers (lines 93–158), modelled as functions of an
  outcome oracle: `op n` is what the wrapped API work does on attempt `n`,
  and `reauthOk` says whether `ensure_authenticated` succeeds (when it does
  not, the Python calls `sys.exit(1)`, modelled as `RunResult.exited 1`);
* `extract_hosts_from_traefik` — the Traefik router parser (lines 16–39)
  over already-decoded JSON, with `Option.none` standing for a fetch or
  parse failure;
* `sync_monitors` — the success-path run model (lines 160–615): every API
  call succeeds, except monitor deletions whose outcome is the parameter
  `delOk`, matching the per-monitor `try/except` around `delete_monitor`.
  The model keeps the server state (`KumaState`) separate from the local
  `monitors` snapshot variable, which the source refreshes only after the
  pruning phase, and records every mutation in an event list.

String primitives (`lower`, `strip`, `startswith`) are embedded directly
over character lists so that every definition evaluates inside the kernel.
-/

namespace SyncMon

/-! ## String helpers (Python `str.lower`, `str.strip`, `str.startswith`) -/

/-- Python `s.lower()` (ASCII behaviour). -/
def lowerS (s : String) : String := String.mk (s.data.map Char.toLower)

/-- Python `s.strip()`: drop leading and trailing whitespace. -/
def stripS (s : String) : String :=
  String.mk (((s.data.dropWhile Char.isWhitespace).reverse.dropWhile
    Char.isWhitespace).reverse)

/-- Python `s.startswith(p)`. -/
def startsW (s p : String) : Bool := p.data.isPrefixOf s.data

/-! ## Glob matching (`fnmatch` on POSIX) -/

/-- The backtick character, U+0060. -/
def backtick : Char := Char.ofNat 96

/-- Split a list at the first closing bracket: the part before it and the
part after it.  `none` when there is no closing bracket. -/
def takeUntilRB : List Char → Option (List Char × List Char)
  | [] => none
  | c :: rest =>
    if c = ']' then some ([], rest)
    else
      match takeUntilRB rest with
      | some (a, b) => some (c :: a, b)
      | none => none

/-- The scan `fnmatch.translate` performs on `[`: skip a leading `!`, then a
leading `]`, then cut at the next `]`.  Returns the class body (with the `!`
still in front) and the remainder of the pattern, or `none` when the class
never closes (then the `[` is a literal). -/
def splitClass (l : List Char) : Option (List Char × List Char) :=
  match l with
  | '!' :: ']' :: rest =>
    (takeUntilRB rest).map fun p => ('!' :: ']' :: p.1, p.2)
  | '!' :: rest =>
    (takeUntilRB rest).map fun p => ('!' :: p.1, p.2)
  | ']' :: rest =>
    (takeUntilRB rest).map fun p => (']' :: p.1, p.2)
  | rest => takeUntilRB rest

/-- One token of a translated `fnmatch` pattern. -/
inductive GlobTok where
  | star
  | qmark
  | lit (c : Char)
  | cls (neg : Bool) (body : List Char)
  deriving DecidableEq, Repr

/-- Compile a pattern to tokens, following `fnmatch.translate`: `*` and `?`
are wildcards, `[...]` a character class (`[!...]` negated, an unterminated
`[` literal), everything else literal.  The `fuel` argument makes the
recursion structural; every recursive call strictly shortens the remaining
pattern, so any fuel of at least the pattern's length gives the same result
(`tokenizeF_fuel_irrel`) and the out-of-fuel branch is never taken by
`tokenize`. -/
def tokenizeF : Nat → List Char → List GlobTok
  | _, [] => []
  | 0, _ :: _ => []
  | fuel + 1, c :: rest =>
    if c = '*' then GlobTok.star :: tokenizeF fuel rest
    else if c = '?' then GlobTok.qmark :: tokenizeF fuel rest
    else if c = '[' then
      match splitClass rest with
      | some (body, rest2) =>
        (match body with
         | '!' :: cs => GlobTok.cls true cs
         | cs => GlobTok.cls false cs) :: tokenizeF fuel rest2
      | none => GlobTok.lit '[' :: tokenizeF fuel rest
    else GlobTok.lit c :: tokenizeF fuel rest

/-- Compile a pattern to tokens (see `tokenizeF`). -/
def tokenize (l : List Char) : List GlobTok := tokenizeF l.length l

/-- Membership in a character-class body: `a-b` is a range (as in the regex
`fnmatch.translate` emits), every other character is itself.  A `-` at the
start or end of the body is literal. -/
def classMemb : List Char → Char → Bool
  | a :: '-' :: b :: rest, c => (a ≤ c && c ≤ b) || classMemb rest c
  | a :: rest, c => (a == c) || classMemb rest c
  | [], _ => false

/-- Match a token list against a string (as a character list).  A `star`
matches when the rest of the pattern matches some suffix of the string —
exactly the backtracking of the `.*` that `fnmatch.translate` emits. -/
def tokMatch : List GlobTok → List Char → Bool
  | [], s => s.isEmpty
  | GlobTok.star :: ps, s => s.tails.any fun t => tokMatch ps t
  | GlobTok.qmark :: ps, s =>
    match s with
    | [] => false
    | _ :: s2 => tokMatch ps s2
  | GlobTok.lit c :: ps, s =>
    match s with
    | [] => false
    | d :: s2 => (c == d) && tokMatch ps s2
  | GlobTok.cls neg body :: ps, s =>
    match s with
    | [] => false
    | d :: s2 => (classMemb body d != neg) && tokMatch ps s2

/-- Python's `fnmatch.fnmatch(name, pat)` as it behaves on POSIX (where
`os.path.normcase` is the identity): a case-sensitive glob match. -/
def fnmatch (name pat : String) : Bool :=
  tokMatch (tokenize pat.data) name.data

/-! ## `should_ignore` (source lines 74–91) -/

/-- The characters after the first `"://"` of the list. -/
def afterScheme : List Char → List Char
  | ':' :: '/' :: '/' :: rest => rest
  | _ :: rest => afterScheme rest
  | [] => []

/-- `urlparse(url).netloc` for the URLs `should_ignore` feeds it (strings
starting with `http://` or `https://`): the text between the scheme's `://`
and the first `/`, `?` or `#`. -/
def netlocOf (url : String) : String :=
  String.mk ((afterScheme url.data).takeWhile fun c => c ≠ '/' && c ≠ '?' && c ≠ '#')

/-- The hostname `should_ignore` compares against: the netloc for `http://`
and `https://` URLs, the whole string otherwise. -/
def hostnameOf (url : String) : String :=
  if startsW url "http://" || startsW url "https://" then netlocOf url else url

/-- `should_ignore(url, ignore_patterns)`: with a non-empty pattern list,
compare each whitespace-stripped, non-empty pattern case-insensitively
against the hostname and against the full URL. -/
def should_ignore (url : String) (ignore_patterns : List String) : Bool :=
  if ignore_patterns.isEmpty then false
  else
    ignore_patterns.any fun p0 =>
      let p := stripS p0
      if p.data.isEmpty then false
      else
        fnmatch (lowerS (hostnameOf url)) (lowerS p) ||
          fnmatch (lowerS url) (lowerS p)

/-! ## Retry-on-auth-expiry wrappers (source lines 93–158)

Each wrapper runs its API work inside `for attempt in range(2): try ...`.
The work's behaviour is an oracle `op : Nat → outcome` giving the outcome of
attempt `n`; `hasEnsure` models whether an `ensure_auth_fn` callback was
passed, and `reauthOk` whether re-authentication succeeds (when it fails,
`ensure_authenticated` calls `sys.exit(1)`). -/

/-- How a run-level computation ends: a normal return, or process
termination through `sys.exit`. -/
inductive RunResult (α : Type) where
  | done (a : α)
  | exited (code : Nat)
  deriving DecidableEq, Repr

/-- Outcome of the body of `get_or_create_tag` (fetch all tags, find or
create one) on a single attempt. -/
inductive ApiOutcome where
  | ok (id : Nat)
  | authExpired
  | otherError
  deriving DecidableEq, Repr

/-- `get_or_create_tag(api, tag_name, ensure_auth_fn)` (lines 93–118).
On `authExpired` at attempt 0 with a callback, re-authenticate and run the
body once more; any failure at attempt 1 — and any `otherError` — logs a
warning and returns `None` (the no-tag sentinel).  Only a failing
re-authentication terminates the process. -/
def get_or_create_tag (op : Nat → ApiOutcome) (hasEnsure reauthOk : Bool) :
    RunResult (Option Nat) :=
  match op 0 with
  | ApiOutcome.ok i => RunResult.done (some i)
  | ApiOutcome.authExpired =>
    if hasEnsure then
      if reauthOk then
        match op 1 with
        | ApiOutcome.ok i => RunResult.done (some i)
        | _ => RunResult.done none
      else RunResult.exited 1
    else RunResult.done none
  | ApiOutcome.otherError => RunResult.done none

/-- Outcome of the body of `get_docker_host_id` (fetch all Docker hosts and
look the name up) on a single attempt. -/
inductive HostLookup where
  | found (id : Nat)
  | notFound
  | authExpired
  | otherError
  deriving DecidableEq, Repr

/-- `get_docker_host_id(api, docker_host_name, ensure_auth_fn)` (lines
120–138): same retry shape as `get_or_create_tag`; an absent host and a
persistent error both yield `None`. -/
def get_docker_host_id (op : Nat → HostLookup) (hasEnsure reauthOk : Bool) :
    RunResult (Option Nat) :=
  match op 0 with
  | HostLookup.found i => RunResult.done (some i)
  | HostLookup.notFound => RunResult.done none
  | HostLookup.authExpired =>
    if hasEnsure then
      if reauthOk then
        match op 1 with
        | HostLookup.found i => RunResult.done (some i)
        | _ => RunResult.done none
      else RunResult.exited 1
    else RunResult.done none
  | HostLookup.otherError => RunResult.done none

/-- Outcome of one `api.add_monitor_tag` / `api.delete_monitor_tag` call. -/
inductive CallOutcome where
  | ok
  | authExpired
  | otherError
  deriving DecidableEq, Repr

/-- Python truthiness of a tag id (`if not tag_id: continue`): `None` and
`0` are falsy. -/
def truthyId : Option Nat → Bool
  | none => false
  | some n => n != 0

/-- The calls `add_tags_to_monitor` issues for one truthy tag id (lines
145–158): a first attempt always; after `authExpired` with a callback and a
successful re-authentication, a second attempt; any other failure breaks to
the next tag after at most a logged warning. -/
def addOneTagCalls (tid : Nat) (op : Nat → CallOutcome) (hasEnsure reauthOk : Bool) :
    RunResult (List (Nat × Nat)) :=
  match op 0 with
  | CallOutcome.authExpired =>
    if hasEnsure then
      if reauthOk then RunResult.done [(tid, 0), (tid, 1)]
      else RunResult.exited 1
    else RunResult.done [(tid, 0)]
  | _ => RunResult.done [(tid, 0)]

/-- `add_tags_to_monitor(api, monitor_id, tag_ids, ensure_auth_fn)` (lines
140–158), as the list of `(tag_id, attempt)` pairs at which
`api.add_monitor_tag` is invoked.  `op t n` is the outcome of the call for
tag `t` on attempt `n`.  Falsy ids are skipped before any call; every
exception is caught, so the function itself never raises. -/
def add_tags_to_monitor (tag_ids : List (Option Nat)) (op : Nat → Nat → CallOutcome)
    (hasEnsure reauthOk : Bool) : RunResult (List (Nat × Nat)) :=
  match tag_ids with
  | [] => RunResult.done []
  | none :: rest => add_tags_to_monitor rest op hasEnsure reauthOk
  | some tid :: rest =>
    if tid = 0 then add_tags_to_monitor rest op hasEnsure reauthOk
    else
      match addOneTagCalls tid (op tid) hasEnsure reauthOk with
      | RunResult.exited c => RunResult.exited c
      | RunResult.done calls =>
        match add_tags_to_monitor rest op hasEnsure reauthOk with
        | RunResult.exited c => RunResult.exited c
        | RunResult.done more => RunResult.done (calls ++ more)

/-! ## The reset-tags branch for one monitor (source lines 323–364, 494–535)

Under `reset_tags`, a monitor with tags first has every current tag removed
(`api.delete_monitor_tag`, each with its own auth-retry), and only when no
removal ultimately failed are the required tags added; a monitor with no
tags goes straight to the add phase. -/

/-- One call the reset branch makes for a monitor. -/
inductive TagCall where
  | removeTag (tagId : Nat) (attempt : Nat)
  | addTag (tagId : Nat) (attempt : Nat)
  deriving DecidableEq, Repr

/-- The delete-with-retry loop around `api.delete_monitor_tag` for one tag
(lines 330–347): returns the attempts made and whether this removal
ultimately failed.  `authExpired` at attempt 0 re-authenticates (exiting if
that fails) and retries once; any failure at attempt 1, and any
`otherError`, sets the monitor's `failed` flag. -/
def removeOneTagCalls (tid : Nat) (op : Nat → CallOutcome) (reauthOk : Bool) :
    RunResult (List (Nat × Nat) × Bool) :=
  match op 0 with
  | CallOutcome.ok => RunResult.done ([(tid, 0)], false)
  | CallOutcome.authExpired =>
    if reauthOk then
      match op 1 with
      | CallOutcome.ok => RunResult.done ([(tid, 0), (tid, 1)], false)
      | _ => RunResult.done ([(tid, 0), (tid, 1)], true)
    else RunResult.exited 1
  | CallOutcome.otherError => RunResult.done ([(tid, 0)], true)

/-- The removal loop over all of a monitor's current tags: attempts every
tag in order, regardless of earlier failures, and accumulates the `failed`
flag. -/
def removeAllTags (tagIds : List Nat) (op : Nat → Nat → CallOutcome) (reauthOk : Bool) :
    RunResult (List (Nat × Nat) × Bool) :=
  match tagIds with
  | [] => RunResult.done ([], false)
  | t :: rest =>
    match removeOneTagCalls t (op t) reauthOk with
    | RunResult.exited c => RunResult.exited c
    | RunResult.done (calls, f1) =>
      match removeAllTags rest op reauthOk with
      | RunResult.exited c => RunResult.exited c
      | RunResult.done (more, f2) => RunResult.done (calls ++ more, f1 || f2)

/-- The whole reset branch for one monitor, as its list of `TagCall`s:
with current tags, remove them all and add the required tags only if no
removal failed; with no current tags, add the required tags directly. -/
def resetMonitorTags (monitorTags : List Nat) (removeOp addOp : Nat → Nat → CallOutcome)
    (required : List (Option Nat)) (reauthOk : Bool) : RunResult (List TagCall) :=
  if monitorTags.length > 0 then
    match removeAllTags monitorTags removeOp reauthOk with
    | RunResult.exited c => RunResult.exited c
    | RunResult.done (calls, failed) =>
      let removes := calls.map fun p => TagCall.removeTag p.1 p.2
      if failed then RunResult.done removes
      else
        match add_tags_to_monitor required addOp true reauthOk with
        | RunResult.exited c => RunResult.exited c
        | RunResult.done adds =>
          RunResult.done (removes ++ adds.map fun p => TagCall.addTag p.1 p.2)
  else
    match add_tags_to_monitor required addOp true reauthOk with
    | RunResult.exited c => RunResult.exited c
    | RunResult.done adds => RunResult.done (adds.map fun p => TagCall.addTag p.1 p.2)

/-- The reset loop over a list of monitors, each given as its current tag
ids: one monitor's outcome never stops the next monitor's processing (only
a fatal re-authentication exit does). -/
def resetMonitorsLoop (monitors : List (List Nat)) (removeOp addOp : Nat → Nat → CallOutcome)
    (required : List (Option Nat)) (reauthOk : Bool) : RunResult (List (List TagCall)) :=
  match monitors with
  | [] => RunResult.done []
  | m :: rest =>
    match resetMonitorTags m removeOp addOp required reauthOk with
    | RunResult.exited c => RunResult.exited c
    | RunResult.done calls =>
      match resetMonitorsLoop rest removeOp addOp required reauthOk with
      | RunResult.exited c => RunResult.exited c
      | RunResult.done more => RunResult.done (calls :: more)

/-! ## `extract_hosts_from_traefik` (source lines 16–39)

The HTTP fetch and JSON decoding are external; the model takes the decoded
`routers` mapping as a list of (router name, router) pairs, with `none`
standing for any fetch or parse failure (the `except` branch, which returns
`[]`). -/

/-- One Traefik router, as the fields the script reads. -/
structure Router where
  entryPoints : List String
  rule : String
  deriving DecidableEq, Repr

/-- Try to match the regex `Host\(` + backtick + `([^` + backtick + `]+)` +
backtick + `\)` at the very start of the list: literal `Host(`, a backtick,
one or more non-backtick characters (the capture), a backtick, `)`. -/
def tryHostAt (l : List Char) : Option (List Char) :=
  match l with
  | 'H' :: 'o' :: 's' :: 't' :: '(' :: c :: rest =>
    if c = backtick then
      let name := rest.takeWhile fun d => d ≠ backtick
      if name.isEmpty then none
      else
        match rest.drop name.length with
        | d :: ')' :: _ => if d = backtick then some name else none
        | _ => none
    else none
  | _ => none

/-- `re.search` for the host pattern: the leftmost position where it
matches.  (The capture `[^`+backtick+`]+` cannot cross a backtick, so each
start position admits at most one candidate and greedy backtracking never
changes the result.) -/
def findHostMatch : List Char → Option (List Char)
  | [] => none
  | c :: rest =>
    match tryHostAt (c :: rest) with
    | some nm => some nm
    | none => findHostMatch rest

/-- The hostname the script extracts from a router rule, if any. -/
def hostFromRule (rule : String) : Option String :=
  (findHostMatch rule.data).map String.mk

/-- The set of hosts collected by the router loop (lines 26–34): routers
whose `entryPoints` contain `"https"` and whose rule matches the host
pattern contribute `https://hostname`. -/
def collectHosts (routers : List (String × Router)) : Finset String :=
  routers.foldl
    (fun acc rp =>
      if "https" ∈ rp.2.entryPoints then
        match hostFromRule rp.2.rule with
        | some nm => insert ("https://" ++ nm) acc
        | none => acc
      else acc)
    ∅

/-- `extract_hosts_from_traefik(traefik_url)` on the decoded response:
`sorted(hosts)` of the collected set; `[]` on any fetch or parse failure. -/
def extract_hosts_from_traefik (fetched : Option (List (String × Router))) :
    List String :=
  match fetched with
  | none => []
  | some routers => (collectHosts routers).sort (· ≤ ·)

/-! ## The run model of `sync_monitors` (source lines 160–615)

The success path: the connection holds, `get_monitors`, `get_tags`,
`add_tag`, `add_monitor`, `add_monitor_tag` and `delete_monitor_tag` all
succeed; `delete_monitor` for monitor `id` succeeds iff `delOk id` (the
source wraps exactly that call in a per-monitor `try/except`).  Discovery
is the pair of oracles `hosts_of` / `containers_of`: what
`extract_hosts_from_traefik` / `extract_containers_from_docker` return for
a given server URL.

`KumaState` is the server's state; the local Python variable `monitors`
(fetched once, refreshed only right after the pruning loop) is the
`snapshot` field of `RunCtx` and is *not* updated by later mutations, just
as in the source. -/

/-- The monitor types the script uses. -/
inductive MonType where
  | http
  | docker
  deriving DecidableEq, Repr

/-- One tag attached to a monitor (the dicts in `monitor.get("tags")`). -/
structure TagRef where
  tag_id : Nat
  value : String
  deriving DecidableEq, Repr

/-- One monitor as the script reads it.  A monitor without a URL (Docker
monitors) has `url = ""`, matching `monitor.get("url", "")`. -/
structure Monitor where
  id : Nat
  type : MonType
  name : String
  url : String
  docker_host : Option Nat
  tags : List TagRef
  deriving DecidableEq, Repr

/-- The monitoring server's state. -/
structure KumaState where
  monitors : List Monitor
  tags : List (Nat × String)
  dockerHosts : List (Nat × String)
  nextMonitorId : Nat
  nextTagId : Nat
  deriving DecidableEq, Repr

/-- One mutation the run performs on the server. -/
inductive Event where
  | deletedMonitor (id : Nat)
  | createdTag (id : Nat) (name : String)
  | createdHttpMonitor (id : Nat) (url : String)
  | createdDockerMonitor (id : Nat) (name : String) (hostId : Nat)
  | addedMonitorTag (monitorId : Nat) (tagId : Nat)
  | removedMonitorTag (monitorId : Nat) (tagId : Nat)
  deriving DecidableEq, Repr

/-- One configured source server: its URL and its group label. -/
structure ServerInfo where
  url : String
  group : String
  deriving DecidableEq, Repr

/-- The run's working data: server state, the stale `monitors` snapshot,
the in-memory `existing_urls` set, and the mutations so far. -/
structure RunCtx where
  server : KumaState
  snapshot : List Monitor
  existing_urls : List String
  events : List Event
  deriving DecidableEq, Repr

/-- Server semantics of `delete_monitor(id)`. -/
def deleteMonitorState (s : KumaState) (mid : Nat) : KumaState :=
  { s with monitors := s.monitors.filter fun m => m.id ≠ mid }

/-- `get_or_create_tag` on the success path: find the first tag with the
name, else create one with the next free id.  Returns the id, the new
state and the mutation events. -/
def getOrCreateTagState (s : KumaState) (name : String) :
    Option Nat × KumaState × List Event :=
  match s.tags.find? fun t => t.2 == name with
  | some t => (some t.1, s, [])
  | none =>
    let tid := s.nextTagId
    (some tid,
     { s with tags := s.tags ++ [(tid, name)], nextTagId := tid + 1 },
     [Event.createdTag tid name])

/-- Server semantics of `add_monitor_tag(tag_id, monitor_id, value="")`:
append the tag row to the monitor. -/
def addMonitorTagState (s : KumaState) (mid tid : Nat) : KumaState :=
  { s with
    monitors := s.monitors.map fun m =>
      if m.id = mid then { m with tags := m.tags ++ [⟨tid, ""⟩] } else m }

/-- Server semantics of `delete_monitor_tag(tag_id, monitor_id, value)`:
drop the matching tag rows from the monitor. -/
def removeMonitorTagState (s : KumaState) (mid : Nat) (tr : TagRef) : KumaState :=
  { s with
    monitors := s.monitors.map fun m =>
      if m.id = mid then { m with tags := m.tags.filter fun t => t ≠ tr } else m }

/-- `add_tags_to_monitor` on the success path: skip falsy ids, add the
rest, record the events. -/
def addTagsSuccess (s : KumaState) (mid : Nat) (ids : List (Option Nat)) :
    KumaState × List Event :=
  ids.foldl
    (fun acc o =>
      match o with
      | some tid =>
        if tid ≠ 0 then
          (addMonitorTagState acc.1 mid tid, acc.2 ++ [Event.addedMonitorTag mid tid])
        else acc
      | none => acc)
    (s, [])

/-- The non-empty URLs of the snapshot (the `existing_urls` set,
lines 247–251). -/
def existingUrls (snapshot : List Monitor) : List String :=
  (snapshot.map Monitor.url).filter fun u => u ≠ ""

/-- `any(tag.get("tag_id") == tag_id for tag in monitor_tags)`: whether the
monitor's tag rows contain the id; always false for `None`. -/
def hasTagId (tags : List TagRef) (o : Option Nat) : Bool :=
  tags.any fun tr => o == some tr.tag_id

/-- The additive branch's `tags_to_add` (lines 370–374, 541–545): each
required id that is truthy and not already on the monitor. -/
def additiveTagsToAdd (tags : List TagRef) (tag_id kindTag : Option Nat) :
    List (Option Nat) :=
  (if ¬ hasTagId tags tag_id ∧ truthyId tag_id then [tag_id] else []) ++
    (if ¬ hasTagId tags kindTag ∧ truthyId kindTag then [kindTag] else [])

/-- The creation batch of a Traefik group (line 395): hosts not in
`existing_urls`. -/
def missingHosts (hosts existing : List String) : List String :=
  hosts.filter fun h => ¬ existing.contains h

/-- The names in `existing_docker_monitors` (lines 566–570): Docker-type
monitors of the snapshot attached to this runtime host. -/
def existingDockerNames (snapshot : List Monitor) (hid : Nat) : List String :=
  (snapshot.filter fun m => m.type = MonType.docker ∧ m.docker_host = some hid).map
    Monitor.name

/-- The creation batch of a Docker group (line 572): containers with no
Docker monitor under this runtime host. -/
def missingContainers (containers : List String) (snapshot : List Monitor)
    (hid : Nat) : List String :=
  containers.filter fun c => ¬ (existingDockerNames snapshot hid).contains c

/-- The monitors the pruning phase selects (lines 223–229): snapshot
monitors with a non-empty URL matching an ignore pattern. -/
def monitorsToRemove (snapshot : List Monitor) (patterns : List String) :
    List Monitor :=
  snapshot.filter fun m => m.url ≠ "" ∧ should_ignore m.url patterns

/-- One deletion of the pruning loop (lines 233–240): each selected monitor
is deleted in its own `try/except`, so one failure skips only that
monitor. -/
def pruneStep (delOk : Nat → Bool) (acc : KumaState × List Event) (m : Monitor) :
    KumaState × List Event :=
  if delOk m.id then
    (deleteMonitorState acc.1 m.id, acc.2 ++ [Event.deletedMonitor m.id])
  else acc

/-- The pruning phase (lines 217–245): with patterns configured, delete
every selected monitor and refresh the snapshot from the server afterwards
(the source refreshes only when something was selected; when nothing was,
the snapshot already equals the server's list). -/
def prunePhase (s : KumaState) (snapshot : List Monitor) (patterns : List String)
    (delOk : Nat → Bool) : KumaState × List Monitor × List Event :=
  if patterns.isEmpty then (s, snapshot, [])
  else
    let toRemove := monitorsToRemove snapshot patterns
    if toRemove.isEmpty then (s, snapshot, [])
    else
      let step := toRemove.foldl (pruneStep delOk) (s, [])
      (step.1, step.1.monitors, step.2)

/-- The tag reconciliation for one already-existing monitor, acting on the
server state (lines 318–381): reset mode removes every current tag then
adds the required pair; additive mode adds only the missing required
ids.  Returns the new server state and the mutation events. -/
def reconcileServer (s : KumaState) (m : Monitor) (tag_id kindTag : Option Nat)
    (reset : Bool) : KumaState × List Event :=
  if reset then
    if m.tags.length > 0 then
      let s1 := m.tags.foldl (fun st tr => removeMonitorTagState st m.id tr) s
      let evR := m.tags.map fun tr => Event.removedMonitorTag m.id tr.tag_id
      let p := addTagsSuccess s1 m.id [tag_id, kindTag]
      (p.1, evR ++ p.2)
    else addTagsSuccess s m.id [tag_id, kindTag]
  else
    let toAdd := additiveTagsToAdd m.tags tag_id kindTag
    if toAdd.isEmpty then (s, [])
    else addTagsSuccess s m.id toAdd

/-- `reconcileServer` lifted to the run context. -/
def reconcileMonitorTags (c : RunCtx) (m : Monitor) (tag_id kindTag : Option Nat)
    (reset : Bool) : RunCtx :=
  let p := reconcileServer c.server m tag_id kindTag reset
  { c with server := p.1, events := c.events ++ p.2 }

/-- The first snapshot monitor with this URL (lines 312–316). -/
def firstUrlMatch (mons : List Monitor) (h : String) : Option Monitor :=
  mons.find? fun m => m.url == h

/-- The first snapshot Docker monitor with this name under this runtime
host (lines 481–487). -/
def firstDockerMatch (mons : List Monitor) (cname : String) (hid : Nat) :
    Option Monitor :=
  mons.find? fun m =>
    m.type = MonType.docker ∧ m.name = cname ∧ m.docker_host = some hid

/-- The tag-check step for one already-known Traefik host. -/
def reconcileHttpStep (tag_id traefikTag : Option Nat) (reset : Bool) (c : RunCtx)
    (h : String) : RunCtx :=
  match firstUrlMatch c.snapshot h with
  | none => c
  | some m => reconcileMonitorTags c m tag_id traefikTag reset

/-- The creation step for one missing Traefik host (lines 398–431): create
the HTTP monitor, tag it when its id is truthy, and add the URL to
`existing_urls`. -/
def createHttpStep (tag_id traefikTag : Option Nat) (c : RunCtx) (h : String) :
    RunCtx :=
  let mid := c.server.nextMonitorId
  let newMon : Monitor := ⟨mid, MonType.http, netlocOf h, h, none, []⟩
  let s1 : KumaState :=
    { c.server with
      monitors := c.server.monitors ++ [newMon], nextMonitorId := mid + 1 }
  let p := if mid ≠ 0 then addTagsSuccess s1 mid [tag_id, traefikTag] else (s1, [])
  { c with
    server := p.1
    existing_urls := h :: c.existing_urls
    events := c.events ++ ([Event.createdHttpMonitor mid h] ++ p.2) }

/-- Resolving a group tag (lines 294–298, 453–457): `get_or_create_tag`
when the group label is truthy, `None` otherwise; the tag-creation events
go into the run's log. -/
def resolveGroupTag (ctx : RunCtx) (group : String) : Option Nat × RunCtx :=
  let r :=
    if group ≠ "" then getOrCreateTagState ctx.server group
    else (none, ctx.server, [])
  (r.1, { ctx with server := r.2.1, events := ctx.events ++ r.2.2 })

/-- The Traefik tag-check loop (lines 300–392), gated on a truthy group
tag: reconcile every fetched host that is in `existing_urls`. -/
def traefikTagCheckPhase (hosts : List String) (tag_id traefikTag : Option Nat)
    (reset : Bool) (ctx1 : RunCtx) : RunCtx :=
  if truthyId tag_id then
    (hosts.filter fun h => ctx1.existing_urls.contains h).foldl
      (reconcileHttpStep tag_id traefikTag reset) ctx1
  else ctx1

/-- The Traefik creation loop (lines 394–431). -/
def traefikCreatePhase (hosts : List String) (tag_id traefikTag : Option Nat)
    (ctx2 : RunCtx) : RunCtx :=
  (missingHosts hosts ctx2.existing_urls).foldl
    (createHttpStep tag_id traefikTag) ctx2

/-- The filtered host list of a Traefik group (lines 280–292). -/
def filteredHosts (hosts_of : String → List String) (patterns : List String)
    (info : ServerInfo) : List String :=
  if patterns.isEmpty then hosts_of info.url
  else (hosts_of info.url).filter fun h => ¬ should_ignore h patterns

/-- One Traefik group (lines 263–431): fetch hosts, filter ignored ones,
resolve the group tag, reconcile tags of already-known hosts, then create
the missing monitors. -/
def processTraefikServer (hosts_of : String → List String) (patterns : List String)
    (reset : Bool) (traefikTag : Option Nat) (ctx : RunCtx) (info : ServerInfo) :
    RunCtx :=
  if (hosts_of info.url).isEmpty then ctx
  else
    let hosts := filteredHosts hosts_of patterns info
    let t := resolveGroupTag ctx info.group
    traefikCreatePhase hosts t.1 traefikTag
      (traefikTagCheckPhase hosts t.1 traefikTag reset t.2)

/-- The tag-check step for one container that already has a monitor. -/
def reconcileDockerStep (tag_id docker_tag : Option Nat) (hid : Nat) (reset : Bool)
    (c : RunCtx) (cname : String) : RunCtx :=
  match firstDockerMatch c.snapshot cname hid with
  | none => c
  | some m => reconcileMonitorTags c m tag_id docker_tag reset

/-- The creation step for one missing container (lines 575–600): create
the Docker monitor and tag it when its id is truthy.  Neither the snapshot
nor any in-memory set is updated. -/
def createDockerStep (tag_id docker_tag : Option Nat) (hid : Nat) (c : RunCtx)
    (cname : String) : RunCtx :=
  let mid := c.server.nextMonitorId
  let newMon : Monitor := ⟨mid, MonType.docker, cname, "", some hid, []⟩
  let s1 : KumaState :=
    { c.server with
      monitors := c.server.monitors ++ [newMon], nextMonitorId := mid + 1 }
  let p := if mid ≠ 0 then addTagsSuccess s1 mid [tag_id, docker_tag] else (s1, [])
  { c with
    server := p.1
    events := c.events ++ ([Event.createdDockerMonitor mid cname hid] ++ p.2) }

/-- The Docker tag-check loop (lines 470–563), gated on a truthy group or
`docker` tag: reconcile every container that already has a Docker monitor
under this runtime host. -/
def dockerTagCheckPhase (containers : List String) (tag_id docker_tag : Option Nat)
    (hid : Nat) (reset : Bool) (ctx1 : RunCtx) : RunCtx :=
  if truthyId tag_id || truthyId docker_tag then
    containers.foldl (reconcileDockerStep tag_id docker_tag hid reset) ctx1
  else ctx1

/-- The Docker creation loop (lines 565–600). -/
def dockerCreatePhase (containers : List String) (tag_id docker_tag : Option Nat)
    (hid : Nat) (ctx2 : RunCtx) : RunCtx :=
  (missingContainers containers ctx2.snapshot hid).foldl
    (createDockerStep tag_id docker_tag hid) ctx2

/-- One Docker group (lines 434–600): fetch containers, resolve the group
and `docker` tags, look the `<group>-docker` runtime host up (skipping the
group when absent or falsy), reconcile tags of containers that already
have a monitor under this host, then create the missing Docker monitors. -/
def processDockerServer (containers_of : String → List String) (reset : Bool)
    (ctx : RunCtx) (info : ServerInfo) : RunCtx :=
  let containers := containers_of info.url
  if containers.isEmpty then ctx
  else
    let t := resolveGroupTag ctx info.group
    let t2 := resolveGroupTag t.2 "docker"
    let docker_host_id :=
      (t2.2.server.dockerHosts.find? fun p => p.2 == info.group ++ "-docker").map
        Prod.fst
    match docker_host_id with
    | none => t2.2
    | some hid =>
      if hid = 0 then t2.2
      else
        dockerCreatePhase containers t.1 t2.1 hid
          (dockerTagCheckPhase containers t.1 t2.1 hid reset t2.2)

/-- The whole run (lines 160–615) on the success path: fetch the monitor
list, prune by ignore patterns, build `existing_urls`, resolve the
`traefik` tag, then process every Traefik group and every Docker group in
configuration order. -/
def sync_monitors (hosts_of containers_of : String → List String)
    (traefikServers dockerServers : List ServerInfo) (patterns : List String)
    (reset : Bool) (delOk : Nat → Bool) (s0 : KumaState) : RunCtx :=
  let pr := prunePhase s0 s0.monitors patterns delOk
  let r := getOrCreateTagState pr.1 "traefik"
  let ctx0 : RunCtx :=
    ⟨r.2.1, pr.2.1, existingUrls pr.2.1, pr.2.2 ++ r.2.2⟩
  let ctx1 :=
    traefikServers.foldl (processTraefikServer hosts_of patterns reset r.1) ctx0
  dockerServers.foldl (processDockerServer containers_of reset) ctx1

/-- The `https://`-monitor creations of an event list for one URL. -/
def httpCreations (evs : List Event) (u : String) : Nat :=
  (evs.filter fun e =>
    match e with
    | Event.createdHttpMonitor _ v => v = u
    | _ => false).length

/-- The Docker-monitor creations of an event list for one
(name, runtime host) identifier. -/
def dockerCreations (evs : List Event) (nm : String) (hid : Nat) : Nat :=
  (evs.filter fun e =>
    match e with
    | Event.createdDockerMonitor _ n h => n = nm ∧ h = hid
    | _ => false).length

/-- The monitor creations of an event list, of either kind. -/
def creationCount (evs : List Event) : Nat :=
  (evs.filter fun e =>
    match e with
    | Event.createdHttpMonitor _ _ => true
    | Event.createdDockerMonitor _ _ _ => true
    | _ => false).length

/-- The `add_monitor_tag` calls of an event list. -/
def tagAddCount (evs : List Event) : Nat :=
  (evs.filter fun e =>
    match e with
    | Event.addedMonitorTag _ _ => true
    | _ => false).length

/-- Whether an event is a monitor deletion. -/
def isDeletion : Event → Bool
  | Event.deletedMonitor _ => true
  | _ => false

/-- Whether an event is an HTTP-monitor creation. -/
def isHttpCreation : Event → Bool
  | Event.createdHttpMonitor _ _ => true
  | _ => false

/-- Whether an event is a tag add or a tag removal on a monitor. -/
def isTagMutation : Event → Bool
  | Event.addedMonitorTag _ _ => true
  | Event.removedMonitorTag _ _ => true
  | _ => false

/-- The within-a-run at-most-once invariant for HTTP-monitor creation:
every URL has been created at most once, and a created URL is in the
in-memory `existing_urls` set. -/
def HttpOnce (c : RunCtx) : Prop :=
  ∀ u, httpCreations c.events u ≤ 1 ∧
    (1 ≤ httpCreations c.events u → c.existing_urls.contains u = true)

/-- The truthy tag ids of a required-tags list, in order — the ones
`add_tags_to_monitor` acts on. -/
def truthyIds (ids : List (Option Nat)) : List Nat :=
  ids.filterMap fun o =>
    match o with
    | some t => if t = 0 then none else some t
    | none => none

/-- The tag id a name resolves to against a server state: the first tag
with that name, as `get_or_create_tag`'s lookup loop finds it. -/
def resolvedTag (s : KumaState) (name : String) : Option Nat :=
  (s.tags.find? fun t => t.2 == name).map Prod.fst

/-- Modelled from the words of the spec sentence "a glob string compared
case-insensitively against both the full identifier and its host
component", with "some non-empty pattern in the list" read literally (no
whitespace stripping): for comparison with the source's `should_ignore`. -/
def matchesIgnoreSpec (url : String) (patterns : List String) : Bool :=
  patterns.any fun p =>
    (!p.data.isEmpty) &&
      (fnmatch (lowerS (hostnameOf url)) (lowerS p) || fnmatch (lowerS url) (lowerS p))

/-! ## Verification-side relations for the two-run idempotence analysis -/

/-- How a single monitor can change during the group phases of a run with
the Additive policy: identity, kind, name, URL and runtime host are fixed,
tags are only appended. -/
def MonEvolved (m m2 : Monitor) : Prop :=
  m2.id = m.id ∧ m2.type = m.type ∧ m2.name = m.name ∧ m2.url = m.url ∧
    m2.docker_host = m.docker_host ∧ ∃ ext, m2.tags = m.tags ++ ext

/-- How the server state can change during the group phases of a run with
the Additive policy: tags are appended, Docker hosts are untouched, the
id counter only grows, and the monitor list is the pointwise-evolved old
list followed by new monitors with fresh ids. -/
def Evolves (s s2 : KumaState) : Prop :=
  (∃ ext, s2.tags = s.tags ++ ext) ∧
  s2.dockerHosts = s.dockerHosts ∧
  s.nextMonitorId ≤ s2.nextMonitorId ∧
  ∃ pre newMons, s2.monitors = pre ++ newMons ∧
    List.Forall₂ MonEvolved s.monitors pre ∧
    ∀ m ∈ newMons, s.nextMonitorId ≤ m.id

/-- The group tag the run resolves for a label (lines 294–298): `None`
for a falsy label, otherwise the first tag with that name. -/
def trGroupTag (s : KumaState) (g : String) : Option Nat :=
  if g ≠ "" then resolvedTag s g else none

/-- The runtime-host id a group label resolves to (lines 459–468): the
first Docker host named `<group>-docker`. -/
def dockerHostId (s : KumaState) (g : String) : Option Nat :=
  (s.dockerHosts.find? fun p => p.2 == g ++ "-docker").map Prod.fst

/-- Appending tag rows `ext` to every monitor with id `mid` — the shape of
the monitor list after a successful `add_tags_to_monitor`. -/
def tagMap (mid : Nat) (ext : List TagRef) (l : List Monitor) : List Monitor :=
  l.map fun m => if m.id = mid then { m with tags := m.tags ++ ext } else m

/-- One Traefik host is settled on server state `s`: a first URL-matching
monitor exists and, when the group tag `gt` is truthy (the gate of
line 301), it carries `gt` and — when truthy — the `traefik` tag `tt`. -/
def HostDone (gt tt : Option Nat) (h : String) (s : KumaState) : Prop :=
  ∃ m, firstUrlMatch s.monitors h = some m ∧
    (truthyId gt = true → hasTagId m.tags gt = true ∧
      (truthyId tt = true → hasTagId m.tags tt = true))

/-- One container is settled on server state `s` under runtime host `hid`:
a first (name, host)-matching Docker monitor exists carrying the truthy
required tags. -/
def ContDone (gt dt : Option Nat) (hid : Nat) (c : String) (s : KumaState) :
    Prop :=
  ∃ m, firstDockerMatch s.monitors c hid = some m ∧
    (truthyId gt = true → hasTagId m.tags gt = true) ∧
    (truthyId dt = true → hasTagId m.tags dt = true)

/-- The postcondition one processed Traefik group leaves on the server:
its group tag resolves and every filtered host is settled. -/
def TraefikDone (hosts_of : String → List String) (pats : List String)
    (info : ServerInfo) (tt : Option Nat) (s : KumaState) : Prop :=
  (hosts_of info.url).isEmpty = false →
    ((info.group ≠ "" → ∃ t, resolvedTag s info.group = some t) ∧
     ∀ h ∈ filteredHosts hosts_of pats info,
       HostDone (trGroupTag s info.group) tt h s)

/-- The postcondition one processed Docker group leaves on the server:
its tags resolve, and — when the runtime host resolves to a truthy id —
every fetched container is settled. -/
def DockerDone (cof : String → List String) (info : ServerInfo) (s : KumaState) :
    Prop :=
  (cof info.url).isEmpty = false →
    ((info.group ≠ "" → ∃ t, resolvedTag s info.group = some t) ∧
     (∃ t, resolvedTag s "docker" = some t) ∧
     ∀ hid, dockerHostId s info.group = some hid → hid ≠ 0 →
       ∀ c ∈ cof info.url,
         ContDone (trGroupTag s info.group) (resolvedTag s "docker") hid c s)

/-- The server's monitor list extends a pointwise-evolved copy of the
frozen snapshot. -/
def SnapEvolved (snap0 : List Monitor) (s : KumaState) : Prop :=
  ∃ pre newMons, s.monitors = pre ++ newMons ∧
    List.Forall₂ MonEvolved snap0 pre

/-- Every non-empty URL on the server is in the in-memory
`existing_urls` set. -/
def UrlsCovered (c : RunCtx) : Prop :=
  ∀ m ∈ c.server.monitors, m.url ≠ "" → c.existing_urls.contains m.url = true

/-- Every URL in the in-memory set has a URL-matching server monitor. -/
def UrlsMatched (c : RunCtx) : Prop :=
  ∀ u, c.existing_urls.contains u = true →
    (firstUrlMatch c.server.monitors u).isSome = true

/-- No server monitor with a non-empty URL matches an ignore pattern —
what pruning with successful deletions establishes and the creation
phases maintain. -/
def NoIgnored (pats : List String) (s : KumaState) : Prop :=
  ∀ m ∈ s.monitors, m.url ≠ "" → should_ignore m.url pats = false

/-- Every URL in the in-memory set is a snapshot URL or a filtered host
of one of the already-processed Traefik groups. -/
def UrlsTraced (hosts_of : String → List String) (pats : List String)
    (snap0 : List Monitor) (ts : List ServerInfo) (c : RunCtx) : Prop :=
  ∀ u, c.existing_urls.contains u = true →
    u ∈ existingUrls snap0 ∨ ∃ i ∈ ts, u ∈ filteredHosts hosts_of pats i

/-- Every Docker-type server monitor traces back to the snapshot or to a
container of one of the already-processed Docker groups. -/
def DockerTrace (cof : String → List String) (snap0 : List Monitor)
    (ds : List ServerInfo) (s : KumaState) : Prop :=
  ∀ m ∈ s.monitors, m.type = MonType.docker → ∀ h', m.docker_host = some h' →
    (∃ ms ∈ snap0, ms.type = MonType.docker ∧ ms.name = m.name ∧
      ms.docker_host = some h') ∨
    (∃ j ∈ ds, m.name ∈ cof j.url ∧ dockerHostId s j.group = some h')

/-! # Theorems

Everything below is proved about the definitions above; no definition
follows.  Helper lemmas come first, then the claim theorems `C1_…` …
`C10_…`, each preceded by its claim. -/

theorem takeUntilRB_length :
    ∀ (l a b : List Char), takeUntilRB l = some (a, b) → b.length < l.length := by
  intro l
  induction l with
  | nil => intro a b h; simp [takeUntilRB] at h
  | cons c rest ih =>
    intro a b h
    simp only [takeUntilRB] at h
    by_cases hc : c = ']'
    · simp [hc] at h
      simp [← h.2]
    · simp only [hc, if_false] at h
      cases hr : takeUntilRB rest with
      | none => rw [hr] at h; simp at h
      | some p =>
        rw [hr] at h
        simp at h
        have := ih p.1 p.2 (by rw [hr])
        simp [← h.2]
        omega

theorem splitClass_length :
    ∀ (l a b : List Char), splitClass l = some (a, b) → b.length < l.length := by
  intro l a b h
  unfold splitClass at h
  split at h
  · cases hr : takeUntilRB _ with
    | none => rw [hr] at h; simp at h
    | some p =>
      rw [hr] at h; simp at h
      have := takeUntilRB_length _ p.1 p.2 (by rw [hr])
      simp [← h.2]
      omega
  · cases hr : takeUntilRB _ with
    | none => rw [hr] at h; simp at h
    | some p =>
      rw [hr] at h; simp at h
      have := takeUntilRB_length _ p.1 p.2 (by rw [hr])
      simp [← h.2]
      omega
  · cases hr : takeUntilRB _ with
    | none => rw [hr] at h; simp at h
    | some p =>
      rw [hr] at h; simp at h
      have := takeUntilRB_length _ p.1 p.2 (by rw [hr])
      simp [← h.2]
      omega
  · exact takeUntilRB_length _ a b h

/-- Tokenizing is independent of the fuel once the fuel covers the
pattern's length. -/
theorem tokenizeF_fuel_irrel :
    ∀ (f1 f2 : Nat) (l : List Char), l.length ≤ f1 → l.length ≤ f2 →
      tokenizeF f1 l = tokenizeF f2 l := by
  intro f1
  induction f1 with
  | zero =>
    intro f2 l h1 _
    have : l = [] := List.length_eq_zero.mp (Nat.le_zero.mp h1)
    subst this
    cases f2 <;> rfl
  | succ f ih =>
    intro f2 l h1 h2
    cases l with
    | nil => cases f2 <;> rfl
    | cons c rest =>
      cases f2 with
      | zero => exact absurd h2 (by simp)
      | succ g =>
        simp only [List.length_cons, Nat.succ_le_succ_iff] at h1 h2
        simp only [tokenizeF]
        by_cases hs : c = '*'
        · simp [hs, ih g rest h1 h2]
        · by_cases hq : c = '?'
          · simp [hs, hq, ih g rest h1 h2]
          · by_cases hb : c = '['
            · simp only [hs, hq, hb, if_false, if_true]
              cases hsp : splitClass rest with
              | none => simp [ih g rest h1 h2]
              | some p =>
                have hlen := splitClass_length rest p.1 p.2 (by rw [hsp])
                simp [ih g p.2 (by omega) (by omega)]
            · simp [hs, hq, hb, ih g rest h1 h2]

example : fnmatch "abc" "a*c" = true := by decide
example : fnmatch "abc" "a?c" = true := by decide
example : fnmatch "abc" "a?d" = false := by decide
example : fnmatch "ab" "[a-c]b" = true := by decide
example : fnmatch "db" "[a-c]b" = false := by decide
example : fnmatch "db" "[!a-c]b" = true := by decide
example : fnmatch "a[b" "a[b" = true := by decide
example : should_ignore "https://foo.example.com/x" ["*.example.com"] = true := by
  decide
example : should_ignore "https://foo.other.com" ["*.example.com"] = false := by
  decide
example : should_ignore "FOO.example.com" ["foo.*"] = true := by decide
example : should_ignore "foo" [] = false := by decide
example : should_ignore "foo" [" foo "] = true := by decide

/-! ## Claim C1 — the auth-expiry retry bound

As stated, the claim is refuted: after a successful re-authentication, a
second `AuthExpired` on the same operation does *not* terminate the run.
`get_or_create_tag` (and likewise the other wrappers) falls through to the
warning branch and returns the `None` sentinel, and the run continues; the
only fatal path is a failing re-authentication itself (`sys.exit(1)`
inside `ensure_authenticated`, lines 188–199). -/

/-- **C1, counterexample.**  An operation whose every attempt reports
`AuthExpired`, with re-authentication succeeding: the engine retries once
and then *returns the `None` sentinel normally* — it does not terminate
the run with a non-zero exit status as the claim states. -/
theorem C1_counterexample :
    get_or_create_tag (fun _ => ApiOutcome.authExpired) true true =
      RunResult.done none ∧
    get_or_create_tag (fun _ => ApiOutcome.authExpired) true true ≠
      RunResult.exited 1 := by
  constructor
  · rfl
  · decide

/-- **C1, amended.**  On `AuthExpired` the engine re-authenticates and
retries the same operation exactly once: the result is then decided by
attempt 1 alone; a failing re-authentication terminates the run with exit
status 1; but a second `AuthExpired` makes the operation return its no-id
sentinel (`None`) and the run continues.  The same shape holds for the
Docker-host lookup and for each `add_monitor_tag` call. -/
theorem C1_auth_retry_bound (op : Nat → ApiOutcome) (dop : Nat → HostLookup)
    (aop : Nat → CallOutcome)
    (h0 : op 0 = ApiOutcome.authExpired) (h1 : dop 0 = HostLookup.authExpired)
    (h2 : aop 0 = CallOutcome.authExpired) :
    (get_or_create_tag op true true =
       match op 1 with
       | ApiOutcome.ok i => RunResult.done (some i)
       | _ => RunResult.done none) ∧
    get_or_create_tag op true false = RunResult.exited 1 ∧
    (op 1 = ApiOutcome.authExpired →
       get_or_create_tag op true true = RunResult.done none) ∧
    (get_docker_host_id dop true true =
       match dop 1 with
       | HostLookup.found i => RunResult.done (some i)
       | _ => RunResult.done none) ∧
    get_docker_host_id dop true false = RunResult.exited 1 ∧
    addOneTagCalls 5 aop true true = RunResult.done [(5, 0), (5, 1)] ∧
    addOneTagCalls 5 aop true false = RunResult.exited 1 := by
  refine ⟨?_, ?_, ?_, ?_, ?_, ?_, ?_⟩
  · simp only [get_or_create_tag, h0, if_true]
  · simp [get_or_create_tag, h0]
  · intro h1'
    simp [get_or_create_tag, h0, h1']
  · simp only [get_docker_host_id, h1, if_true]
  · simp [get_docker_host_id, h1]
  · simp [addOneTagCalls, h2]
  · simp [addOneTagCalls, h2]

/-- **C1, witness.**  The amended theorem at the all-`AuthExpired`
oracles. -/
theorem C1_auth_retry_bound_witness :
    get_or_create_tag (fun _ => ApiOutcome.authExpired) true false =
      RunResult.exited 1 :=
  (C1_auth_retry_bound (fun _ => ApiOutcome.authExpired)
    (fun _ => HostLookup.authExpired) (fun _ => CallOutcome.authExpired)
    rfl rfl rfl).2.1

/-! ## Shared lemmas about the tag-call wrappers -/

/-- With re-authentication succeeding, the per-tag add loop always returns
normally, makes at least one call, and calls only its own tag id. -/
theorem addOneTagCalls_spec (tid : Nat) (o : Nat → CallOutcome) (he : Bool) :
    ∃ l, addOneTagCalls tid o he true = RunResult.done l ∧ l ≠ [] ∧
      ∀ p ∈ l, p.1 = tid := by
  unfold addOneTagCalls
  cases o 0 with
  | ok => exact ⟨[(tid, 0)], rfl, by simp, by simp⟩
  | authExpired =>
    cases he with
    | true => exact ⟨[(tid, 0), (tid, 1)], rfl, by simp, by simp⟩
    | false => exact ⟨[(tid, 0)], rfl, by simp, by simp⟩
  | otherError => exact ⟨[(tid, 0)], rfl, by simp, by simp⟩

/-- With re-authentication succeeding, `add_tags_to_monitor` always
returns normally; its calls all carry a non-zero id from the input list,
and it makes no call at all exactly when every input id is falsy. -/
theorem add_tags_spec (tag_ids : List (Option Nat)) (op : Nat → Nat → CallOutcome)
    (he : Bool) :
    ∃ calls, add_tags_to_monitor tag_ids op he true = RunResult.done calls ∧
      (∀ p ∈ calls, p.1 ≠ 0 ∧ some p.1 ∈ tag_ids) ∧
      (calls = [] ↔ ∀ t ∈ tag_ids, truthyId t = false) := by
  induction tag_ids with
  | nil => exact ⟨[], rfl, by simp, by simp⟩
  | cons t rest ih =>
    obtain ⟨calls, hc, hmem, hiff⟩ := ih
    cases t with
    | none =>
      refine ⟨calls, by simpa [add_tags_to_monitor] using hc, ?_, ?_⟩
      · intro p hp
        exact ⟨(hmem p hp).1, List.mem_cons_of_mem _ (hmem p hp).2⟩
      · simpa [truthyId] using hiff
    | some tid =>
      by_cases h0 : tid = 0
      · subst h0
        refine ⟨calls, by simpa [add_tags_to_monitor] using hc, ?_, ?_⟩
        · intro p hp
          exact ⟨(hmem p hp).1, List.mem_cons_of_mem _ (hmem p hp).2⟩
        · simpa [truthyId] using hiff
      · obtain ⟨l, hl, hlne, hlmem⟩ := addOneTagCalls_spec tid (op tid) he
        refine ⟨l ++ calls, ?_, ?_, ?_⟩
        · simp [add_tags_to_monitor, h0, hl, hc]
        · intro p hp
          rcases List.mem_append.mp hp with h | h
          · exact ⟨by rw [hlmem p h]; exact h0, by rw [hlmem p h]; simp⟩
          · exact ⟨(hmem p h).1, List.mem_cons_of_mem _ (hmem p h).2⟩
        · constructor
          · intro he'
            exact absurd (List.append_eq_nil.mp he').1 hlne
          · intro hall
            have := hall (some tid) (by simp)
            simp [truthyId, h0] at this

/-- With re-authentication succeeding, the per-tag delete loop always
returns normally, makes at least one call, and calls only its own id. -/
theorem removeOneTagCalls_spec (tid : Nat) (o : Nat → CallOutcome) :
    ∃ l f, removeOneTagCalls tid o true = RunResult.done (l, f) ∧ l ≠ [] ∧
      ∀ p ∈ l, p.1 = tid := by
  unfold removeOneTagCalls
  cases o 0 with
  | ok => exact ⟨[(tid, 0)], false, rfl, by simp, by simp⟩
  | authExpired =>
    cases o 1 with
    | ok => exact ⟨[(tid, 0), (tid, 1)], false, by simp, by simp, by simp⟩
    | authExpired => exact ⟨[(tid, 0), (tid, 1)], true, by simp, by simp, by simp⟩
    | otherError => exact ⟨[(tid, 0), (tid, 1)], true, by simp, by simp, by simp⟩
  | otherError => exact ⟨[(tid, 0)], true, rfl, by simp, by simp⟩

/-- With re-authentication succeeding, the removal loop attempts every
current tag — an earlier failure never blocks a later removal — and
returns normally. -/
theorem removeAllTags_spec (tags : List Nat) (op : Nat → Nat → CallOutcome) :
    ∃ calls failed, removeAllTags tags op true = RunResult.done (calls, failed) ∧
      ∀ t ∈ tags, ∃ a, (t, a) ∈ calls := by
  induction tags with
  | nil => exact ⟨[], false, rfl, by simp⟩
  | cons t rest ih =>
    obtain ⟨calls, failed, hc, hmem⟩ := ih
    obtain ⟨l, f, hl, hlne, hlmem⟩ := removeOneTagCalls_spec t (op t)
    refine ⟨l ++ calls, f || failed, ?_, ?_⟩
    · simp [removeAllTags, hl, hc]
    · intro u hu
      rcases List.mem_cons.mp hu with hu | hu
      · subst hu
        obtain ⟨p, hp⟩ := List.exists_mem_of_ne_nil l hlne
        obtain ⟨p1, p2⟩ := p
        have hpt : p1 = u := hlmem (p1, p2) hp
        subst hpt
        exact ⟨p2, List.mem_append_left _ hp⟩
      · obtain ⟨a, ha⟩ := hmem u hu
        exact ⟨a, List.mem_append_right _ ha⟩

/-! ## Claim C10 — `add_tags_to_monitor` skips falsy ids and never raises -/

/-- **C10.**  For any tag-id list and any per-call outcomes (with
re-authentication available and succeeding), `add_tags_to_monitor` returns
normally — it never raises; every `add_monitor_tag` call it issues carries
a non-zero tag id taken from the list, so falsy entries (the unresolved
sentinel `None`, or `0`) never reach the API; and no call at all is made
exactly when every entry is falsy. -/
theorem C10_add_tags_skips_falsy (tag_ids : List (Option Nat))
    (op : Nat → Nat → CallOutcome) (hasEnsure : Bool) :
    ∃ calls, add_tags_to_monitor tag_ids op hasEnsure true = RunResult.done calls ∧
      (∀ p ∈ calls, p.1 ≠ 0 ∧ some p.1 ∈ tag_ids) ∧
      (calls = [] ↔ ∀ t ∈ tag_ids, truthyId t = false) :=
  add_tags_spec tag_ids op hasEnsure

/-! ## Claim C7 — the Reset tag policy -/

/-- **C7.**  Under the Reset policy, for a monitor with current tags the
engine attempts the removal of every current tag (one failure never blocks
the other removals); if any removal ultimately failed, the trace is the
removal calls only — the add phase is skipped; if none failed, the
removals all precede the added required tags; a monitor with no current
tags goes straight to the add phase; and one monitor's outcome never stops
the processing of the next monitor. -/
theorem C7_reset_tag_policy (tags : List Nat) (removeOp addOp : Nat → Nat → CallOutcome)
    (required : List (Option Nat)) :
    (∃ calls failed,
       removeAllTags tags removeOp true = RunResult.done (calls, failed) ∧
       (∀ t ∈ tags, ∃ a, (t, a) ∈ calls) ∧
       (failed = true →
         resetMonitorTags tags removeOp addOp required true =
           RunResult.done (calls.map fun p => TagCall.removeTag p.1 p.2)) ∧
       (failed = false → ∃ adds,
         add_tags_to_monitor required addOp true true = RunResult.done adds ∧
         resetMonitorTags tags removeOp addOp required true =
           RunResult.done ((calls.map fun p => TagCall.removeTag p.1 p.2) ++
             adds.map fun p => TagCall.addTag p.1 p.2))) ∧
    (∃ adds,
       add_tags_to_monitor required addOp true true = RunResult.done adds ∧
       resetMonitorTags [] removeOp addOp required true =
         RunResult.done (adds.map fun p => TagCall.addTag p.1 p.2)) ∧
    (∀ ms m calls out,
       resetMonitorTags m removeOp addOp required true = RunResult.done calls →
       resetMonitorsLoop ms removeOp addOp required true = RunResult.done out →
       resetMonitorsLoop (m :: ms) removeOp addOp required true =
         RunResult.done (calls :: out)) := by
  obtain ⟨adds, hadds, _, _⟩ := add_tags_spec required addOp true
  refine ⟨?_, ⟨adds, hadds, by simp [resetMonitorTags, hadds]⟩, ?_⟩
  · obtain ⟨calls, failed, hra, hmem⟩ := removeAllTags_spec tags removeOp
    refine ⟨calls, failed, hra, hmem, ?_, ?_⟩
    · intro hf
      subst hf
      cases tags with
      | nil => simp [removeAllTags] at hra
      | cons t rest => simp [resetMonitorTags, hra]
    · intro hf
      subst hf
      refine ⟨adds, hadds, ?_⟩
      cases tags with
      | nil =>
        have : calls = [] := by
          simp [removeAllTags] at hra
          exact hra
        subst this
        simp [resetMonitorTags, hadds]
      | cons t rest => simp [resetMonitorTags, hra, hadds]
  · intro ms m calls out h1 h2
    simp [resetMonitorsLoop, h1, h2]

/-! ## Claim C8 — the tag resolver is idempotent and failure-tolerant -/

/-- **C8.**  If a first `get_or_create_tag` for a name returns identifier
`t` (creating the tag when absent), a second call in the same run with the
same name returns the same `t` through the lookup branch — same state, no
new event; and the effectful wrapper never terminates the run when
re-authentication succeeds: on persistent failure (no attempt ever
returns a tag id) it returns the `None` sentinel normally, so a
tag-resolution failure cannot abort a monitor creation. -/
theorem C8_tag_resolver_idempotent (s : KumaState) (name : String) (t : Nat)
    (s1 : KumaState) (ev : List Event)
    (h : getOrCreateTagState s name = (some t, s1, ev)) :
    getOrCreateTagState s1 name = (some t, s1, []) ∧
    (∀ op hasEnsure, (∀ n i, op n ≠ ApiOutcome.ok i) →
       get_or_create_tag op hasEnsure true = RunResult.done none) ∧
    (∀ op hasEnsure, ∃ r, get_or_create_tag op hasEnsure true = RunResult.done r) := by
  refine ⟨?_, ?_, ?_⟩
  · cases hf : s.tags.find? fun p => p.2 == name with
    | some tg =>
      simp only [getOrCreateTagState, hf, Prod.mk.injEq, Option.some.injEq] at h
      obtain ⟨h1, h2, h3⟩ := h
      subst h2
      simp [getOrCreateTagState, hf, h1]
    | none =>
      simp only [getOrCreateTagState, hf, Prod.mk.injEq, Option.some.injEq] at h
      obtain ⟨h1, h2, h3⟩ := h
      subst h2
      simp [getOrCreateTagState, List.find?_append, hf, h1]
  · intro op hasEnsure hop
    unfold get_or_create_tag
    cases h0 : op 0 with
    | ok i => exact absurd h0 (hop 0 i)
    | authExpired =>
      cases hasEnsure with
      | true =>
        cases h1 : op 1 with
        | ok i => exact absurd h1 (hop 1 i)
        | authExpired => simp
        | otherError => simp
      | false => simp
    | otherError => simp
  · intro op hasEnsure
    unfold get_or_create_tag
    cases op 0 with
    | ok i => exact ⟨some i, rfl⟩
    | authExpired =>
      cases hasEnsure with
      | true =>
        cases op 1 with
        | ok i => exact ⟨some i, rfl⟩
        | authExpired => exact ⟨none, rfl⟩
        | otherError => exact ⟨none, rfl⟩
      | false => exact ⟨none, rfl⟩
    | otherError => exact ⟨none, rfl⟩

/-- **C8, witness.**  The theorem at a fresh state and the name `"g"`:
the first call creates tag 1, the second returns the same id with no
state change and no event. -/
theorem C8_tag_resolver_idempotent_witness :
    getOrCreateTagState ⟨[], [(1, "g")], [], 1, 2⟩ "g" =
      (some 1, ⟨[], [(1, "g")], [], 1, 2⟩, []) :=
  (C8_tag_resolver_idempotent ⟨[], [], [], 1, 1⟩ "g" 1 ⟨[], [(1, "g")], [], 1, 2⟩
    [Event.createdTag 1 "g"] rfl).1

/-! ## Claim C9 — the Traefik host extraction -/

/-- Membership in the collected host set, by induction over the router
list (generalising the fold's accumulator). -/
theorem mem_collectHosts (routers : List (String × Router)) (x : String) :
    x ∈ collectHosts routers ↔
      ∃ rp ∈ routers, "https" ∈ rp.2.entryPoints ∧
        ∃ nm, hostFromRule rp.2.rule = some nm ∧ x = "https://" ++ nm := by
  have aux : ∀ (rs : List (String × Router)) (acc : Finset String),
      x ∈ rs.foldl
        (fun acc rp =>
          if "https" ∈ rp.2.entryPoints then
            match hostFromRule rp.2.rule with
            | some nm => insert ("https://" ++ nm) acc
            | none => acc
          else acc) acc ↔
      x ∈ acc ∨ ∃ rp ∈ rs, "https" ∈ rp.2.entryPoints ∧
        ∃ nm, hostFromRule rp.2.rule = some nm ∧ x = "https://" ++ nm := by
    intro rs
    induction rs with
    | nil => simp
    | cons rp rest ih =>
      intro acc
      rw [List.foldl_cons, ih]
      by_cases hhttps : "https" ∈ rp.2.entryPoints
      · cases hr : hostFromRule rp.2.rule with
        | none => simp [hhttps, hr]
        | some nm =>
          simp only [hhttps, if_true, hr, Finset.mem_insert, List.mem_cons]
          constructor
          · rintro (⟨hx | hx⟩ | h)
            · exact Or.inr ⟨rp, Or.inl rfl, hhttps, nm, hr, hx⟩
            · exact Or.inl hx
            · obtain ⟨q, hq, h2⟩ := h
              exact Or.inr ⟨q, Or.inr hq, h2⟩
          · rintro (hx | ⟨q, hq | hq, hq2, nm2, hr2, hx⟩)
            · exact Or.inl (Or.inr hx)
            · subst hq
              have hnm : nm = nm2 := Option.some.inj (hr.symm.trans hr2)
              subst hnm
              exact Or.inl (Or.inl hx)
            · exact Or.inr ⟨q, hq, hq2, nm2, hr2, hx⟩
      · simp [hhttps]
  rw [collectHosts, aux routers ∅]
  simp

/-- **C9.**  A host is in the extracted list exactly when some router has
`"https"` among its entry points and its rule matches the
Host-with-backticks pattern (first match), contributing
`https://hostname`; the list is sorted and duplicate-free; and a fetch or
parse failure yields `[]`. -/
theorem C9_extract_hosts (routers : List (String × Router)) :
    (∀ h, h ∈ extract_hosts_from_traefik (some routers) ↔
       ∃ rp ∈ routers, "https" ∈ rp.2.entryPoints ∧
         ∃ nm, hostFromRule rp.2.rule = some nm ∧ h = "https://" ++ nm) ∧
    (extract_hosts_from_traefik (some routers)).Sorted (· ≤ ·) ∧
    (extract_hosts_from_traefik (some routers)).Nodup ∧
    extract_hosts_from_traefik none = [] := by
  refine ⟨?_, ?_, ?_, rfl⟩
  · intro h
    rw [extract_hosts_from_traefik, Finset.mem_sort]
    exact mem_collectHosts routers h
  · exact Finset.sort_sorted _ _
  · exact Finset.sort_nodup _ _

/-! ## Claim C5 — natural-key matching -/

/-- A name is among the existing Docker-monitor names for a runtime host
exactly when some snapshot monitor is a Docker monitor with that name
attached to that host. -/
theorem existingDockerNames_mem (snapshot : List Monitor) (hid : Nat) (c : String) :
    c ∈ existingDockerNames snapshot hid ↔
      ∃ m ∈ snapshot, m.type = MonType.docker ∧ m.name = c ∧
        m.docker_host = some hid := by
  simp only [existingDockerNames, List.mem_map, List.mem_filter, decide_eq_true_eq]
  constructor
  · rintro ⟨m, ⟨hm, hty, hdh⟩, hnm⟩
    exact ⟨m, hm, hty, hnm, hdh⟩
  · rintro ⟨m, hm, hty, hnm, hdh⟩
    exact ⟨m, ⟨hm, hty, hdh⟩, hnm⟩

/-- **C5.**  An HTTP identifier is matched by exact URL string equality
and a workload identifier by equality of the (name, runtime-host) pair: a
host is in a Traefik creation batch iff it is desired and no URL equals
it; a container is in a Docker creation batch iff it is desired and no
Docker-type monitor carries the same name under the *same* runtime host —
the same name under a different host does not block creation; and for
desired `{A, B}` with an existing monitor whose URL is `A`, the batch is
exactly `[B]`. -/
theorem C5_natural_key_matching :
    (∀ (hosts existing : List String) (h : String),
       h ∈ missingHosts hosts existing ↔ h ∈ hosts ∧ h ∉ existing) ∧
    (∀ (containers : List String) (snapshot : List Monitor) (hid : Nat) (c : String),
       c ∈ missingContainers containers snapshot hid ↔
         c ∈ containers ∧ ¬ ∃ m ∈ snapshot, m.type = MonType.docker ∧
           m.name = c ∧ m.docker_host = some hid) ∧
    (∀ (m : Monitor) (hid hid2 : Nat) (c : String),
       m.type = MonType.docker → m.name = c → m.docker_host = some hid2 →
       hid2 ≠ hid → c ∈ missingContainers [c] [m] hid) ∧
    (∀ (A B : String) (m : Monitor), m.url = A → A ≠ B → A ≠ "" →
       missingHosts [A, B] (existingUrls [m]) = [B]) := by
  refine ⟨?_, ?_, ?_, ?_⟩
  · intro hosts existing h
    simp [missingHosts, List.mem_filter]
  · intro containers snapshot hid c
    rw [show (¬ ∃ m ∈ snapshot, m.type = MonType.docker ∧ m.name = c ∧
          m.docker_host = some hid) = (c ∉ existingDockerNames snapshot hid) by
        rw [existingDockerNames_mem]]
    simp [missingContainers, List.contains, List.elem_eq_mem]
  · intro m hid hid2 c hty hnm hdh hne
    have h1 : existingDockerNames [m] hid = [] := by
      simp [existingDockerNames, hdh, hne]
    simp [missingContainers, h1]
  · intro A B m hurl hAB hA
    have h1 : existingUrls [m] = [A] := by simp [existingUrls, hurl, hA]
    rw [h1]
    simp [missingHosts, List.contains, List.elem_eq_mem, hAB, Ne.symm hAB]

/-! ## Event bookkeeping -/

theorem httpCreations_append (l1 l2 : List Event) (u : String) :
    httpCreations (l1 ++ l2) u = httpCreations l1 u + httpCreations l2 u := by
  simp [httpCreations, List.filter_append]

theorem dockerCreations_append (l1 l2 : List Event) (nm : String) (hid : Nat) :
    dockerCreations (l1 ++ l2) nm hid =
      dockerCreations l1 nm hid + dockerCreations l2 nm hid := by
  simp [dockerCreations, List.filter_append]

theorem tagAddCount_append (l1 l2 : List Event) :
    tagAddCount (l1 ++ l2) = tagAddCount l1 + tagAddCount l2 := by
  simp [tagAddCount, List.filter_append]

theorem creationCount_append (l1 l2 : List Event) :
    creationCount (l1 ++ l2) = creationCount l1 + creationCount l2 := by
  simp [creationCount, List.filter_append]

theorem httpCreations_zero (l : List Event) (u : String)
    (h : ∀ e ∈ l, isHttpCreation e = false) : httpCreations l u = 0 := by
  induction l with
  | nil => rfl
  | cons e rest ih =>
    have he := h e (by simp)
    have hr := ih fun e' he' => h e' (by simp [he'])
    cases e <;> simp [httpCreations, List.filter_cons] at hr ⊢ <;>
      first
        | exact hr
        | (simp [isHttpCreation] at he)

theorem httpCreations_single (mid : Nat) (h u : String) :
    httpCreations [Event.createdHttpMonitor mid h] u = if h = u then 1 else 0 := by
  by_cases hhu : h = u <;> simp [httpCreations, List.filter_cons, hhu]

theorem tagAddCount_zero (l : List Event)
    (h : ∀ e ∈ l, (match e with | Event.addedMonitorTag _ _ => false | _ => true) = true) :
    tagAddCount l = 0 := by
  induction l with
  | nil => rfl
  | cons e rest ih =>
    have he := h e (by simp)
    have hr := ih fun e' he' => h e' (by simp [he'])
    cases e <;> simp [tagAddCount, List.filter_cons] at he hr ⊢ <;> exact hr

theorem creationCount_zero (l : List Event)
    (h : ∀ e ∈ l,
      (match e with
       | Event.createdHttpMonitor _ _ => false
       | Event.createdDockerMonitor _ _ _ => false
       | _ => true) = true) :
    creationCount l = 0 := by
  induction l with
  | nil => rfl
  | cons e rest ih =>
    have he := h e (by simp)
    have hr := ih fun e' he' => h e' (by simp [he'])
    cases e <;> simp [creationCount, List.filter_cons] at he hr ⊢ <;> exact hr

/-! ## The success-path `add_tags_to_monitor` and tag resolution -/

theorem addTags_fold (mid : Nat) :
    ∀ (ids : List (Option Nat)) (s : KumaState) (evs0 : List Event),
      ids.foldl
        (fun acc o =>
          match o with
          | some tid =>
            if tid ≠ 0 then
              (addMonitorTagState acc.1 mid tid,
               acc.2 ++ [Event.addedMonitorTag mid tid])
            else acc
          | none => acc)
        (s, evs0) =
      ((truthyIds ids).foldl (fun st t => addMonitorTagState st mid t) s,
       evs0 ++ (truthyIds ids).map (Event.addedMonitorTag mid)) := by
  intro ids
  induction ids with
  | nil => intro s evs0; simp [truthyIds]
  | cons o rest ih =>
    intro s evs0
    cases o with
    | none =>
      rw [List.foldl_cons]
      rw [show (truthyIds (none :: rest)) = truthyIds rest by simp [truthyIds]]
      exact ih s evs0
    | some t =>
      by_cases ht : t = 0
      · subst ht
        rw [List.foldl_cons]
        rw [show (truthyIds (some 0 :: rest)) = truthyIds rest by simp [truthyIds]]
        exact ih s evs0
      · rw [List.foldl_cons]
        rw [show (truthyIds (some t :: rest)) = t :: truthyIds rest by
          simp [truthyIds, ht]]
        simp only [ht, ne_eq, not_false_eq_true, if_true]
        rw [ih]
        simp

theorem addTagsSuccess_eq (s : KumaState) (mid : Nat) (ids : List (Option Nat)) :
    addTagsSuccess s mid ids =
      ((truthyIds ids).foldl (fun st t => addMonitorTagState st mid t) s,
       (truthyIds ids).map (Event.addedMonitorTag mid)) := by
  unfold addTagsSuccess
  rw [addTags_fold mid ids s []]
  simp

theorem addTagsSuccess_events (s : KumaState) (mid : Nat) (ids : List (Option Nat)) :
    ∀ e ∈ (addTagsSuccess s mid ids).2, ∃ t, e = Event.addedMonitorTag mid t := by
  rw [addTagsSuccess_eq]
  intro e he
  obtain ⟨t, _, rfl⟩ := List.mem_map.mp he
  exact ⟨t, rfl⟩

theorem getOrCreateTagState_events (s : KumaState) (n : String) :
    (getOrCreateTagState s n).2.2 = [] ∨
      ∃ tid, (getOrCreateTagState s n).2.2 = [Event.createdTag tid n] := by
  unfold getOrCreateTagState
  cases s.tags.find? fun t => t.2 == n with
  | some tg => exact Or.inl rfl
  | none => exact Or.inr ⟨s.nextTagId, rfl⟩

/-- `resolveGroupTag` only touches the server state and appends at most a
tag-creation event. -/
theorem resolveGroupTag_spec (ctx : RunCtx) (group : String) :
    (resolveGroupTag ctx group).2.snapshot = ctx.snapshot ∧
    (resolveGroupTag ctx group).2.existing_urls = ctx.existing_urls ∧
    ∃ app, (resolveGroupTag ctx group).2.events = ctx.events ++ app ∧
      ∀ e ∈ app, isDeletion e = false ∧ isHttpCreation e = false ∧
        isTagMutation e = false ∧
        (match e with
         | Event.createdDockerMonitor _ _ _ => false
         | _ => true) = true := by
  refine ⟨rfl, rfl,
    (if group ≠ "" then getOrCreateTagState ctx.server group
     else (none, ctx.server, [])).2.2, rfl, ?_⟩
  by_cases hg : group ≠ ""
  · rw [if_pos hg]
    intro e he
    rcases getOrCreateTagState_events ctx.server group with h | ⟨tid, h⟩
    · rw [h] at he; simp at he
    · rw [h] at he
      simp only [List.mem_singleton] at he
      subst he
      exact ⟨rfl, rfl, rfl, rfl⟩
  · rw [if_neg hg]
    intro e he
    simp at he

/-! ## Context-fold infrastructure -/

/-- Folding a step that preserves `existing_urls` and the snapshot and only
appends `P`-events preserves all three properties. -/
theorem foldl_ctx_spec {α : Type} (f : RunCtx → α → RunCtx) (P : Event → Bool)
    (hf : ∀ c a, (f c a).existing_urls = c.existing_urls ∧
      (f c a).snapshot = c.snapshot ∧
      ∃ app, (f c a).events = c.events ++ app ∧ ∀ e ∈ app, P e = true) :
    ∀ (l : List α) (c : RunCtx),
      (l.foldl f c).existing_urls = c.existing_urls ∧
      (l.foldl f c).snapshot = c.snapshot ∧
      ∃ app, (l.foldl f c).events = c.events ++ app ∧ ∀ e ∈ app, P e = true := by
  intro l
  induction l with
  | nil => intro c; exact ⟨rfl, rfl, [], by simp, by simp⟩
  | cons a rest ih =>
    intro c
    obtain ⟨h1, h2, app1, h3, h4⟩ := hf c a
    obtain ⟨g1, g2, app2, g3, g4⟩ := ih (f c a)
    refine ⟨by rw [List.foldl_cons, g1, h1], by rw [List.foldl_cons, g2, h2],
      app1 ++ app2, ?_, ?_⟩
    · rw [List.foldl_cons, g3, h3, List.append_assoc]
    · intro e he
      rcases List.mem_append.mp he with h | h
      exacts [h4 e h, g4 e h]

/-- Every event `reconcileServer` emits is a tag mutation. -/
theorem reconcileServer_events (s : KumaState) (m : Monitor) (t k : Option Nat)
    (r : Bool) :
    ∀ e ∈ (reconcileServer s m t k r).2, isTagMutation e = true := by
  intro e he
  unfold reconcileServer at he
  by_cases hr : r = true
  · rw [if_pos hr] at he
    by_cases hl : m.tags.length > 0
    · rw [if_pos hl] at he
      simp only at he
      rcases List.mem_append.mp he with h | h
      · obtain ⟨tr, _, rfl⟩ := List.mem_map.mp h
        rfl
      · obtain ⟨tid, rfl⟩ := addTagsSuccess_events _ _ _ e h
        rfl
    · rw [if_neg hl] at he
      obtain ⟨tid, rfl⟩ := addTagsSuccess_events _ _ _ e he
      rfl
  · rw [if_neg hr] at he
    by_cases ha : (additiveTagsToAdd m.tags t k).isEmpty
    · rw [if_pos ha] at he
      simp at he
    · rw [if_neg ha] at he
      obtain ⟨tid, rfl⟩ := addTagsSuccess_events _ _ _ e he
      rfl

/-- `reconcileMonitorTags` leaves `existing_urls` and the snapshot alone
and appends only tag mutations. -/
theorem reconcileMonitorTags_spec (c : RunCtx) (m : Monitor) (t k : Option Nat)
    (r : Bool) :
    (reconcileMonitorTags c m t k r).existing_urls = c.existing_urls ∧
    (reconcileMonitorTags c m t k r).snapshot = c.snapshot ∧
    ∃ app, (reconcileMonitorTags c m t k r).events = c.events ++ app ∧
      ∀ e ∈ app, isTagMutation e = true :=
  ⟨rfl, rfl, (reconcileServer c.server m t k r).2, rfl,
    reconcileServer_events c.server m t k r⟩

/-- The per-host tag-check step has the fold-compatible shape. -/
theorem reconcileHttpStep_spec (t k : Option Nat) (r : Bool) (c : RunCtx) (h : String) :
    (reconcileHttpStep t k r c h).existing_urls = c.existing_urls ∧
    (reconcileHttpStep t k r c h).snapshot = c.snapshot ∧
    ∃ app, (reconcileHttpStep t k r c h).events = c.events ++ app ∧
      ∀ e ∈ app, isTagMutation e = true := by
  unfold reconcileHttpStep
  cases firstUrlMatch c.snapshot h with
  | none => exact ⟨rfl, rfl, [], by simp, by simp⟩
  | some m => exact reconcileMonitorTags_spec c m t k r

/-- The per-container tag-check step has the fold-compatible shape. -/
theorem reconcileDockerStep_spec (t k : Option Nat) (hid : Nat) (r : Bool)
    (c : RunCtx) (cname : String) :
    (reconcileDockerStep t k hid r c cname).existing_urls = c.existing_urls ∧
    (reconcileDockerStep t k hid r c cname).snapshot = c.snapshot ∧
    ∃ app, (reconcileDockerStep t k hid r c cname).events = c.events ++ app ∧
      ∀ e ∈ app, isTagMutation e = true := by
  unfold reconcileDockerStep
  cases firstDockerMatch c.snapshot cname hid with
  | none => exact ⟨rfl, rfl, [], by simp, by simp⟩
  | some m => exact reconcileMonitorTags_spec c m t k r

/-- The whole Traefik tag-check phase: no change to `existing_urls` or the
snapshot, only tag mutations appended. -/
theorem traefikTagCheckPhase_spec (hosts : List String) (t k : Option Nat)
    (r : Bool) (c : RunCtx) :
    (traefikTagCheckPhase hosts t k r c).existing_urls = c.existing_urls ∧
    (traefikTagCheckPhase hosts t k r c).snapshot = c.snapshot ∧
    ∃ app, (traefikTagCheckPhase hosts t k r c).events = c.events ++ app ∧
      ∀ e ∈ app, isTagMutation e = true := by
  unfold traefikTagCheckPhase
  by_cases ht : truthyId t = true
  · rw [if_pos ht]
    exact foldl_ctx_spec _ _ (fun c' h => reconcileHttpStep_spec t k r c' h) _ c
  · rw [if_neg ht]
    exact ⟨rfl, rfl, [], by simp, by simp⟩

/-- The whole Docker tag-check phase: no change to `existing_urls` or the
snapshot, only tag mutations appended. -/
theorem dockerTagCheckPhase_spec (containers : List String) (t k : Option Nat)
    (hid : Nat) (r : Bool) (c : RunCtx) :
    (dockerTagCheckPhase containers t k hid r c).existing_urls = c.existing_urls ∧
    (dockerTagCheckPhase containers t k hid r c).snapshot = c.snapshot ∧
    ∃ app, (dockerTagCheckPhase containers t k hid r c).events = c.events ++ app ∧
      ∀ e ∈ app, isTagMutation e = true := by
  unfold dockerTagCheckPhase
  by_cases ht : (truthyId t || truthyId k) = true
  · rw [if_pos ht]
    exact foldl_ctx_spec _ _ (fun c' h => reconcileDockerStep_spec t k hid r c' h) _ c
  · rw [if_neg ht]
    exact ⟨rfl, rfl, [], by simp, by simp⟩

/-- A tag mutation is neither a deletion nor an HTTP creation. -/
theorem tagMutation_not_del_http (e : Event) (h : isTagMutation e = true) :
    isDeletion e = false ∧ isHttpCreation e = false := by
  cases e with
  | addedMonitorTag a b => exact ⟨rfl, rfl⟩
  | removedMonitorTag a b => exact ⟨rfl, rfl⟩
  | deletedMonitor a => simp [isTagMutation] at h
  | createdTag a b => simp [isTagMutation] at h
  | createdHttpMonitor a b => simp [isTagMutation] at h
  | createdDockerMonitor a b c => simp [isTagMutation] at h

/-- The Docker creation step: `existing_urls` and the snapshot are
untouched (this is the gap behind claim C2), and the appended events are a
Docker creation plus tag adds. -/
theorem createDockerStep_spec (t k : Option Nat) (hid : Nat) (c : RunCtx)
    (cname : String) :
    (createDockerStep t k hid c cname).existing_urls = c.existing_urls ∧
    (createDockerStep t k hid c cname).snapshot = c.snapshot ∧
    ∃ app, (createDockerStep t k hid c cname).events = c.events ++ app ∧
      ∀ e ∈ app, isDeletion e = false ∧ isHttpCreation e = false := by
  refine ⟨rfl, rfl, _, rfl, ?_⟩
  intro e he
  rcases List.mem_append.mp he with h | h
  · simp only [List.mem_singleton] at h
    subst h
    exact ⟨rfl, rfl⟩
  · by_cases hm : c.server.nextMonitorId ≠ 0
    · rw [if_pos hm] at h
      obtain ⟨tid, rfl⟩ := addTagsSuccess_events _ _ _ e h
      exact ⟨rfl, rfl⟩
    · rw [if_neg hm] at h
      simp at h

/-- The whole Docker group: `existing_urls` and the snapshot are
untouched, and no deletion and no HTTP creation is appended. -/
theorem processDockerServer_spec (cof : String → List String) (reset : Bool)
    (ctx : RunCtx) (info : ServerInfo) :
    (processDockerServer cof reset ctx info).existing_urls = ctx.existing_urls ∧
    (processDockerServer cof reset ctx info).snapshot = ctx.snapshot ∧
    ∃ app, (processDockerServer cof reset ctx info).events = ctx.events ++ app ∧
      ∀ e ∈ app, isDeletion e = false ∧ isHttpCreation e = false := by
  obtain ⟨r1s, r1u, app1, r1e, r1p⟩ := resolveGroupTag_spec ctx info.group
  obtain ⟨r2s, r2u, app2, r2e, r2p⟩ :=
    resolveGroupTag_spec (resolveGroupTag ctx info.group).2 "docker"
  set t := resolveGroupTag ctx info.group with hT
  set t2 := resolveGroupTag t.2 "docker" with hT2
  have b1 : t2.2.existing_urls = ctx.existing_urls := by rw [r2u, r1u]
  have b2 : t2.2.snapshot = ctx.snapshot := by rw [r2s, r1s]
  have b3 : t2.2.events = ctx.events ++ (app1 ++ app2) := by
    rw [r2e, r1e, List.append_assoc]
  have b4 : ∀ e ∈ app1 ++ app2, isDeletion e = false ∧ isHttpCreation e = false := by
    intro e he
    rcases List.mem_append.mp he with h | h
    · exact ⟨(r1p e h).1, (r1p e h).2.1⟩
    · exact ⟨(r2p e h).1, (r2p e h).2.1⟩
  simp only [processDockerServer]
  rw [← hT, ← hT2]
  by_cases hc : (cof info.url).isEmpty
  · rw [if_pos hc]
    exact ⟨rfl, rfl, [], by simp, by simp⟩
  · rw [if_neg hc]
    split
    · exact ⟨b1, b2, app1 ++ app2, b3, b4⟩
    · rename_i hid hdh
      by_cases hz : hid = 0
      · rw [if_pos hz]
        exact ⟨b1, b2, app1 ++ app2, b3, b4⟩
      · rw [if_neg hz]
        obtain ⟨c1, c2, capp, c3, c4⟩ :=
          dockerTagCheckPhase_spec (cof info.url) t.1 t2.1 hid reset t2.2
        obtain ⟨d1, d2, dapp, d3, d4⟩ :=
          foldl_ctx_spec (createDockerStep t.1 t2.1 hid)
            (fun e => !isDeletion e && !isHttpCreation e)
            (by
              intro c a
              obtain ⟨e1, e2, eapp, e3, e4⟩ := createDockerStep_spec t.1 t2.1 hid c a
              exact ⟨e1, e2, eapp, e3, fun e h =>
                by simp [(e4 e h).1, (e4 e h).2]⟩)
            (missingContainers (cof info.url)
              (dockerTagCheckPhase (cof info.url) t.1 t2.1 hid reset t2.2).snapshot hid)
            (dockerTagCheckPhase (cof info.url) t.1 t2.1 hid reset t2.2)
        rw [dockerCreatePhase]
        refine ⟨by rw [d1, c1, b1], by rw [d2, c2, b2],
          (app1 ++ app2) ++ capp ++ dapp, ?_, ?_⟩
        · rw [d3, c3, b3]
          simp [List.append_assoc]
        · intro e he
          rcases List.mem_append.mp he with h | h
          · rcases List.mem_append.mp h with h' | h'
            · exact b4 e h'
            · exact tagMutation_not_del_http e (c4 e h')
          · have := d4 e h
            simp only [Bool.and_eq_true, Bool.not_eq_true'] at this
            exact this

/-! ## The HTTP creation step and the at-most-once invariant (claim C2) -/

theorem createHttpStep_existing (t k : Option Nat) (c : RunCtx) (h : String) :
    (createHttpStep t k c h).existing_urls = h :: c.existing_urls := rfl

theorem createHttpStep_snapshot (t k : Option Nat) (c : RunCtx) (h : String) :
    (createHttpStep t k c h).snapshot = c.snapshot := rfl

theorem createHttpStep_events (t k : Option Nat) (c : RunCtx) (h : String) :
    ∃ app, (createHttpStep t k c h).events =
      c.events ++ ([Event.createdHttpMonitor c.server.nextMonitorId h] ++ app) ∧
      ∀ e ∈ app, isHttpCreation e = false := by
  refine ⟨_, rfl, ?_⟩
  intro e he
  by_cases hm : c.server.nextMonitorId ≠ 0
  · rw [if_pos hm] at he
    obtain ⟨tid, rfl⟩ := addTagsSuccess_events _ _ _ e he
    rfl
  · rw [if_neg hm] at he
    simp at he

/-- Extending a run context without new HTTP creations and without
touching `existing_urls` preserves the at-most-once invariant. -/
theorem HttpOnce_mono (c c2 : RunCtx) (hu : c2.existing_urls = c.existing_urls)
    (happ : ∃ app, c2.events = c.events ++ app ∧ ∀ e ∈ app, isHttpCreation e = false)
    (h : HttpOnce c) : HttpOnce c2 := by
  obtain ⟨app, he, hno⟩ := happ
  intro u
  rw [he, httpCreations_append, httpCreations_zero app u hno, hu]
  simpa using h u

/-- One HTTP creation step preserves the invariant when its URL is not yet
in `existing_urls`. -/
theorem createHttpStep_HttpOnce (t k : Option Nat) (c : RunCtx) (h : String)
    (hc : c.existing_urls.contains h = false) (hinv : HttpOnce c) :
    HttpOnce (createHttpStep t k c h) := by
  intro u
  obtain ⟨app, he, hno⟩ := createHttpStep_events t k c h
  rw [he, createHttpStep_existing, httpCreations_append, httpCreations_append,
    httpCreations_zero app u hno, httpCreations_single]
  by_cases hu : h = u
  · subst hu
    have h0 : httpCreations c.events h = 0 := by
      rcases Nat.eq_zero_or_pos (httpCreations c.events h) with h0 | hpos
      · exact h0
      · rw [(hinv h).2 hpos] at hc
        cases hc
    rw [h0]
    exact ⟨by simp, fun _ => by simp [List.contains_cons]⟩
  · rw [if_neg hu]
    refine ⟨by simpa using (hinv u).1, fun hge => ?_⟩
    have := (hinv u).2 (by simpa using hge)
    have hm : u ∈ c.existing_urls := by simpa [List.contains] using this
    simp [List.contains_cons, hm]

/-- The creation fold preserves the invariant over a duplicate-free batch
of not-yet-existing URLs. -/
theorem createFold_HttpOnce (t k : Option Nat) :
    ∀ (l : List String) (c : RunCtx), l.Nodup →
      (∀ h ∈ l, c.existing_urls.contains h = false) → HttpOnce c →
      HttpOnce (l.foldl (createHttpStep t k) c) := by
  intro l
  induction l with
  | nil => intro c _ _ hinv; exact hinv
  | cons a rest ih =>
    intro c hnd hnc hinv
    rw [List.foldl_cons]
    apply ih
    · exact hnd.of_cons
    · intro h hh
      rw [createHttpStep_existing]
      have h1 : h ≠ a := by
        intro hcontra
        subst hcontra
        exact (List.nodup_cons.mp hnd).1 hh
      have h2 := hnc h (List.mem_cons_of_mem _ hh)
      have hm : h ∉ c.existing_urls := by simpa [List.contains] using h2
      rw [List.contains_cons]
      simp [h1, hm]
    · exact createHttpStep_HttpOnce t k c a (hnc a (by simp)) hinv

theorem missingHosts_not_contains (hosts ex : List String) :
    ∀ h ∈ missingHosts hosts ex, ex.contains h = false := by
  intro h hh
  have := (List.mem_filter.mp hh).2
  simpa using this

theorem missingHosts_nodup (hosts ex : List String) (h : hosts.Nodup) :
    (missingHosts hosts ex).Nodup := h.filter _

theorem filteredHosts_nodup (hosts_of : String → List String) (pats : List String)
    (info : ServerInfo) (h : (hosts_of info.url).Nodup) :
    (filteredHosts hosts_of pats info).Nodup := by
  unfold filteredHosts
  by_cases hp : pats.isEmpty
  · rw [if_pos hp]; exact h
  · rw [if_neg hp]; exact h.filter _

/-- One Traefik group preserves the at-most-once invariant (its hosts are
duplicate-free as `extract_hosts_from_traefik` sorts a set). -/
theorem processTraefikServer_HttpOnce (hosts_of : String → List String)
    (pats : List String) (reset : Bool) (tt : Option Nat) (info : ServerInfo)
    (hnd : (hosts_of info.url).Nodup) :
    ∀ ctx, HttpOnce ctx →
      HttpOnce (processTraefikServer hosts_of pats reset tt ctx info) := by
  intro ctx hinv
  simp only [processTraefikServer]
  by_cases h0 : (hosts_of info.url).isEmpty
  · rw [if_pos h0]; exact hinv
  · rw [if_neg h0]
    obtain ⟨rs, ru, rapp, re, rp⟩ := resolveGroupTag_spec ctx info.group
    have hinv1 : HttpOnce (resolveGroupTag ctx info.group).2 :=
      HttpOnce_mono _ _ ru ⟨rapp, re, fun e he => (rp e he).2.1⟩ hinv
    obtain ⟨tu, tsnap, tapp, te, tp⟩ :=
      traefikTagCheckPhase_spec (filteredHosts hosts_of pats info)
        (resolveGroupTag ctx info.group).1 tt reset (resolveGroupTag ctx info.group).2
    have hinv2 := HttpOnce_mono _ _ tu
      ⟨tapp, te, fun e he => (tagMutation_not_del_http e (tp e he)).2⟩ hinv1
    rw [traefikCreatePhase]
    apply createFold_HttpOnce
    · exact missingHosts_nodup _ _ (filteredHosts_nodup hosts_of pats info hnd)
    · exact missingHosts_not_contains _ _
    · exact hinv2

/-- One Docker group preserves the at-most-once invariant. -/
theorem processDockerServer_HttpOnce (cof : String → List String) (reset : Bool)
    (info : ServerInfo) :
    ∀ ctx, HttpOnce ctx → HttpOnce (processDockerServer cof reset ctx info) := by
  intro ctx hinv
  obtain ⟨hu, hs, app, he, hp⟩ := processDockerServer_spec cof reset ctx info
  exact HttpOnce_mono _ _ hu ⟨app, he, fun e h => (hp e h).2⟩ hinv

/-- Folding a property-preserving step preserves the property. -/
theorem foldl_preserve {α : Type} (f : RunCtx → α → RunCtx) (P : RunCtx → Prop)
    (hf : ∀ c a, P c → P (f c a)) :
    ∀ (l : List α) (c : RunCtx), P c → P (l.foldl f c) := by
  intro l
  induction l with
  | nil => intro c h; exact h
  | cons a rest ih =>
    intro c h
    rw [List.foldl_cons]
    exact ih (f c a) (hf c a h)

/-- The event list of the pruning fold: one deletion per selected monitor
whose deletion succeeds, in order. -/
theorem pruneFold_events (delOk : Nat → Bool) :
    ∀ (l : List Monitor) (s : KumaState) (evs0 : List Event),
      (l.foldl (pruneStep delOk) (s, evs0)).2 =
        evs0 ++ (l.filter fun m => delOk m.id).map
          fun m => Event.deletedMonitor m.id := by
  intro l
  induction l with
  | nil => intro s evs0; simp
  | cons m rest ih =>
    intro s evs0
    rw [List.foldl_cons]
    by_cases hd : delOk m.id
    · rw [show pruneStep delOk (s, evs0) m =
          (deleteMonitorState s m.id, evs0 ++ [Event.deletedMonitor m.id]) by
            unfold pruneStep; rw [if_pos hd]]
      rw [ih]
      simp [List.filter_cons, hd]
    · rw [show pruneStep delOk (s, evs0) m = (s, evs0) by
          unfold pruneStep; rw [if_neg hd]]
      rw [ih]
      simp [List.filter_cons, hd]

/-- Every event the pruning phase emits is a deletion. -/
theorem prunePhase_events_deletions (s : KumaState) (snap : List Monitor)
    (pats : List String) (delOk : Nat → Bool) :
    ∀ e ∈ (prunePhase s snap pats delOk).2.2, isDeletion e = true := by
  intro e he
  unfold prunePhase at he
  by_cases hp : pats.isEmpty
  · rw [if_pos hp] at he; simp at he
  · rw [if_neg hp] at he
    by_cases htr : (monitorsToRemove snap pats).isEmpty
    · rw [if_pos htr] at he; simp at he
    · rw [if_neg htr] at he
      simp only at he
      rw [pruneFold_events] at he
      simp only [List.nil_append] at he
      obtain ⟨m, _, rfl⟩ := List.mem_map.mp he
      rfl

/-! ## Claim C2 — the in-memory existing-identifiers invariant -/

/-- **C2, counterexample.**  Two Docker source groups with the same label
(hence the same runtime host) and the same container list, on an initially
empty server: the run creates *two* monitors for the identifier
`("web", 7)` because Docker-monitor creation updates neither the snapshot
nor any in-memory set. -/
theorem C2_counterexample :
    dockerCreations
      (sync_monitors (fun _ => []) (fun _ => ["web"]) []
        [⟨"d1", "g"⟩, ⟨"d2", "g"⟩] [] false (fun _ => true)
        ⟨[], [], [(7, "g-docker")], 1, 1⟩).events "web" 7 = 2 := by decide

/-- **C2, amended.**  The invariant holds for proxy-discovered URL
identifiers: `existing_urls` is extended immediately after each successful
HTTP-monitor creation, so a whole run creates at most one HTTP monitor per
URL, and any created URL is in the in-memory set afterwards.  Workload
(Docker) creations, by contrast, update neither the snapshot nor any
in-memory set (third conjunct), which is what allows the duplicate of the
counterexample. -/
theorem C2_http_created_once (hosts_of cof : String → List String)
    (ts ds : List ServerInfo) (pats : List String) (reset : Bool)
    (delOk : Nat → Bool) (s0 : KumaState) (url : String)
    (hnd : ∀ u, (hosts_of u).Nodup) :
    httpCreations (sync_monitors hosts_of cof ts ds pats reset delOk s0).events
        url ≤ 1 ∧
    (1 ≤ httpCreations
        (sync_monitors hosts_of cof ts ds pats reset delOk s0).events url →
      (sync_monitors hosts_of cof ts ds pats reset delOk s0).existing_urls.contains
        url = true) ∧
    (∀ (t k : Option Nat) (hid : Nat) (c : RunCtx) (cname : String),
      (createDockerStep t k hid c cname).snapshot = c.snapshot ∧
      (createDockerStep t k hid c cname).existing_urls = c.existing_urls) := by
  have hrun : HttpOnce (sync_monitors hosts_of cof ts ds pats reset delOk s0) := by
    unfold sync_monitors
    apply foldl_preserve _ HttpOnce
      (fun c a => processDockerServer_HttpOnce cof reset a c)
    apply foldl_preserve _ HttpOnce
      (fun c a => processTraefikServer_HttpOnce hosts_of pats reset _ a
        (hnd a.url) c)
    intro u
    have hz : httpCreations
        ((prunePhase s0 s0.monitors pats delOk).2.2 ++
          (getOrCreateTagState (prunePhase s0 s0.monitors pats delOk).1
            "traefik").2.2) u = 0 := by
      apply httpCreations_zero
      intro e he
      rcases List.mem_append.mp he with h | h
      · have := prunePhase_events_deletions s0 s0.monitors pats delOk e h
        cases e <;> first | rfl | (simp [isDeletion] at this)
      · rcases getOrCreateTagState_events
            (prunePhase s0 s0.monitors pats delOk).1 "traefik" with hh | ⟨tid, hh⟩
        · rw [hh] at h; simp at h
        · rw [hh] at h
          simp only [List.mem_singleton] at h
          subst h
          rfl
    exact ⟨by rw [hz]; omega, fun hge => by rw [hz] at hge; omega⟩
  exact ⟨(hrun url).1, (hrun url).2, fun t k hid c cname => ⟨rfl, rfl⟩⟩

/-- **C2, witness.**  The amended theorem at a concrete run: one Traefik
group creating one URL. -/
theorem C2_http_created_once_witness :
    httpCreations
      (sync_monitors (fun _ => ["https://x"]) (fun _ => []) [⟨"t", "g"⟩] []
        [] false (fun _ => true) ⟨[], [], [], 1, 1⟩).events "https://x" ≤ 1 :=
  (C2_http_created_once (fun _ => ["https://x"]) (fun _ => []) [⟨"t", "g"⟩] []
    [] false (fun _ => true) ⟨[], [], [], 1, 1⟩ "https://x"
    (fun _ => by simp)).1

/-! ## Pruning-phase characterisation (claim C3) -/

theorem should_ignore_nil (u : String) : should_ignore u [] = false := rfl

theorem monitorsToRemove_nil (snap : List Monitor) :
    monitorsToRemove snap [] = [] := by
  rw [monitorsToRemove, List.filter_eq_nil_iff]
  intro m _
  simp [should_ignore_nil]

/-- The pruning fold touches only the monitor list of the server state. -/
theorem pruneFold_fields (delOk : Nat → Bool) :
    ∀ (l : List Monitor) (s : KumaState) (evs0 : List Event),
      (l.foldl (pruneStep delOk) (s, evs0)).1.tags = s.tags ∧
      (l.foldl (pruneStep delOk) (s, evs0)).1.dockerHosts = s.dockerHosts ∧
      (l.foldl (pruneStep delOk) (s, evs0)).1.nextMonitorId = s.nextMonitorId ∧
      (l.foldl (pruneStep delOk) (s, evs0)).1.nextTagId = s.nextTagId := by
  intro l
  induction l with
  | nil => intro s evs0; exact ⟨rfl, rfl, rfl, rfl⟩
  | cons m rest ih =>
    intro s evs0
    rw [List.foldl_cons]
    by_cases hd : delOk m.id
    · rw [show pruneStep delOk (s, evs0) m =
          (deleteMonitorState s m.id, evs0 ++ [Event.deletedMonitor m.id]) by
            unfold pruneStep; rw [if_pos hd]]
      exact ih (deleteMonitorState s m.id) _
    · rw [show pruneStep delOk (s, evs0) m = (s, evs0) by
          unfold pruneStep; rw [if_neg hd]]
      exact ih s evs0

/-- Membership in the monitor list after the pruning fold: the original
monitors whose id was not successfully deleted. -/
theorem pruneFold_mem (delOk : Nat → Bool) :
    ∀ (l : List Monitor) (s : KumaState) (evs0 : List Event) (m2 : Monitor),
      m2 ∈ (l.foldl (pruneStep delOk) (s, evs0)).1.monitors ↔
        m2 ∈ s.monitors ∧ ∀ m ∈ l, delOk m.id = true → m.id ≠ m2.id := by
  intro l
  induction l with
  | nil => intro s evs0 m2; simp
  | cons m rest ih =>
    intro s evs0 m2
    rw [List.foldl_cons]
    by_cases hd : delOk m.id
    · rw [show pruneStep delOk (s, evs0) m =
          (deleteMonitorState s m.id, evs0 ++ [Event.deletedMonitor m.id]) by
            unfold pruneStep; rw [if_pos hd]]
      rw [ih]
      unfold deleteMonitorState
      simp only [List.mem_filter, List.mem_cons, decide_eq_true_eq]
      constructor
      · rintro ⟨⟨hm, hne⟩, hrest⟩
        refine ⟨hm, ?_⟩
        intro m' hm' hdm'
        rcases hm' with hm' | hm'
        · subst hm'; exact fun hcontra => hne hcontra.symm
        · exact hrest m' hm' hdm'
      · rintro ⟨hm, hall⟩
        refine ⟨⟨hm, ?_⟩, ?_⟩
        · intro hcontra
          exact hall m (Or.inl rfl) hd hcontra.symm
        · intro m' hm' hdm'
          exact hall m' (Or.inr hm') hdm'
    · rw [show pruneStep delOk (s, evs0) m = (s, evs0) by
          unfold pruneStep; rw [if_neg hd]]
      rw [ih]
      constructor
      · rintro ⟨hm, hrest⟩
        refine ⟨hm, ?_⟩
        intro m' hm' hdm'
        rcases List.mem_cons.mp hm' with hm' | hm'
        · subst hm'; exact absurd hdm' (by simpa using hd)
        · exact hrest m' hm' hdm'
      · rintro ⟨hm, hall⟩
        exact ⟨hm, fun m' hm' hdm' => hall m' (List.mem_cons_of_mem _ hm') hdm'⟩

/-- The pruning phase's event list: one deletion per selected monitor
whose deletion succeeded, in selection order. -/
theorem prunePhase_events_eq (s : KumaState) (pats : List String)
    (delOk : Nat → Bool) :
    (prunePhase s s.monitors pats delOk).2.2 =
      ((monitorsToRemove s.monitors pats).filter fun m => delOk m.id).map
        fun m => Event.deletedMonitor m.id := by
  unfold prunePhase
  by_cases hp : pats.isEmpty
  · rw [if_pos hp]
    have : pats = [] := by simpa using hp
    subst this
    rw [monitorsToRemove_nil]
    rfl
  · rw [if_neg hp]
    by_cases htr : (monitorsToRemove s.monitors pats).isEmpty
    · rw [if_pos htr]
      rw [show monitorsToRemove s.monitors pats = [] by simpa using htr]
      rfl
    · rw [if_neg htr]
      simp only
      rw [pruneFold_events]
      simp

/-- The snapshot entering the group phases equals the server's monitor
list right after pruning — the refresh of line 243. -/
theorem prunePhase_snapshot_refreshed (s : KumaState) (pats : List String)
    (delOk : Nat → Bool) :
    (prunePhase s s.monitors pats delOk).2.1 =
      (prunePhase s s.monitors pats delOk).1.monitors := by
  unfold prunePhase
  by_cases hp : pats.isEmpty
  · rw [if_pos hp]
  · rw [if_neg hp]
    by_cases htr : (monitorsToRemove s.monitors pats).isEmpty
    · rw [if_pos htr]
    · rw [if_neg htr]

/-- Membership in the server's monitors after the pruning phase. -/
theorem prunePhase_mem (s : KumaState) (pats : List String) (delOk : Nat → Bool)
    (m2 : Monitor) :
    m2 ∈ (prunePhase s s.monitors pats delOk).1.monitors ↔
      m2 ∈ s.monitors ∧
        ∀ m ∈ monitorsToRemove s.monitors pats, delOk m.id = true → m.id ≠ m2.id := by
  unfold prunePhase
  by_cases hp : pats.isEmpty
  · rw [if_pos hp]
    have : pats = [] := by simpa using hp
    subst this
    rw [monitorsToRemove_nil]
    simp
  · rw [if_neg hp]
    by_cases htr : (monitorsToRemove s.monitors pats).isEmpty
    · rw [if_pos htr]
      rw [show monitorsToRemove s.monitors pats = [] by simpa using htr]
      simp
    · rw [if_neg htr]
      exact pruneFold_mem delOk _ s [] m2

/-- Generic event-append fold: when every step only appends `P`-events,
the fold only appends `P`-events. -/
theorem foldl_events_spec {α : Type} (f : RunCtx → α → RunCtx) (P : Event → Bool)
    (hf : ∀ c a, ∃ app, (f c a).events = c.events ++ app ∧ ∀ e ∈ app, P e = true) :
    ∀ (l : List α) (c : RunCtx),
      ∃ app, (l.foldl f c).events = c.events ++ app ∧ ∀ e ∈ app, P e = true := by
  intro l
  induction l with
  | nil => intro c; exact ⟨[], by simp, by simp⟩
  | cons a rest ih =>
    intro c
    obtain ⟨app1, h1, h2⟩ := hf c a
    obtain ⟨app2, g1, g2⟩ := ih (f c a)
    refine ⟨app1 ++ app2, ?_, ?_⟩
    · rw [List.foldl_cons, g1, h1, List.append_assoc]
    · intro e he
      rcases List.mem_append.mp he with h | h
      exacts [h2 e h, g2 e h]

/-- A Traefik group appends no deletion event. -/
theorem processTraefikServer_no_deletion (hosts_of : String → List String)
    (pats : List String) (reset : Bool) (tt : Option Nat) (ctx : RunCtx)
    (info : ServerInfo) :
    ∃ app, (processTraefikServer hosts_of pats reset tt ctx info).events =
      ctx.events ++ app ∧ ∀ e ∈ app, isDeletion e = false := by
  simp only [processTraefikServer]
  by_cases h0 : (hosts_of info.url).isEmpty
  · rw [if_pos h0]; exact ⟨[], by simp, by simp⟩
  · rw [if_neg h0]
    obtain ⟨rs, ru, rapp, re, rp⟩ := resolveGroupTag_spec ctx info.group
    obtain ⟨tu, tsnap, tapp, te, tp⟩ :=
      traefikTagCheckPhase_spec (filteredHosts hosts_of pats info)
        (resolveGroupTag ctx info.group).1 tt reset (resolveGroupTag ctx info.group).2
    obtain ⟨capp, ce, cp⟩ := foldl_events_spec (createHttpStep
        (resolveGroupTag ctx info.group).1 tt) (fun e => !isDeletion e)
      (by
        intro c a
        refine ⟨_, rfl, ?_⟩
        intro e he
        rcases List.mem_append.mp he with h | h
        · simp only [List.mem_singleton] at h; subst h; rfl
        · by_cases hm : c.server.nextMonitorId ≠ 0
          · rw [if_pos hm] at h
            obtain ⟨tid, rfl⟩ := addTagsSuccess_events _ _ _ e h
            rfl
          · rw [if_neg hm] at h
            simp at h)
      (missingHosts (filteredHosts hosts_of pats info)
        (traefikTagCheckPhase (filteredHosts hosts_of pats info)
          (resolveGroupTag ctx info.group).1 tt reset
          (resolveGroupTag ctx info.group).2).existing_urls)
      (traefikTagCheckPhase (filteredHosts hosts_of pats info)
        (resolveGroupTag ctx info.group).1 tt reset
        (resolveGroupTag ctx info.group).2)
    rw [traefikCreatePhase]
    refine ⟨rapp ++ tapp ++ capp, ?_, ?_⟩
    · rw [ce, te, re]
      simp [List.append_assoc]
    · intro e he
      rcases List.mem_append.mp he with h | h
      · rcases List.mem_append.mp h with h' | h'
        · exact (rp e h').1
        · exact (tagMutation_not_del_http e (tp e h')).1
      · have := cp e h
        simpa using this

/-! ## Claim C3 — pruning by ignore patterns -/

/-- **C3, counterexample.**  A monitor whose *name* matches an ignore
pattern but whose URL is empty: the pattern does match the name (third
conjunct), yet the run deletes nothing (no event at all is emitted) and
the monitor survives — the source's pruning consults only
`monitor.get("url", "")` (line 228), never the name. -/
theorem C3_counterexample :
    (sync_monitors (fun _ => []) (fun _ => []) [] [] ["ignoreme"] false
        (fun _ => true)
        ⟨[⟨1, MonType.http, "ignoreme", "", none, []⟩], [(5, "traefik")], [],
          2, 6⟩).events = [] ∧
    (sync_monitors (fun _ => []) (fun _ => []) [] [] ["ignoreme"] false
        (fun _ => true)
        ⟨[⟨1, MonType.http, "ignoreme", "", none, []⟩], [(5, "traefik")], [],
          2, 6⟩).server.monitors =
      [⟨1, MonType.http, "ignoreme", "", none, []⟩] ∧
    should_ignore "ignoreme" ["ignoreme"] = true := by
  refine ⟨rfl, rfl, by decide⟩

/-- **C3, amended.**  Before any source group is processed, the set of
monitors to remove is computed exactly once per run as every existing
monitor *with a non-empty `url`* whose `url` matches an ignore pattern
(the monitor's name is never consulted, so monitors without a URL are
never pruned); each selected monitor whose deletion succeeds is deleted
(one per-monitor failure skips only that monitor), all deletion events of
the run happen in this phase — every later event is a non-deletion — and
the snapshot is refreshed from the server after the deletions. -/
theorem C3_prune_once (hosts_of cof : String → List String)
    (ts ds : List ServerInfo) (pats : List String) (reset : Bool)
    (delOk : Nat → Bool) (s0 : KumaState) :
    (monitorsToRemove s0.monitors pats =
      s0.monitors.filter fun m => m.url ≠ "" ∧ should_ignore m.url pats) ∧
    ((prunePhase s0 s0.monitors pats delOk).2.2 =
      ((monitorsToRemove s0.monitors pats).filter fun m => delOk m.id).map
        fun m => Event.deletedMonitor m.id) ∧
    (∀ m ∈ monitorsToRemove s0.monitors pats, delOk m.id = true →
      ∀ m2 ∈ (prunePhase s0 s0.monitors pats delOk).1.monitors, m2.id ≠ m.id) ∧
    (∃ rest, (sync_monitors hosts_of cof ts ds pats reset delOk s0).events =
      (prunePhase s0 s0.monitors pats delOk).2.2 ++ rest ∧
      ∀ e ∈ rest, isDeletion e = false) ∧
    ((prunePhase s0 s0.monitors pats delOk).2.1 =
      (prunePhase s0 s0.monitors pats delOk).1.monitors) := by
  refine ⟨rfl, prunePhase_events_eq s0 pats delOk, ?_, ?_, ?_⟩
  · intro m hm hd m2 hm2 hcontra
    exact ((prunePhase_mem s0 pats delOk m2).mp hm2).2 m hm hd hcontra.symm
  · obtain ⟨app1, h1, h2⟩ := foldl_events_spec
      (processTraefikServer hosts_of pats reset
        (getOrCreateTagState (prunePhase s0 s0.monitors pats delOk).1
          "traefik").1)
      (fun e => !isDeletion e)
      (by
        intro c a
        obtain ⟨app, ha, hp⟩ := processTraefikServer_no_deletion hosts_of pats
          reset _ c a
        exact ⟨app, ha, fun e he => by simp [hp e he]⟩)
      ts _
    obtain ⟨app2, g1, g2⟩ := foldl_events_spec (processDockerServer cof reset)
      (fun e => !isDeletion e)
      (by
        intro c a
        obtain ⟨_, _, app, ha, hp⟩ := processDockerServer_spec cof reset c a
        exact ⟨app, ha, fun e he => by simp [(hp e he).1]⟩)
      ds _
    refine ⟨(getOrCreateTagState (prunePhase s0 s0.monitors pats delOk).1
        "traefik").2.2 ++ app1 ++ app2, ?_, ?_⟩
    · unfold sync_monitors
      rw [g1, h1]
      simp [List.append_assoc]
    · intro e he
      rcases List.mem_append.mp he with h | h
      · rcases List.mem_append.mp h with h' | h'
        · rcases getOrCreateTagState_events
              (prunePhase s0 s0.monitors pats delOk).1 "traefik" with hh | ⟨tid, hh⟩
          · rw [hh] at h'; simp at h'
          · rw [hh] at h'
            simp only [List.mem_singleton] at h'
            subst h'
            rfl
        · simpa using h2 e h'
      · simpa using g2 e h
  · exact prunePhase_snapshot_refreshed s0 pats delOk

/-! ## Claim C6 — ignore-pattern matching and filtering -/

/-- The ignored URL never appears in a creation fold over hosts that all
differ from it. -/
theorem createFold_skips_url (t k : Option Nat) (u : String) :
    ∀ (l : List String) (c : RunCtx), (∀ h ∈ l, h ≠ u) →
      httpCreations ((l.foldl (createHttpStep t k) c)).events u =
        httpCreations c.events u := by
  intro l
  induction l with
  | nil => intro c _; rfl
  | cons a rest ih =>
    intro c hne
    rw [List.foldl_cons, ih _ fun h hh => hne h (List.mem_cons_of_mem _ hh)]
    obtain ⟨app, he, hno⟩ := createHttpStep_events t k c a
    rw [he, httpCreations_append, httpCreations_append,
      httpCreations_zero app u hno, httpCreations_single,
      if_neg (hne a (by simp))]
    omega

/-- A Traefik group never creates a monitor for a URL matching an ignore
pattern: such a URL is filtered out before the creation batch is built. -/
theorem processTraefikServer_skips_ignored (hosts_of : String → List String)
    (pats : List String) (reset : Bool) (tt : Option Nat) (info : ServerInfo)
    (u : String) (hu : should_ignore u pats = true) :
    ∀ ctx, httpCreations
        (processTraefikServer hosts_of pats reset tt ctx info).events u =
      httpCreations ctx.events u := by
  intro ctx
  have hpne : pats.isEmpty = false := by
    cases hp : pats.isEmpty
    · rfl
    · rw [should_ignore, if_pos hp] at hu
      cases hu
  simp only [processTraefikServer]
  by_cases h0 : (hosts_of info.url).isEmpty
  · rw [if_pos h0]
  · rw [if_neg h0]
    obtain ⟨rs, ru, rapp, re, rp⟩ := resolveGroupTag_spec ctx info.group
    obtain ⟨tu, tsnap, tapp, te, tp⟩ :=
      traefikTagCheckPhase_spec (filteredHosts hosts_of pats info)
        (resolveGroupTag ctx info.group).1 tt reset (resolveGroupTag ctx info.group).2
    rw [traefikCreatePhase]
    rw [createFold_skips_url _ _ u _ _ ?hne]
    case hne =>
      intro h hh
      have hmem := (List.mem_filter.mp hh).1
      unfold filteredHosts at hmem
      rw [if_neg (by simp [hpne])] at hmem
      have := (List.mem_filter.mp hmem).2
      intro hcontra
      subst hcontra
      rw [hu] at this
      simp at this
    rw [te, re, httpCreations_append, httpCreations_append,
      httpCreations_zero rapp u fun e he => (rp e he).2.1,
      httpCreations_zero tapp u fun e he =>
        (tagMutation_not_del_http e (tp e he)).2]
    omega

/-- **C6, counterexample.**  Two refutations at concrete inputs: the
pattern `" a "` (whitespace around a non-empty glob) does not glob-match
the identifier `"a"` as the claim's reading states (second conjunct), yet
`should_ignore` — which strips patterns first — accepts it (first
conjunct); and the container `"x"`, although it matches the ignore pattern
`"x"` (fourth conjunct), is still created as a Docker monitor (third
conjunct): workload identifiers are never filtered. -/
theorem C6_counterexample :
    should_ignore "a" [" a "] = true ∧
    matchesIgnoreSpec "a" [" a "] = false ∧
    dockerCreations
      (sync_monitors (fun _ => []) (fun _ => ["x"]) [] [⟨"d", "g"⟩] ["x"]
        false (fun _ => true)
        ⟨[], [(5, "traefik")], [(7, "g-docker")], 1, 6⟩).events "x" 7 = 1 ∧
    should_ignore "x" ["x"] = true := by
  refine ⟨by decide, by decide, by decide, by decide⟩

/-- **C6, amended.**  An identifier matches an ignore pattern exactly when
some pattern that is non-empty *after whitespace stripping* glob-matches,
case-insensitively and after stripping, the identifier's host component or
the full identifier string (first conjunct); every *proxy-discovered*
identifier so matching is removed before the creation phase and never
appears in a creation batch (second conjunct) — workload identifiers,
however, are not filtered (see the counterexample). -/
theorem C6_ignore_semantics (url : String) (pats : List String)
    (hosts_of cof : String → List String) (ts ds : List ServerInfo)
    (reset : Bool) (delOk : Nat → Bool) (s0 : KumaState)
    (hu : should_ignore url pats = true) :
    (∀ (url2 : String) (pats2 : List String),
       should_ignore url2 pats2 = true ↔
         ∃ p ∈ pats2, (stripS p).data.isEmpty = false ∧
           (fnmatch (lowerS (hostnameOf url2)) (lowerS (stripS p)) = true ∨
            fnmatch (lowerS url2) (lowerS (stripS p)) = true)) ∧
    httpCreations
      (sync_monitors hosts_of cof ts ds pats reset delOk s0).events url = 0 := by
  constructor
  · intro url2 pats2
    unfold should_ignore
    by_cases hp : pats2.isEmpty
    · rw [if_pos hp]
      have : pats2 = [] := by simpa using hp
      subst this
      simp
    · rw [if_neg hp]
      rw [List.any_eq_true]
      constructor
      · rintro ⟨p, hpmem, hf⟩
        refine ⟨p, hpmem, ?_⟩
        by_cases he : (stripS p).data.isEmpty
        · rw [show ((if (stripS p).data.isEmpty then false
              else fnmatch (lowerS (hostnameOf url2)) (lowerS (stripS p)) ||
                fnmatch (lowerS url2) (lowerS (stripS p))) : Bool) = false by
                rw [if_pos he]] at hf
          cases hf
        · rw [show ((if (stripS p).data.isEmpty then false
              else fnmatch (lowerS (hostnameOf url2)) (lowerS (stripS p)) ||
                fnmatch (lowerS url2) (lowerS (stripS p))) : Bool) =
              (fnmatch (lowerS (hostnameOf url2)) (lowerS (stripS p)) ||
                fnmatch (lowerS url2) (lowerS (stripS p))) by
                rw [if_neg he]] at hf
          exact ⟨by simpa using he, by simpa using hf⟩
      · rintro ⟨p, hpmem, he, hor⟩
        refine ⟨p, hpmem, ?_⟩
        have he' : ¬ (stripS p).data.isEmpty := by simp [he]
        rw [show ((if (stripS p).data.isEmpty then false
            else fnmatch (lowerS (hostnameOf url2)) (lowerS (stripS p)) ||
              fnmatch (lowerS url2) (lowerS (stripS p))) : Bool) =
            (fnmatch (lowerS (hostnameOf url2)) (lowerS (stripS p)) ||
              fnmatch (lowerS url2) (lowerS (stripS p))) by
              rw [if_neg he']]
        simpa using hor
  · have hz : httpCreations
        ((prunePhase s0 s0.monitors pats delOk).2.2 ++
          (getOrCreateTagState (prunePhase s0 s0.monitors pats delOk).1
            "traefik").2.2) url = 0 := by
      apply httpCreations_zero
      intro e he
      rcases List.mem_append.mp he with h | h
      · have := prunePhase_events_deletions s0 s0.monitors pats delOk e h
        cases e <;> first | rfl | (simp [isDeletion] at this)
      · rcases getOrCreateTagState_events
            (prunePhase s0 s0.monitors pats delOk).1 "traefik" with hh | ⟨tid, hh⟩
        · rw [hh] at h; simp at h
        · rw [hh] at h
          simp only [List.mem_singleton] at h
          subst h
          rfl
    unfold sync_monitors
    have htr : ∀ (l : List ServerInfo) (c : RunCtx),
        httpCreations ((l.foldl (processTraefikServer hosts_of pats reset
          (getOrCreateTagState (prunePhase s0 s0.monitors pats delOk).1
            "traefik").1) c)).events url = httpCreations c.events url := by
      intro l
      induction l with
      | nil => intro c; rfl
      | cons a rest ih =>
        intro c
        rw [List.foldl_cons, ih,
          processTraefikServer_skips_ignored hosts_of pats reset _ a url hu]
    have hdk : ∀ (l : List ServerInfo) (c : RunCtx),
        httpCreations ((l.foldl (processDockerServer cof reset) c)).events url =
          httpCreations c.events url := by
      intro l
      induction l with
      | nil => intro c; rfl
      | cons a rest ih =>
        intro c
        rw [List.foldl_cons, ih]
        obtain ⟨_, _, app, ha, hp⟩ := processDockerServer_spec cof reset c a
        rw [ha, httpCreations_append,
          httpCreations_zero app url fun e he => (hp e he).2]
        omega
    rw [hdk, htr]
    exact hz

/-- **C6, witness.**  The amended theorem at the container/pattern pair of
the counterexample: the ignored URL `"x"` is never created as an HTTP
monitor. -/
theorem C6_ignore_semantics_witness :
    httpCreations
      (sync_monitors (fun _ => []) (fun _ => ["x"]) [] [⟨"d", "g"⟩] ["x"]
        false (fun _ => true)
        ⟨[], [(5, "traefik")], [(7, "g-docker")], 1, 6⟩).events "x" = 0 :=
  (C6_ignore_semantics "x" ["x"] (fun _ => []) (fun _ => ["x"]) [] [⟨"d", "g"⟩]
    false (fun _ => true) ⟨[], [(5, "traefik")], [(7, "g-docker")], 1, 6⟩
    (by decide)).2

/-! ## State evolution under the Additive policy (claim C4) -/

theorem monEvolved_refl (m : Monitor) : MonEvolved m m :=
  ⟨rfl, rfl, rfl, rfl, rfl, [], by simp⟩

theorem monEvolved_trans {a b c : Monitor} (h1 : MonEvolved a b)
    (h2 : MonEvolved b c) : MonEvolved a c := by
  obtain ⟨i1, t1, n1, u1, d1, e1, he1⟩ := h1
  obtain ⟨i2, t2, n2, u2, d2, e2, he2⟩ := h2
  exact ⟨i2.trans i1, t2.trans t1, n2.trans n1, u2.trans u1, d2.trans d1,
    e1 ++ e2, by rw [he2, he1, List.append_assoc]⟩

theorem forall₂_monEv_refl (l : List Monitor) : List.Forall₂ MonEvolved l l :=
  List.forall₂_same.mpr fun x _ => monEvolved_refl x

theorem forall₂_monEv_trans :
    ∀ {l1 l2 l3 : List Monitor}, List.Forall₂ MonEvolved l1 l2 →
      List.Forall₂ MonEvolved l2 l3 → List.Forall₂ MonEvolved l1 l3 := by
  intro l1
  induction l1 with
  | nil =>
    intro l2 l3 h1 h2
    rw [List.forall₂_nil_left_iff.mp h1] at h2
    rw [List.forall₂_nil_left_iff.mp h2]
    exact List.Forall₂.nil
  | cons a t ih =>
    intro l2 l3 h1 h2
    cases h1 with
    | cons hab h1' =>
      cases h2 with
      | cons hbc h2' =>
        exact List.Forall₂.cons (monEvolved_trans hab hbc) (ih h1' h2')

theorem forall₂_append_left_split {R : Monitor → Monitor → Prop} :
    ∀ {l1 l2 l : List Monitor}, List.Forall₂ R (l1 ++ l2) l →
      ∃ p1 p2, l = p1 ++ p2 ∧ List.Forall₂ R l1 p1 ∧ List.Forall₂ R l2 p2 := by
  intro l1
  induction l1 with
  | nil => intro l2 l h; exact ⟨[], l, rfl, List.Forall₂.nil, h⟩
  | cons a t ih =>
    intro l2 l h
    cases h with
    | cons hab h' =>
      obtain ⟨p1, p2, rfl, hp1, hp2⟩ := ih h'
      exact ⟨_ :: p1, p2, rfl, List.Forall₂.cons hab hp1, hp2⟩

theorem forall₂_mem_right {R : Monitor → Monitor → Prop} :
    ∀ {l1 l2 : List Monitor}, List.Forall₂ R l1 l2 → ∀ b ∈ l2, ∃ a ∈ l1, R a b := by
  intro l1
  induction l1 with
  | nil =>
    intro l2 h b hb
    rw [List.forall₂_nil_left_iff.mp h] at hb
    simp at hb
  | cons a t ih =>
    intro l2 h b hb
    cases h with
    | cons hab h' =>
      rcases List.mem_cons.mp hb with hb | hb
      · exact ⟨a, by simp, hb ▸ hab⟩
      · obtain ⟨x, hx, hr⟩ := ih h' b hb
        exact ⟨x, List.mem_cons_of_mem _ hx, hr⟩

theorem evolves_refl (s : KumaState) : Evolves s s :=
  ⟨⟨[], by simp⟩, rfl, le_refl _, s.monitors, [], by simp,
    forall₂_monEv_refl _, by simp⟩

theorem evolves_trans {s s2 s3 : KumaState} (h1 : Evolves s s2)
    (h2 : Evolves s2 s3) : Evolves s s3 := by
  obtain ⟨⟨e1, he1⟩, hd1, hn1, pre1, new1, hm1, hf1, hid1⟩ := h1
  obtain ⟨⟨e2, he2⟩, hd2, hn2, pre2, new2, hm2, hf2, hid2⟩ := h2
  rw [hm1] at hf2
  obtain ⟨p1, p2, rfl, hp1, hp2⟩ := forall₂_append_left_split hf2
  refine ⟨⟨e1 ++ e2, by rw [he2, he1, List.append_assoc]⟩, hd2.trans hd1,
    hn1.trans hn2, p1, p2 ++ new2, by rw [hm2, List.append_assoc],
    forall₂_monEv_trans hf1 hp1, ?_⟩
  intro m hm
  rcases List.mem_append.mp hm with h | h
  · obtain ⟨a, ha, hr⟩ := forall₂_mem_right hp2 m h
    have : m.id = a.id := hr.1
    rw [this]
    exact hid1 a ha
  · exact hn1.trans (hid2 m h)

theorem evolves_addMonitorTagState (s : KumaState) (mid tid : Nat) :
    Evolves s (addMonitorTagState s mid tid) := by
  refine ⟨⟨[], by simp [addMonitorTagState]⟩, rfl, le_refl _,
    (addMonitorTagState s mid tid).monitors, [], by simp, ?_, by simp⟩
  unfold addMonitorTagState
  simp only
  rw [List.forall₂_map_right_iff]
  apply List.forall₂_same.mpr
  intro m _
  by_cases hm : m.id = mid
  · rw [if_pos hm]
    exact ⟨rfl, rfl, rfl, rfl, rfl, [⟨tid, ""⟩], rfl⟩
  · rw [if_neg hm]
    exact monEvolved_refl m

theorem evolves_foldl {β : Type} (f : KumaState → β → KumaState)
    (hf : ∀ s b, Evolves s (f s b)) :
    ∀ (l : List β) (s : KumaState), Evolves s (l.foldl f s) := by
  intro l
  induction l with
  | nil => intro s; exact evolves_refl s
  | cons b rest ih =>
    intro s
    rw [List.foldl_cons]
    exact evolves_trans (hf s b) (ih (f s b))

theorem evolves_addTagsSuccess (s : KumaState) (mid : Nat) (ids : List (Option Nat)) :
    Evolves s (addTagsSuccess s mid ids).1 := by
  rw [addTagsSuccess_eq]
  exact evolves_foldl _ (fun s' t => evolves_addMonitorTagState s' mid t) _ s

theorem evolves_getOrCreateTagState (s : KumaState) (n : String) :
    Evolves s (getOrCreateTagState s n).2.1 := by
  unfold getOrCreateTagState
  cases s.tags.find? fun t => t.2 == n with
  | some tg => exact evolves_refl s
  | none =>
    exact ⟨⟨[(s.nextTagId, n)], rfl⟩, rfl, le_refl _, s.monitors, [], by simp,
      forall₂_monEv_refl _, by simp⟩

theorem evolves_reconcileServer (s : KumaState) (m : Monitor) (t k : Option Nat) :
    Evolves s (reconcileServer s m t k false).1 := by
  unfold reconcileServer
  rw [if_neg (by simp)]
  by_cases ha : (additiveTagsToAdd m.tags t k).isEmpty
  · rw [if_pos ha]
    exact evolves_refl s
  · rw [if_neg ha]
    exact evolves_addTagsSuccess s m.id _

theorem evolves_ctx_foldl {β : Type} (f : RunCtx → β → RunCtx)
    (hf : ∀ c b, Evolves c.server (f c b).server) :
    ∀ (l : List β) (c : RunCtx), Evolves c.server ((l.foldl f c)).server := by
  intro l
  induction l with
  | nil => intro c; exact evolves_refl c.server
  | cons b rest ih =>
    intro c
    rw [List.foldl_cons]
    exact evolves_trans (hf c b) (ih (f c b))

theorem evolves_createHttpStep (t k : Option Nat) (c : RunCtx) (h : String) :
    Evolves c.server (createHttpStep t k c h).server := by
  have h1 : Evolves c.server
      { c.server with
        monitors := c.server.monitors ++
          [⟨c.server.nextMonitorId, MonType.http, netlocOf h, h, none, []⟩],
        nextMonitorId := c.server.nextMonitorId + 1 } := by
    refine ⟨⟨[], by simp⟩, rfl, by simp, c.server.monitors,
      [⟨c.server.nextMonitorId, MonType.http, netlocOf h, h, none, []⟩], by simp,
      forall₂_monEv_refl _, by simp⟩
  by_cases hm : c.server.nextMonitorId ≠ 0
  · exact evolves_trans h1 (by
      show Evolves _ (createHttpStep t k c h).server
      unfold createHttpStep
      simp only
      rw [if_pos hm]
      exact evolves_addTagsSuccess _ _ _)
  · show Evolves _ (createHttpStep t k c h).server
    unfold createHttpStep
    simp only
    rw [if_neg hm]
    exact h1

theorem evolves_createDockerStep (t k : Option Nat) (hid : Nat) (c : RunCtx)
    (cname : String) :
    Evolves c.server (createDockerStep t k hid c cname).server := by
  have h1 : Evolves c.server
      { c.server with
        monitors := c.server.monitors ++
          [⟨c.server.nextMonitorId, MonType.docker, cname, "", some hid, []⟩],
        nextMonitorId := c.server.nextMonitorId + 1 } := by
    refine ⟨⟨[], by simp⟩, rfl, by simp, c.server.monitors,
      [⟨c.server.nextMonitorId, MonType.docker, cname, "", some hid, []⟩], by simp,
      forall₂_monEv_refl _, by simp⟩
  by_cases hm : c.server.nextMonitorId ≠ 0
  · exact evolves_trans h1 (by
      show Evolves _ (createDockerStep t k hid c cname).server
      unfold createDockerStep
      simp only
      rw [if_pos hm]
      exact evolves_addTagsSuccess _ _ _)
  · show Evolves _ (createDockerStep t k hid c cname).server
    unfold createDockerStep
    simp only
    rw [if_neg hm]
    exact h1

/-- **C4, counterexample.**  Two Traefik groups with different labels
(`"a"` and `"b"`) both discover the host `https://x`.  The first run
creates the monitor in group `a`'s phase and marks the URL as existing,
so group `b` neither reconciles (the stale snapshot misses it) nor
creates.  The second run's group `b` then finds the monitor without its
group tag and issues an `add_monitor_tag` call: the second run performs
a tag mutation, refuting the claimed zero-mutation idempotence. -/
theorem C4_counterexample :
    tagAddCount
      (sync_monitors (fun _ => ["https://x"]) (fun _ => [])
        [⟨"t1", "a"⟩, ⟨"t2", "b"⟩] [] [] false (fun _ => true)
        (sync_monitors (fun _ => ["https://x"]) (fun _ => [])
          [⟨"t1", "a"⟩, ⟨"t2", "b"⟩] [] [] false (fun _ => true)
          ⟨[], [], [], 1, 1⟩).server).events = 1 ∧
    creationCount
      (sync_monitors (fun _ => ["https://x"]) (fun _ => [])
        [⟨"t1", "a"⟩, ⟨"t2", "b"⟩] [] [] false (fun _ => true)
        (sync_monitors (fun _ => ["https://x"]) (fun _ => [])
          [⟨"t1", "a"⟩, ⟨"t2", "b"⟩] [] [] false (fun _ => true)
          ⟨[], [], [], 1, 1⟩).server).events = 0 := by
  decide

theorem evolves_resolveGroupTag (c : RunCtx) (g : String) :
    Evolves c.server (resolveGroupTag c g).2.server := by
  unfold resolveGroupTag
  by_cases hg : g ≠ ""
  · rw [if_pos hg]; exact evolves_getOrCreateTagState _ _
  · rw [if_neg hg]; exact evolves_refl _

theorem evolves_processTraefikServer (hosts_of : String → List String)
    (pats : List String) (tt : Option Nat) (ctx : RunCtx) (info : ServerInfo) :
    Evolves ctx.server (processTraefikServer hosts_of pats false tt ctx info).server := by
  simp only [processTraefikServer]
  by_cases h0 : (hosts_of info.url).isEmpty
  · rw [if_pos h0]; exact evolves_refl _
  · rw [if_neg h0]
    have e1 := evolves_resolveGroupTag ctx info.group
    have e2 : Evolves (resolveGroupTag ctx info.group).2.server
        (traefikTagCheckPhase (filteredHosts hosts_of pats info)
          (resolveGroupTag ctx info.group).1 tt false
          (resolveGroupTag ctx info.group).2).server := by
      unfold traefikTagCheckPhase
      by_cases ht : truthyId (resolveGroupTag ctx info.group).1 = true
      · rw [if_pos ht]
        apply evolves_ctx_foldl
        intro c b
        unfold reconcileHttpStep
        cases firstUrlMatch c.snapshot b with
        | none => exact evolves_refl _
        | some m => exact evolves_reconcileServer c.server m _ _
      · rw [if_neg ht]; exact evolves_refl _
    refine evolves_trans (evolves_trans e1 e2) ?_
    rw [traefikCreatePhase]
    exact evolves_ctx_foldl _ (fun c b => evolves_createHttpStep _ _ c b) _ _

theorem evolves_processDockerServer (cof : String → List String) (ctx : RunCtx)
    (info : ServerInfo) :
    Evolves ctx.server (processDockerServer cof false ctx info).server := by
  simp only [processDockerServer]
  by_cases hc : (cof info.url).isEmpty
  · rw [if_pos hc]; exact evolves_refl _
  · rw [if_neg hc]
    have e1 := evolves_resolveGroupTag ctx info.group
    have e2 := evolves_resolveGroupTag (resolveGroupTag ctx info.group).2 "docker"
    have e12 := evolves_trans e1 e2
    split
    · exact e12
    · rename_i hid hdh
      by_cases hz : hid = 0
      · rw [if_pos hz]; exact e12
      · rw [if_neg hz]
        refine evolves_trans e12 ?_
        have e3 : Evolves
            (resolveGroupTag (resolveGroupTag ctx info.group).2 "docker").2.server
            (dockerTagCheckPhase (cof info.url) (resolveGroupTag ctx info.group).1
              (resolveGroupTag (resolveGroupTag ctx info.group).2 "docker").1 hid
              false
              (resolveGroupTag (resolveGroupTag ctx info.group).2 "docker").2).server := by
          unfold dockerTagCheckPhase
          by_cases ht : (truthyId (resolveGroupTag ctx info.group).1 ||
              truthyId (resolveGroupTag (resolveGroupTag ctx info.group).2
                "docker").1) = true
          · rw [if_pos ht]
            apply evolves_ctx_foldl
            intro c b
            unfold reconcileDockerStep
            cases firstDockerMatch c.snapshot b hid with
            | none => exact evolves_refl _
            | some m => exact evolves_reconcileServer c.server m _ _
          · rw [if_neg ht]; exact evolves_refl _
        refine evolves_trans e3 ?_
        rw [dockerCreatePhase]
        exact evolves_ctx_foldl _ (fun c b => evolves_createDockerStep _ _ hid c b) _ _

/-! ### Characterisation of the tag-adding primitives -/

theorem tagMap_nil (mid : Nat) (l : List Monitor) : tagMap mid [] l = l := by
  unfold tagMap
  simp

theorem tagMap_append (mid : Nat) (e1 e2 : List TagRef) (l : List Monitor) :
    tagMap mid e2 (tagMap mid e1 l) = tagMap mid (e1 ++ e2) l := by
  unfold tagMap
  rw [List.map_map]
  apply List.map_congr_left
  intro m _
  by_cases hm : m.id = mid
  · simp [Function.comp, hm, List.append_assoc]
  · simp [Function.comp, hm]

theorem addMonitorTagState_monitors (s : KumaState) (mid tid : Nat) :
    (addMonitorTagState s mid tid).monitors = tagMap mid [⟨tid, ""⟩] s.monitors :=
  rfl

theorem foldl_addTag_monitors (mid : Nat) :
    ∀ (ts : List Nat) (s : KumaState),
      ((ts.foldl (fun st t => addMonitorTagState st mid t) s)).monitors =
        tagMap mid (ts.map fun t => ⟨t, ""⟩) s.monitors := by
  intro ts
  induction ts with
  | nil => intro s; exact (tagMap_nil mid s.monitors).symm
  | cons t rest ih =>
    intro s
    rw [List.foldl_cons, ih, addMonitorTagState_monitors, tagMap_append]
    rfl

theorem foldl_addTag_fields (mid : Nat) :
    ∀ (ts : List Nat) (s : KumaState),
      ((ts.foldl (fun st t => addMonitorTagState st mid t) s)).tags = s.tags ∧
      ((ts.foldl (fun st t => addMonitorTagState st mid t) s)).dockerHosts =
        s.dockerHosts ∧
      ((ts.foldl (fun st t => addMonitorTagState st mid t) s)).nextMonitorId =
        s.nextMonitorId := by
  intro ts
  induction ts with
  | nil => intro s; exact ⟨rfl, rfl, rfl⟩
  | cons t rest ih =>
    intro s
    rw [List.foldl_cons]
    exact ih (addMonitorTagState s mid t)

theorem addTags_monitors (s : KumaState) (mid : Nat) (ids : List (Option Nat)) :
    (addTagsSuccess s mid ids).1.monitors =
      tagMap mid ((truthyIds ids).map fun t => ⟨t, ""⟩) s.monitors ∧
    (addTagsSuccess s mid ids).1.tags = s.tags ∧
    (addTagsSuccess s mid ids).1.dockerHosts = s.dockerHosts ∧
    (addTagsSuccess s mid ids).1.nextMonitorId = s.nextMonitorId := by
  rw [addTagsSuccess_eq]
  exact ⟨foldl_addTag_monitors mid (truthyIds ids) s,
    (foldl_addTag_fields mid (truthyIds ids) s).1,
    (foldl_addTag_fields mid (truthyIds ids) s).2.1,
    (foldl_addTag_fields mid (truthyIds ids) s).2.2⟩

theorem reconcileServer_additive (s : KumaState) (m : Monitor)
    (gt kt : Option Nat) :
    (reconcileServer s m gt kt false).1.monitors =
      tagMap m.id
        ((truthyIds (additiveTagsToAdd m.tags gt kt)).map fun t => ⟨t, ""⟩)
        s.monitors ∧
    (reconcileServer s m gt kt false).1.tags = s.tags ∧
    (reconcileServer s m gt kt false).1.dockerHosts = s.dockerHosts ∧
    (reconcileServer s m gt kt false).1.nextMonitorId = s.nextMonitorId := by
  unfold reconcileServer
  rw [if_neg (by simp)]
  by_cases ha : (additiveTagsToAdd m.tags gt kt).isEmpty
  · rw [if_pos ha]
    rw [List.isEmpty_iff.mp ha]
    exact ⟨(tagMap_nil _ _).symm, rfl, rfl, rfl⟩
  · rw [if_neg ha]
    exact addTags_monitors s m.id _

/-! ### Transport of matches and tags along state evolution -/

theorem find?_forall₂ (p : Monitor → Bool)
    (hp : ∀ a b, MonEvolved a b → p b = p a) :
    ∀ {l1 l2 : List Monitor}, List.Forall₂ MonEvolved l1 l2 →
      ((∀ m, l1.find? p = some m →
          ∃ m2, l2.find? p = some m2 ∧ MonEvolved m m2) ∧
       (l1.find? p = none → l2.find? p = none)) := by
  intro l1
  induction l1 with
  | nil =>
    intro l2 h
    rw [List.forall₂_nil_left_iff.mp h]
    exact ⟨by intro m hm; simp at hm, fun _ => rfl⟩
  | cons a t ih =>
    intro l2 h
    cases h with
    | cons hab h' =>
      rename_i b l2'
      by_cases hpa : p a = true
      · rw [List.find?_cons_of_pos _ hpa,
          List.find?_cons_of_pos _ ((hp a b hab).trans hpa)]
        exact ⟨by intro m hm; exact ⟨b, rfl, (Option.some.injEq _ _ ▸ hm) ▸ hab⟩,
          by intro hm; simp at hm⟩
      · have hpb : ¬ p b = true := by rw [hp a b hab]; exact hpa
        rw [List.find?_cons_of_neg _ hpa, List.find?_cons_of_neg _ hpb]
        exact ih h'

theorem firstUrlMatch_evolves (s s2 : KumaState) (h : String) (hev : Evolves s s2)
    (m : Monitor) (hm : firstUrlMatch s.monitors h = some m) :
    ∃ m2, firstUrlMatch s2.monitors h = some m2 ∧ MonEvolved m m2 := by
  obtain ⟨_, _, _, pre, new, hmon, hf, _⟩ := hev
  obtain ⟨m2, h2, hev2⟩ :=
    (find?_forall₂ _ (by intro a b hab; rw [hab.2.2.2.1]) hf).1 m hm
  refine ⟨m2, ?_, hev2⟩
  unfold firstUrlMatch
  rw [hmon, List.find?_append, h2]
  rfl

theorem firstDockerMatch_evolves (s s2 : KumaState) (c : String) (hid : Nat)
    (hev : Evolves s s2) (m : Monitor)
    (hm : firstDockerMatch s.monitors c hid = some m) :
    ∃ m2, firstDockerMatch s2.monitors c hid = some m2 ∧ MonEvolved m m2 := by
  obtain ⟨_, _, _, pre, new, hmon, hf, _⟩ := hev
  obtain ⟨m2, h2, hev2⟩ :=
    (find?_forall₂ _
      (by intro a b hab; simp only [hab.2.1, hab.2.2.1, hab.2.2.2.2.1]) hf).1 m hm
  refine ⟨m2, ?_, hev2⟩
  unfold firstDockerMatch
  rw [hmon, List.find?_append, h2]
  rfl

theorem hasTagId_append (tags ext : List TagRef) (o : Option Nat)
    (h : hasTagId tags o = true) : hasTagId (tags ++ ext) o = true := by
  unfold hasTagId at h ⊢
  rw [List.any_append, h]
  rfl

theorem hasTagId_monEvolved (m m2 : Monitor) (o : Option Nat)
    (he : MonEvolved m m2) (h : hasTagId m.tags o = true) :
    hasTagId m2.tags o = true := by
  obtain ⟨_, _, _, _, _, ext, hx⟩ := he
  rw [hx]
  exact hasTagId_append _ _ _ h

theorem resolvedTag_mono (s s2 : KumaState) (n : String) (t : Nat)
    (hext : ∃ ext, s2.tags = s.tags ++ ext) (h : resolvedTag s n = some t) :
    resolvedTag s2 n = some t := by
  obtain ⟨ext, hx⟩ := hext
  unfold resolvedTag at h ⊢
  rw [hx, List.find?_append]
  cases hf : s.tags.find? fun p => p.2 == n with
  | none => rw [hf] at h; simp at h
  | some pr => rw [hf] at h; exact h

theorem trGroupTag_mono (s s2 : KumaState) (g : String) (t : Nat)
    (hext : ∃ ext, s2.tags = s.tags ++ ext) (h : trGroupTag s g = some t) :
    trGroupTag s2 g = some t := by
  unfold trGroupTag at h ⊢
  by_cases hg : g ≠ ""
  · rw [if_pos hg] at h ⊢
    exact resolvedTag_mono s s2 g t hext h
  · rw [if_neg hg] at h
    simp at h

theorem hostDone_mono (gt tt : Option Nat) (h : String) (s s2 : KumaState)
    (hev : Evolves s s2) (hd : HostDone gt tt h s) : HostDone gt tt h s2 := by
  obtain ⟨m, hm, hc⟩ := hd
  obtain ⟨m2, hm2, he2⟩ := firstUrlMatch_evolves s s2 h hev m hm
  exact ⟨m2, hm2, fun hgt =>
    ⟨hasTagId_monEvolved _ _ _ he2 ((hc hgt).1),
     fun htt => hasTagId_monEvolved _ _ _ he2 ((hc hgt).2 htt)⟩⟩

theorem contDone_mono (gt dt : Option Nat) (hid : Nat) (c : String)
    (s s2 : KumaState) (hev : Evolves s s2) (hd : ContDone gt dt hid c s) :
    ContDone gt dt hid c s2 := by
  obtain ⟨m, hm, hc1, hc2⟩ := hd
  obtain ⟨m2, hm2, he2⟩ := firstDockerMatch_evolves s s2 c hid hev m hm
  exact ⟨m2, hm2, fun hgt => hasTagId_monEvolved _ _ _ he2 (hc1 hgt),
    fun hdt => hasTagId_monEvolved _ _ _ he2 (hc2 hdt)⟩

theorem truthyId_none : truthyId none = false := rfl

theorem trGroupTag_empty (s : KumaState) : trGroupTag s "" = none := by
  unfold trGroupTag
  rw [if_neg (by simp)]

theorem traefikDone_mono (hosts_of : String → List String) (pats : List String)
    (info : ServerInfo) (tt : Option Nat) (s s2 : KumaState) (hev : Evolves s s2)
    (hd : TraefikDone hosts_of pats info tt s) :
    TraefikDone hosts_of pats info tt s2 := by
  intro hne
  obtain ⟨hg, hh⟩ := hd hne
  have hext : ∃ ext, s2.tags = s.tags ++ ext := hev.1
  refine ⟨fun hgne => ?_, fun h hmem => ?_⟩
  · obtain ⟨t, ht⟩ := hg hgne
    exact ⟨t, resolvedTag_mono _ _ _ _ hext ht⟩
  · by_cases hgne : info.group = ""
    · rw [hgne, trGroupTag_empty]
      obtain ⟨m, hm, _⟩ := hh h hmem
      obtain ⟨m2, hm2, _⟩ := firstUrlMatch_evolves s s2 h hev m hm
      exact ⟨m2, hm2, by rw [truthyId_none]; intro hx; cases hx⟩
    · obtain ⟨t, ht⟩ := hg hgne
      have e1 : trGroupTag s info.group = some t := by
        unfold trGroupTag
        rw [if_pos hgne]
        exact ht
      rw [trGroupTag_mono s s2 info.group t hext e1]
      have := hh h hmem
      rw [e1] at this
      exact hostDone_mono _ _ _ _ _ hev this

theorem dockerHostId_congr (s s2 : KumaState) (g : String)
    (hdh : s2.dockerHosts = s.dockerHosts) : dockerHostId s2 g = dockerHostId s g := by
  unfold dockerHostId
  rw [hdh]

theorem dockerDone_mono (cof : String → List String) (info : ServerInfo)
    (s s2 : KumaState) (hev : Evolves s s2) (hd : DockerDone cof info s) :
    DockerDone cof info s2 := by
  intro hne
  obtain ⟨hg, ⟨d, hdk⟩, hc⟩ := hd hne
  have hext : ∃ ext, s2.tags = s.tags ++ ext := hev.1
  have hdk2 : resolvedTag s2 "docker" = some d := resolvedTag_mono _ _ _ _ hext hdk
  refine ⟨fun hgne => ?_, ⟨d, hdk2⟩, fun hid hhid hnz c hcm => ?_⟩
  · obtain ⟨t, ht⟩ := hg hgne
    exact ⟨t, resolvedTag_mono _ _ _ _ hext ht⟩
  · rw [dockerHostId_congr s s2 info.group hev.2.1] at hhid
    have hcd := hc hid hhid hnz c hcm
    rw [hdk2]
    rw [hdk] at hcd
    by_cases hgne : info.group = ""
    · rw [hgne, trGroupTag_empty] at hcd ⊢
      exact contDone_mono _ _ _ _ _ _ hev hcd
    · obtain ⟨t, ht⟩ := hg hgne
      have e1 : trGroupTag s info.group = some t := by
        unfold trGroupTag
        rw [if_pos hgne]
        exact ht
      rw [trGroupTag_mono s s2 info.group t hext e1]
      rw [e1] at hcd
      exact contDone_mono _ _ _ _ _ _ hev hcd

/-! ### Generic fold lemmas -/

theorem foldl_inv {α β : Type} (f : α → β → α) (l0 : List β)
    (I : List β → α → Prop)
    (hstep : ∀ pre c b, b ∈ l0 → I pre c → I (pre ++ [b]) (f c b)) :
    ∀ (l : List β), (∀ b ∈ l, b ∈ l0) → ∀ (pre : List β) (c : α),
      I pre c → I (pre ++ l) (l.foldl f c) := by
  intro l
  induction l with
  | nil =>
    intro _ pre c h
    rw [List.foldl_nil, List.append_nil]
    exact h
  | cons b rest ih =>
    intro hsub pre c h
    rw [List.foldl_cons]
    have := ih (fun b' hb' => hsub b' (by simp [hb'])) (pre ++ [b]) (f c b)
      (hstep pre c b (hsub b (by simp)) h)
    rwa [List.append_assoc] at this

theorem foldl_fixed {α β : Type} (f : α → β → α) :
    ∀ (l : List β) (c : α), (∀ b ∈ l, f c b = c) → l.foldl f c = c := by
  intro l
  induction l with
  | nil => intro c _; rfl
  | cons b rest ih =>
    intro c h
    rw [List.foldl_cons, h b (by simp)]
    exact ih c fun b' hb' => h b' (by simp [hb'])

theorem runCtx_update_id (c : RunCtx) (s : KumaState) (e : List Event)
    (hs : s = c.server) (he : e = []) :
    ({ c with server := s, events := c.events ++ e } : RunCtx) = c := by
  subst hs
  subst he
  cases c
  simp

/-! ### Tag membership helpers -/

theorem truthyId_some (o : Option Nat) (h : truthyId o = true) :
    ∃ t, o = some t ∧ t ≠ 0 := by
  cases o with
  | none => cases h
  | some t =>
    refine ⟨t, rfl, fun hz => ?_⟩
    subst hz
    simp [truthyId] at h

theorem truthyIds_mem (ids : List (Option Nat)) (t : Nat) (h : some t ∈ ids)
    (hz : t ≠ 0) : t ∈ truthyIds ids := by
  unfold truthyIds
  exact List.mem_filterMap.mpr ⟨some t, h, by simp [hz]⟩

theorem hasTagId_of_mem (ts : List Nat) (t : Nat) (h : t ∈ ts) :
    hasTagId (ts.map fun t => ⟨t, ""⟩) (some t) = true := by
  unfold hasTagId
  rw [List.any_eq_true]
  exact ⟨⟨t, ""⟩, List.mem_map.mpr ⟨t, h, rfl⟩, by simp⟩

theorem hasTagId_truthyIds (ids : List (Option Nat)) (o : Option Nat)
    (ho : truthyId o = true) (hm : o ∈ ids) :
    hasTagId ((truthyIds ids).map fun t => ⟨t, ""⟩) o = true := by
  obtain ⟨t, rfl, hz⟩ := truthyId_some o ho
  exact hasTagId_of_mem _ t (truthyIds_mem ids t hm hz)

theorem hasTagId_append_right (tags ext : List TagRef) (o : Option Nat)
    (h : hasTagId ext o = true) : hasTagId (tags ++ ext) o = true := by
  unfold hasTagId at h ⊢
  rw [List.any_append, h, Bool.or_true]

theorem additive_covers (tags tags2 : List TagRef) (gt kt : Option Nat)
    (hsub : ∀ o, hasTagId tags o = true → hasTagId tags2 o = true) :
    (truthyId gt = true →
      hasTagId (tags2 ++
        (truthyIds (additiveTagsToAdd tags gt kt)).map fun t => ⟨t, ""⟩) gt = true) ∧
    (truthyId kt = true →
      hasTagId (tags2 ++
        (truthyIds (additiveTagsToAdd tags gt kt)).map fun t => ⟨t, ""⟩) kt = true) := by
  constructor
  · intro hg
    by_cases hh : hasTagId tags gt = true
    · exact hasTagId_append _ _ _ (hsub gt hh)
    · refine hasTagId_append_right _ _ _ (hasTagId_truthyIds _ _ hg ?_)
      unfold additiveTagsToAdd
      refine List.mem_append_left _ ?_
      rw [if_pos ⟨hh, hg⟩]
      simp

  · intro hk
    by_cases hh : hasTagId tags kt = true
    · exact hasTagId_append _ _ _ (hsub kt hh)
    · refine hasTagId_append_right _ _ _ (hasTagId_truthyIds _ _ hk ?_)
      unfold additiveTagsToAdd
      refine List.mem_append_right _ ?_
      rw [if_pos ⟨hh, hk⟩]
      simp

/-! ### Evolution infrastructure around `tagMap` and snapshots -/

theorem forall₂_tagMap (mid : Nat) (ext : List TagRef) (l : List Monitor) :
    List.Forall₂ MonEvolved l (tagMap mid ext l) := by
  unfold tagMap
  rw [List.forall₂_map_right_iff]
  apply List.forall₂_same.mpr
  intro m _
  by_cases hm : m.id = mid
  · rw [if_pos hm]
    exact ⟨rfl, rfl, rfl, rfl, rfl, ext, rfl⟩
  · rw [if_neg hm]
    exact monEvolved_refl m

theorem evolves_of_forall₂ (s s2 : KumaState)
    (hm : List.Forall₂ MonEvolved s.monitors s2.monitors)
    (ht : ∃ e, s2.tags = s.tags ++ e) (hd : s2.dockerHosts = s.dockerHosts)
    (hn : s.nextMonitorId ≤ s2.nextMonitorId) : Evolves s s2 :=
  ⟨ht, hd, hn, s2.monitors, [], by simp, hm, by simp⟩

theorem snapEvolved_forall₂ (snap0 : List Monitor) (s s2 : KumaState)
    (hse : SnapEvolved snap0 s)
    (hf : List.Forall₂ MonEvolved s.monitors s2.monitors) :
    SnapEvolved snap0 s2 := by
  obtain ⟨pre, new, hmon, hf0⟩ := hse
  rw [hmon] at hf
  obtain ⟨p1, p2, hm2, hp1, _⟩ := forall₂_append_left_split hf
  exact ⟨p1, p2, hm2, forall₂_monEv_trans hf0 hp1⟩

theorem snapEvolved_evolves (snap0 : List Monitor) (s s2 : KumaState)
    (hse : SnapEvolved snap0 s) (hev : Evolves s s2) : SnapEvolved snap0 s2 := by
  obtain ⟨pre, new, hmon, hf0⟩ := hse
  obtain ⟨_, _, _, pre2, new2, hmon2, hf2, _⟩ := hev
  rw [hmon] at hf2
  obtain ⟨p1, p2, hm2, hp1, _⟩ := forall₂_append_left_split hf2
  exact ⟨p1, p2 ++ new2, by rw [hmon2, hm2, List.append_assoc],
    forall₂_monEv_trans hf0 hp1⟩

theorem firstUrlMatch_snap (snap0 : List Monitor) (s : KumaState) (h : String)
    (hse : SnapEvolved snap0 s) (m : Monitor)
    (hm : firstUrlMatch snap0 h = some m) :
    ∃ m2, firstUrlMatch s.monitors h = some m2 ∧ MonEvolved m m2 := by
  obtain ⟨pre, new, hmon, hf⟩ := hse
  obtain ⟨m2, h2, hev2⟩ :=
    (find?_forall₂ _ (by intro a b hab; rw [hab.2.2.2.1]) hf).1 m hm
  refine ⟨m2, ?_, hev2⟩
  unfold firstUrlMatch
  rw [hmon, List.find?_append, h2]
  rfl

theorem firstDockerMatch_snap (snap0 : List Monitor) (s : KumaState) (cn : String)
    (hid : Nat) (hse : SnapEvolved snap0 s) (m : Monitor)
    (hm : firstDockerMatch snap0 cn hid = some m) :
    ∃ m2, firstDockerMatch s.monitors cn hid = some m2 ∧ MonEvolved m m2 := by
  obtain ⟨pre, new, hmon, hf⟩ := hse
  obtain ⟨m2, h2, hev2⟩ :=
    (find?_forall₂ _
      (by intro a b hab; simp only [hab.2.1, hab.2.2.1, hab.2.2.2.2.1]) hf).1 m hm
  refine ⟨m2, ?_, hev2⟩
  unfold firstDockerMatch
  rw [hmon, List.find?_append, h2]
  rfl

theorem firstUrlMatch_tagMap (mid : Nat) (ext : List TagRef) (l : List Monitor)
    (h : String) :
    firstUrlMatch (tagMap mid ext l) h =
      (firstUrlMatch l h).map fun m =>
        if m.id = mid then { m with tags := m.tags ++ ext } else m := by
  unfold firstUrlMatch tagMap
  rw [List.find?_map]
  congr 1
  congr 1
  funext m
  by_cases hm : m.id = mid
  · simp [Function.comp, hm]
  · simp [Function.comp, hm]

theorem firstDockerMatch_tagMap (mid : Nat) (ext : List TagRef) (l : List Monitor)
    (cn : String) (hid : Nat) :
    firstDockerMatch (tagMap mid ext l) cn hid =
      (firstDockerMatch l cn hid).map fun m =>
        if m.id = mid then { m with tags := m.tags ++ ext } else m := by
  unfold firstDockerMatch tagMap
  rw [List.find?_map]
  congr 1
  congr 1
  funext m
  by_cases hm : m.id = mid
  · simp [Function.comp, hm]
  · simp [Function.comp, hm]

/-! ### Context-property transport along pointwise evolution -/

theorem urlsCovered_forall₂ (c c2 : RunCtx)
    (hf : List.Forall₂ MonEvolved c.server.monitors c2.server.monitors)
    (hu : ∀ u, c.existing_urls.contains u = true →
      c2.existing_urls.contains u = true)
    (h : UrlsCovered c) : UrlsCovered c2 := by
  intro m2 hm2 hurl
  obtain ⟨m, hm, hev⟩ := forall₂_mem_right hf m2 hm2
  rw [hev.2.2.2.1] at hurl ⊢
  exact hu _ (h m hm hurl)

theorem urlsMatched_forall₂ (c c2 : RunCtx)
    (hf : List.Forall₂ MonEvolved c.server.monitors c2.server.monitors)
    (hu : ∀ u, c2.existing_urls.contains u = true →
      c.existing_urls.contains u = true)
    (h : UrlsMatched c) : UrlsMatched c2 := by
  intro u hu2
  have h1 := h u (hu u hu2)
  cases hm : firstUrlMatch c.server.monitors u with
  | none => rw [hm] at h1; cases h1
  | some m =>
    obtain ⟨m2, hm2, _⟩ :=
      (find?_forall₂ _ (by intro a b hab; rw [hab.2.2.2.1]) hf).1 m hm
    rw [show firstUrlMatch c2.server.monitors u = some m2 from hm2]
    rfl

theorem noIgnored_forall₂ (pats : List String) (s s2 : KumaState)
    (hf : List.Forall₂ MonEvolved s.monitors s2.monitors)
    (h : NoIgnored pats s) : NoIgnored pats s2 := by
  intro m2 hm2 hurl
  obtain ⟨m, hm, hev⟩ := forall₂_mem_right hf m2 hm2
  rw [hev.2.2.2.1] at hurl ⊢
  exact h m hm hurl

theorem dockerTrace_forall₂ (cof : String → List String) (snap0 : List Monitor)
    (ds : List ServerInfo) (s s2 : KumaState)
    (hf : List.Forall₂ MonEvolved s.monitors s2.monitors)
    (hdh : s2.dockerHosts = s.dockerHosts)
    (h : DockerTrace cof snap0 ds s) : DockerTrace cof snap0 ds s2 := by
  intro m2 hm2 hty h' hdh2
  obtain ⟨m, hm, hev⟩ := forall₂_mem_right hf m2 hm2
  rw [hev.2.1] at hty
  rw [hev.2.2.2.2.1] at hdh2
  rw [hev.2.2.1]
  rcases h m hm hty h' hdh2 with hl | ⟨j, hj, hcj, hdj⟩
  · exact Or.inl hl
  · refine Or.inr ⟨j, hj, hcj, ?_⟩
    unfold dockerHostId
    rw [hdh]
    exact hdj

theorem reconcileServer_forall₂ (s : KumaState) (m : Monitor) (gt kt : Option Nat) :
    List.Forall₂ MonEvolved s.monitors (reconcileServer s m gt kt false).1.monitors := by
  rw [(reconcileServer_additive s m gt kt).1]
  exact forall₂_tagMap _ _ _

/-- Reconciling a matched monitor settles its host: the first URL match of
the new server state carries every truthy required tag. -/
theorem reconcile_hostDone (c : RunCtx) (gt tt : Option Nat) (m : Monitor)
    (h : String) (m2 : Monitor)
    (hm2 : firstUrlMatch c.server.monitors h = some m2) (hid2 : m2.id = m.id)
    (hsub : ∀ o, hasTagId m.tags o = true → hasTagId m2.tags o = true) :
    HostDone gt tt h (reconcileMonitorTags c m gt tt false).server := by
  have hchar := reconcileServer_additive c.server m gt tt
  refine ⟨{ m2 with tags := m2.tags ++
      (truthyIds (additiveTagsToAdd m.tags gt tt)).map fun t => ⟨t, ""⟩ }, ?_, ?_⟩
  · show firstUrlMatch (reconcileServer c.server m gt tt false).1.monitors h = _
    rw [hchar.1, firstUrlMatch_tagMap, hm2, Option.map_some', if_pos hid2]
  · intro hg
    have hcov := additive_covers m.tags m2.tags gt tt hsub
    exact ⟨hcov.1 hg, fun htt => hcov.2 htt⟩

/-- Reconciling a matched Docker monitor settles its container. -/
theorem reconcile_contDone (c : RunCtx) (gt dt : Option Nat) (hid : Nat)
    (m : Monitor) (cn : String) (m2 : Monitor)
    (hm2 : firstDockerMatch c.server.monitors cn hid = some m2)
    (hid2 : m2.id = m.id)
    (hsub : ∀ o, hasTagId m.tags o = true → hasTagId m2.tags o = true) :
    ContDone gt dt hid cn (reconcileMonitorTags c m gt dt false).server := by
  have hchar := reconcileServer_additive c.server m gt dt
  refine ⟨{ m2 with tags := m2.tags ++
      (truthyIds (additiveTagsToAdd m.tags gt dt)).map fun t => ⟨t, ""⟩ }, ?_, ?_, ?_⟩
  · show firstDockerMatch (reconcileServer c.server m gt dt false).1.monitors cn hid = _
    rw [hchar.1, firstDockerMatch_tagMap, hm2, Option.map_some', if_pos hid2]
  · intro hg
    exact (additive_covers m.tags m2.tags gt dt hsub).1 hg
  · intro hd
    exact (additive_covers m.tags m2.tags gt dt hsub).2 hd

/-- The Traefik tag-check fold: the context fields are stable, the server
only gains monitor tags pointwise, and every processed host with a
snapshot match ends up settled. -/
theorem traefikCheckFold_spec (gt tt : Option Nat) (snap0 : List Monitor)
    (l : List String) (c0 : RunCtx) (hsnap0 : c0.snapshot = snap0)
    (hse0 : SnapEvolved snap0 c0.server) :
    (l.foldl (reconcileHttpStep gt tt false) c0).snapshot = snap0 ∧
    (l.foldl (reconcileHttpStep gt tt false) c0).existing_urls =
      c0.existing_urls ∧
    (l.foldl (reconcileHttpStep gt tt false) c0).server.tags = c0.server.tags ∧
    (l.foldl (reconcileHttpStep gt tt false) c0).server.dockerHosts =
      c0.server.dockerHosts ∧
    (l.foldl (reconcileHttpStep gt tt false) c0).server.nextMonitorId =
      c0.server.nextMonitorId ∧
    List.Forall₂ MonEvolved c0.server.monitors
      (l.foldl (reconcileHttpStep gt tt false) c0).server.monitors ∧
    (∀ h ∈ l, (firstUrlMatch snap0 h).isSome = true →
      HostDone gt tt h (l.foldl (reconcileHttpStep gt tt false) c0).server) := by
  have main := foldl_inv (reconcileHttpStep gt tt false) l
    (fun pre c =>
      c.snapshot = snap0 ∧ c.existing_urls = c0.existing_urls ∧
      c.server.tags = c0.server.tags ∧
      c.server.dockerHosts = c0.server.dockerHosts ∧
      c.server.nextMonitorId = c0.server.nextMonitorId ∧
      List.Forall₂ MonEvolved c0.server.monitors c.server.monitors ∧
      ∀ h ∈ pre, (firstUrlMatch snap0 h).isSome = true → HostDone gt tt h c.server)
    ?_ l (fun b hb => hb) [] c0
    ⟨hsnap0, rfl, rfl, rfl, rfl, forall₂_monEv_refl _, by simp⟩
  · obtain ⟨g1, g2, g3, g4, g5, g6, g7⟩ := main
    exact ⟨g1, g2, g3, g4, g5, g6, fun h hm => g7 h (by simpa using hm)⟩
  · intro pre c b _ hI
    obtain ⟨i1, i2, i3, i4, i5, i6, i7⟩ := hI
    show _ ∧ _
    unfold reconcileHttpStep
    rw [i1]
    cases hfm : firstUrlMatch snap0 b with
    | none =>
      refine ⟨i1, i2, i3, i4, i5, i6, fun h hm hs => ?_⟩
      rcases List.mem_append.mp hm with hm | hm
      · exact i7 h hm hs
      · rw [List.mem_singleton.mp hm, hfm] at hs
        cases hs
    | some m =>
      have hchar := reconcileServer_additive c.server m gt tt
      have hf2 := reconcileServer_forall₂ c.server m gt tt
      have hev : Evolves c.server
          (reconcileMonitorTags c m gt tt false).server :=
        evolves_of_forall₂ _ _ hf2
          ⟨[], by rw [List.append_nil]; exact hchar.2.1⟩ hchar.2.2.1
          (le_of_eq hchar.2.2.2.symm)
      refine ⟨i1, i2, hchar.2.1.trans i3, hchar.2.2.1.trans i4,
        hchar.2.2.2.trans i5, forall₂_monEv_trans i6 hf2, fun h hm hs => ?_⟩
      rcases List.mem_append.mp hm with hm | hm
      · exact hostDone_mono _ _ _ _ _ hev (i7 h hm hs)
      · rw [List.mem_singleton.mp hm]
        have hseC : SnapEvolved snap0 c.server := snapEvolved_forall₂ _ _ _ hse0 i6
        obtain ⟨m2, hm2, hev2⟩ := firstUrlMatch_snap snap0 c.server b hseC m hfm
        exact reconcile_hostDone c gt tt m b m2 hm2 hev2.1
          (fun o ho => hasTagId_monEvolved _ _ _ hev2 ho)

/-- The Docker tag-check fold: the analogue for containers. -/
theorem dockerCheckFold_spec (gt dt : Option Nat) (hid : Nat)
    (snap0 : List Monitor) (l : List String) (c0 : RunCtx)
    (hsnap0 : c0.snapshot = snap0) (hse0 : SnapEvolved snap0 c0.server) :
    (l.foldl (reconcileDockerStep gt dt hid false) c0).snapshot = snap0 ∧
    (l.foldl (reconcileDockerStep gt dt hid false) c0).existing_urls =
      c0.existing_urls ∧
    (l.foldl (reconcileDockerStep gt dt hid false) c0).server.tags =
      c0.server.tags ∧
    (l.foldl (reconcileDockerStep gt dt hid false) c0).server.dockerHosts =
      c0.server.dockerHosts ∧
    (l.foldl (reconcileDockerStep gt dt hid false) c0).server.nextMonitorId =
      c0.server.nextMonitorId ∧
    List.Forall₂ MonEvolved c0.server.monitors
      (l.foldl (reconcileDockerStep gt dt hid false) c0).server.monitors ∧
    (∀ cn ∈ l, (firstDockerMatch snap0 cn hid).isSome = true →
      ContDone gt dt hid cn
        (l.foldl (reconcileDockerStep gt dt hid false) c0).server) := by
  have main := foldl_inv (reconcileDockerStep gt dt hid false) l
    (fun pre c =>
      c.snapshot = snap0 ∧ c.existing_urls = c0.existing_urls ∧
      c.server.tags = c0.server.tags ∧
      c.server.dockerHosts = c0.server.dockerHosts ∧
      c.server.nextMonitorId = c0.server.nextMonitorId ∧
      List.Forall₂ MonEvolved c0.server.monitors c.server.monitors ∧
      ∀ cn ∈ pre, (firstDockerMatch snap0 cn hid).isSome = true →
        ContDone gt dt hid cn c.server)
    ?_ l (fun b hb => hb) [] c0
    ⟨hsnap0, rfl, rfl, rfl, rfl, forall₂_monEv_refl _, by simp⟩
  · obtain ⟨g1, g2, g3, g4, g5, g6, g7⟩ := main
    exact ⟨g1, g2, g3, g4, g5, g6, fun h hm => g7 h (by simpa using hm)⟩
  · intro pre c b _ hI
    obtain ⟨i1, i2, i3, i4, i5, i6, i7⟩ := hI
    show _ ∧ _
    unfold reconcileDockerStep
    rw [i1]
    cases hfm : firstDockerMatch snap0 b hid with
    | none =>
      refine ⟨i1, i2, i3, i4, i5, i6, fun cn hm hs => ?_⟩
      rcases List.mem_append.mp hm with hm | hm
      · exact i7 cn hm hs
      · rw [List.mem_singleton.mp hm, hfm] at hs
        cases hs
    | some m =>
      have hchar := reconcileServer_additive c.server m gt dt
      have hf2 := reconcileServer_forall₂ c.server m gt dt
      have hev : Evolves c.server
          (reconcileMonitorTags c m gt dt false).server :=
        evolves_of_forall₂ _ _ hf2
          ⟨[], by rw [List.append_nil]; exact hchar.2.1⟩ hchar.2.2.1
          (le_of_eq hchar.2.2.2.symm)
      refine ⟨i1, i2, hchar.2.1.trans i3, hchar.2.2.1.trans i4,
        hchar.2.2.2.trans i5, forall₂_monEv_trans i6 hf2, fun cn hm hs => ?_⟩
      rcases List.mem_append.mp hm with hm | hm
      · exact contDone_mono _ _ _ _ _ _ hev (i7 cn hm hs)
      · rw [List.mem_singleton.mp hm]
        have hseC : SnapEvolved snap0 c.server := snapEvolved_forall₂ _ _ _ hse0 i6
        obtain ⟨m2, hm2, hev2⟩ :=
          firstDockerMatch_snap snap0 c.server b hid hseC m hfm
        exact reconcile_contDone c gt dt hid m b m2 hm2 hev2.1
          (fun o ho => hasTagId_monEvolved _ _ _ hev2 ho)

/-! ### The creation steps, characterised -/

theorem createHttpStep_char (gt tt : Option Nat) (c : RunCtx) (h : String)
    (hmid : c.server.nextMonitorId ≠ 0) :
    (createHttpStep gt tt c h).server.monitors =
      tagMap c.server.nextMonitorId ((truthyIds [gt, tt]).map fun t => ⟨t, ""⟩)
        (c.server.monitors ++
          [⟨c.server.nextMonitorId, MonType.http, netlocOf h, h, none, []⟩]) ∧
    (createHttpStep gt tt c h).server.tags = c.server.tags ∧
    (createHttpStep gt tt c h).server.dockerHosts = c.server.dockerHosts ∧
    (createHttpStep gt tt c h).server.nextMonitorId =
      c.server.nextMonitorId + 1 ∧
    (createHttpStep gt tt c h).existing_urls = h :: c.existing_urls ∧
    (createHttpStep gt tt c h).snapshot = c.snapshot := by
  unfold createHttpStep
  simp only
  rw [if_pos hmid]
  exact ⟨(addTags_monitors _ _ _).1, (addTags_monitors _ _ _).2.1,
    (addTags_monitors _ _ _).2.2.1, (addTags_monitors _ _ _).2.2.2, trivial,
    trivial⟩

theorem createDockerStep_char (gt dt : Option Nat) (hid : Nat) (c : RunCtx)
    (cn : String) (hmid : c.server.nextMonitorId ≠ 0) :
    (createDockerStep gt dt hid c cn).server.monitors =
      tagMap c.server.nextMonitorId ((truthyIds [gt, dt]).map fun t => ⟨t, ""⟩)
        (c.server.monitors ++
          [⟨c.server.nextMonitorId, MonType.docker, cn, "", some hid, []⟩]) ∧
    (createDockerStep gt dt hid c cn).server.tags = c.server.tags ∧
    (createDockerStep gt dt hid c cn).server.dockerHosts =
      c.server.dockerHosts ∧
    (createDockerStep gt dt hid c cn).server.nextMonitorId =
      c.server.nextMonitorId + 1 ∧
    (createDockerStep gt dt hid c cn).existing_urls = c.existing_urls ∧
    (createDockerStep gt dt hid c cn).snapshot = c.snapshot := by
  unfold createDockerStep
  simp only
  rw [if_pos hmid]
  exact ⟨(addTags_monitors _ _ _).1, (addTags_monitors _ _ _).2.1,
    (addTags_monitors _ _ _).2.2.1, (addTags_monitors _ _ _).2.2.2, trivial,
    trivial⟩

/-- The Traefik creation fold: URL coverage and matching are maintained,
no ignored URL and no Docker-shaped monitor appears, `existing_urls`
grows only by processed hosts, and every processed host ends up
settled. -/
theorem traefikCreateFold_spec (gt tt : Option Nat) (snap0 : List Monitor)
    (pats : List String) (cof : String → List String) (ds : List ServerInfo)
    (lm : List String) (cc0 : RunCtx)
    (hsnap0 : cc0.snapshot = snap0)
    (hpos : 1 ≤ cc0.server.nextMonitorId)
    (hcov0 : UrlsCovered cc0) (hmat0 : UrlsMatched cc0)
    (hni0 : NoIgnored pats cc0.server)
    (hdt0 : DockerTrace cof snap0 ds cc0.server)
    (hlm : ∀ h ∈ lm, h ≠ "" ∧ should_ignore h pats = false ∧
      cc0.existing_urls.contains h = false) :
    (lm.foldl (createHttpStep gt tt) cc0).snapshot = snap0 ∧
    Evolves cc0.server (lm.foldl (createHttpStep gt tt) cc0).server ∧
    (lm.foldl (createHttpStep gt tt) cc0).server.tags = cc0.server.tags ∧
    UrlsCovered (lm.foldl (createHttpStep gt tt) cc0) ∧
    UrlsMatched (lm.foldl (createHttpStep gt tt) cc0) ∧
    NoIgnored pats (lm.foldl (createHttpStep gt tt) cc0).server ∧
    DockerTrace cof snap0 ds (lm.foldl (createHttpStep gt tt) cc0).server ∧
    (∀ u, (lm.foldl (createHttpStep gt tt) cc0).existing_urls.contains u = true →
      u ∈ lm ∨ cc0.existing_urls.contains u = true) ∧
    (∀ h ∈ lm, HostDone gt tt h (lm.foldl (createHttpStep gt tt) cc0).server) := by
  have main := foldl_inv (createHttpStep gt tt) lm
    (fun pre c =>
      c.snapshot = snap0 ∧ Evolves cc0.server c.server ∧
      c.server.tags = cc0.server.tags ∧
      UrlsCovered c ∧ UrlsMatched c ∧ NoIgnored pats c.server ∧
      DockerTrace cof snap0 ds c.server ∧
      (∀ u, c.existing_urls.contains u = true →
        u ∈ pre ∨ cc0.existing_urls.contains u = true) ∧
      (∀ h ∈ pre, HostDone gt tt h c.server))
    ?_ lm (fun b hb => hb) [] cc0
    ⟨hsnap0, evolves_refl _, rfl, hcov0, hmat0, hni0, hdt0,
      fun u hu => Or.inr hu, by simp⟩
  · obtain ⟨g1, g2, g3, g4, g5, g6, g7, g8, g9⟩ := main
    exact ⟨g1, g2, g3, g4, g5, g6, g7,
      fun u hu => by simpa using g8 u hu,
      fun h hm => g9 h (by simpa using hm)⟩
  · intro pre c b hbl hI
    obtain ⟨i1, i2, i3, i4, i5, i6, i7, i8, i9⟩ := hI
    have hmid : c.server.nextMonitorId ≠ 0 := by
      have := i2.2.2.1
      omega
    have char := createHttpStep_char gt tt c b hmid
    have hf : List.Forall₂ MonEvolved
        (c.server.monitors ++
          [⟨c.server.nextMonitorId, MonType.http, netlocOf b, b, none, []⟩])
        (createHttpStep gt tt c b).server.monitors := by
      rw [char.1]
      exact forall₂_tagMap _ _ _
    have hevStep := evolves_createHttpStep gt tt c b
    have hfresh : c.existing_urls.contains b = false →
        firstUrlMatch (createHttpStep gt tt c b).server.monitors b =
          some { id := c.server.nextMonitorId, type := MonType.http,
                 name := netlocOf b, url := b, docker_host := none,
                 tags := [] ++ (truthyIds [gt, tt]).map fun t => ⟨t, ""⟩ } := by
      intro hcb
      have hnone : c.server.monitors.find? (fun m => m.url == b) = none := by
        rw [List.find?_eq_none]
        intro m hm hbeq
        have hub : m.url = b := eq_of_beq hbeq
        have : c.existing_urls.contains m.url = true :=
          i4 m hm (by rw [hub]; exact (hlm b hbl).1)
        rw [hub, hcb] at this
        cases this
      rw [char.1, firstUrlMatch_tagMap]
      unfold firstUrlMatch
      rw [List.find?_append, hnone]
      rw [List.find?_cons_of_pos _ (by simp)]
      rw [show (Option.none).or (some (⟨c.server.nextMonitorId, MonType.http,
        netlocOf b, b, none, []⟩ : Monitor)) = some ⟨c.server.nextMonitorId,
        MonType.http, netlocOf b, b, none, []⟩ from rfl]
      rw [Option.map_some', if_pos rfl]
    refine ⟨char.2.2.2.2.2.trans i1, evolves_trans i2 hevStep,
      char.2.1.trans i3, ?_, ?_, ?_, ?_, ?_, ?_⟩
    · intro m' hm' hurl
      obtain ⟨m0, hm0, hev0⟩ := forall₂_mem_right hf m' hm'
      rw [hev0.2.2.2.1] at hurl ⊢
      rw [char.2.2.2.2.1, List.contains_cons]
      rcases List.mem_append.mp hm0 with hm0 | hm0
      · rw [i4 m0 hm0 hurl, Bool.or_true]
      · rw [List.mem_singleton.mp hm0]
        simp
    · intro u hu
      rw [char.2.2.2.2.1, List.contains_cons] at hu
      rcases Bool.or_eq_true_iff.mp hu with hub | hub
      · have hub' : u = b := eq_of_beq hub
        subst hub'
        by_cases hcb : c.existing_urls.contains u = true
        · have h1 := i5 u hcb
          cases hm : firstUrlMatch c.server.monitors u with
          | none => rw [hm] at h1; cases h1
          | some m =>
            obtain ⟨m2, hm2, _⟩ :=
              firstUrlMatch_evolves c.server _ u hevStep m hm
            rw [hm2]
            rfl
        · rw [hfresh (Bool.not_eq_true _ ▸ hcb)]
          rfl
      · have h1 := i5 u hub
        cases hm : firstUrlMatch c.server.monitors u with
        | none => rw [hm] at h1; cases h1
        | some m =>
          obtain ⟨m2, hm2, _⟩ :=
            firstUrlMatch_evolves c.server _ u hevStep m hm
          rw [hm2]
          rfl
    · intro m' hm' hurl
      obtain ⟨m0, hm0, hev0⟩ := forall₂_mem_right hf m' hm'
      rw [hev0.2.2.2.1] at hurl ⊢
      rcases List.mem_append.mp hm0 with hm0 | hm0
      · exact i6 m0 hm0 hurl
      · rw [List.mem_singleton.mp hm0]
        exact (hlm b hbl).2.1
    · intro m' hm' hty h' hdh'
      obtain ⟨m0, hm0, hev0⟩ := forall₂_mem_right hf m' hm'
      rw [hev0.2.1] at hty
      rw [hev0.2.2.2.2.1] at hdh'
      rw [hev0.2.2.1]
      rcases List.mem_append.mp hm0 with hm0 | hm0
      · rcases i7 m0 hm0 hty h' hdh' with hl | ⟨j, hj, hcj, hdj⟩
        · exact Or.inl hl
        · refine Or.inr ⟨j, hj, hcj, ?_⟩
          unfold dockerHostId
          rw [show (createHttpStep gt tt c b).server.dockerHosts =
            c.server.dockerHosts from char.2.2.1]
          exact hdj
      · rw [List.mem_singleton.mp hm0] at hty
        cases hty
    · intro u hu
      rw [char.2.2.2.2.1, List.contains_cons] at hu
      rcases Bool.or_eq_true_iff.mp hu with hub | hub
      · exact Or.inl (by rw [eq_of_beq hub]; simp)
      · rcases i8 u hub with h | h
        · exact Or.inl (List.mem_append_left _ h)
        · exact Or.inr h
    · intro h hm
      rcases List.mem_append.mp hm with hm | hm
      · exact hostDone_mono _ _ _ _ _ hevStep (i9 h hm)
      · rw [List.mem_singleton.mp hm]
        by_cases hcb : c.existing_urls.contains b = true
        · rcases i8 b hcb with hbp | hb0
          · exact hostDone_mono _ _ _ _ _ hevStep (i9 b hbp)
          · rw [(hlm b hbl).2.2] at hb0
            cases hb0
        · refine ⟨_, hfresh (Bool.not_eq_true _ ▸ hcb), fun hg => ?_⟩
          rw [List.nil_append]
          exact ⟨hasTagId_truthyIds [gt, tt] gt hg (by simp),
            fun ht => hasTagId_truthyIds [gt, tt] tt ht (by simp)⟩

theorem isEmpty_false_of_mem {α : Type} {l : List α} {x : α} (h : x ∈ l) :
    l.isEmpty = false := by
  cases l with
  | nil => simp at h
  | cons a t => rfl

theorem resolvedTag_congr (s s2 : KumaState) (h : s2.tags = s.tags) (n : String) :
    resolvedTag s2 n = resolvedTag s n := by
  unfold resolvedTag
  rw [h]

theorem trGroupTag_congr (s s2 : KumaState) (h : s2.tags = s.tags) (g : String) :
    trGroupTag s2 g = trGroupTag s g := by
  unfold trGroupTag
  rw [resolvedTag_congr s s2 h]

/-- The Docker creation fold.  Because the snapshot is stale, a created
container can already have a monitor made by an earlier group sharing the
runtime host; under the host-injectivity hypothesis `hprev` that earlier
group carries the same labels, so every processed container still ends up
settled. -/
theorem dockerCreateFold_spec (gt dt : Option Nat) (hid : Nat)
    (snap0 : List Monitor) (pats : List String) (cof : String → List String)
    (dsDone : List ServerInfo) (info : ServerInfo) (lc : List String)
    (cd0 : RunCtx)
    (hsnap0 : cd0.snapshot = snap0)
    (hpos : 1 ≤ cd0.server.nextMonitorId)
    (hnz : hid ≠ 0)
    (hcov0 : UrlsCovered cd0) (hmat0 : UrlsMatched cd0)
    (hni0 : NoIgnored pats cd0.server)
    (hdt0 : DockerTrace cof snap0 dsDone cd0.server)
    (hdone0 : ∀ j ∈ dsDone, DockerDone cof j cd0.server)
    (hprev : ∀ j ∈ dsDone, j.group ≠ info.group →
      ∀ hid2, dockerHostId cd0.server j.group = some hid2 → hid2 ≠ hid)
    (hgt : trGroupTag cd0.server info.group = gt)
    (hdtag : resolvedTag cd0.server "docker" = dt)
    (hhid0 : dockerHostId cd0.server info.group = some hid)
    (hlc : ∀ cn ∈ lc, firstDockerMatch snap0 cn hid = none ∧ cn ∈ cof info.url) :
    (lc.foldl (createDockerStep gt dt hid) cd0).snapshot = snap0 ∧
    Evolves cd0.server (lc.foldl (createDockerStep gt dt hid) cd0).server ∧
    (lc.foldl (createDockerStep gt dt hid) cd0).server.tags = cd0.server.tags ∧
    (lc.foldl (createDockerStep gt dt hid) cd0).server.dockerHosts =
      cd0.server.dockerHosts ∧
    (lc.foldl (createDockerStep gt dt hid) cd0).existing_urls =
      cd0.existing_urls ∧
    UrlsCovered (lc.foldl (createDockerStep gt dt hid) cd0) ∧
    UrlsMatched (lc.foldl (createDockerStep gt dt hid) cd0) ∧
    NoIgnored pats (lc.foldl (createDockerStep gt dt hid) cd0).server ∧
    DockerTrace cof snap0 (dsDone ++ [info])
      (lc.foldl (createDockerStep gt dt hid) cd0).server ∧
    (∀ cn ∈ lc, ContDone gt dt hid cn
      (lc.foldl (createDockerStep gt dt hid) cd0).server) := by
  have contDone0 : ∀ cn,
      (firstDockerMatch cd0.server.monitors cn hid).isSome = true →
      ContDone gt dt hid cn cd0.server ∨
        (firstDockerMatch snap0 cn hid).isSome = true := by
    intro cn hsome
    cases hfm : firstDockerMatch cd0.server.monitors cn hid with
    | none => rw [hfm] at hsome; cases hsome
    | some m2 =>
      have hfm2 : List.find? (fun m => decide (m.type = MonType.docker ∧
          m.name = cn ∧ m.docker_host = some hid)) cd0.server.monitors =
          some m2 := hfm
      have hmem : m2 ∈ cd0.server.monitors := List.mem_of_find?_eq_some hfm2
      have hpredb := List.find?_some hfm2
      have hpred : m2.type = MonType.docker ∧ m2.name = cn ∧
          m2.docker_host = some hid := of_decide_eq_true hpredb
      rcases hdt0 m2 hmem hpred.1 hid hpred.2.2 with hl | ⟨j, hj, hcj, hdj⟩
      · obtain ⟨ms, hms, hty, hnm, hdh⟩ := hl
        refine Or.inr ?_
        unfold firstDockerMatch
        rw [List.find?_isSome]
        exact ⟨ms, hms, decide_eq_true ⟨hty, by rw [hnm, hpred.2.1], hdh⟩⟩
      · by_cases hjg : j.group = info.group
        · have hdd := hdone0 j hj (isEmpty_false_of_mem (hpred.2.1 ▸ hcj))
          have hcd := hdd.2.2 hid hdj hnz cn (hpred.2.1 ▸ hcj)
          rw [hjg, hgt, hdtag] at hcd
          exact Or.inl hcd
        · exact absurd rfl (hprev j hj hjg hid hdj)
  have main := foldl_inv (createDockerStep gt dt hid) lc
    (fun pre c =>
      c.snapshot = snap0 ∧ Evolves cd0.server c.server ∧
      c.server.tags = cd0.server.tags ∧
      c.server.dockerHosts = cd0.server.dockerHosts ∧
      c.existing_urls = cd0.existing_urls ∧
      UrlsCovered c ∧ UrlsMatched c ∧ NoIgnored pats c.server ∧
      DockerTrace cof snap0 (dsDone ++ [info]) c.server ∧
      (∀ cn, (firstDockerMatch cd0.server.monitors cn hid).isSome = false →
        (firstDockerMatch c.server.monitors cn hid).isSome = true → cn ∈ pre) ∧
      (∀ cn ∈ pre, ContDone gt dt hid cn c.server))
    ?_ lc (fun b hb => hb) [] cd0
    ⟨hsnap0, evolves_refl _, rfl, rfl, rfl, hcov0, hmat0, hni0,
      by
        intro m hm hty h' hdh'
        rcases hdt0 m hm hty h' hdh' with hl | ⟨j, hj, hcj, hdj⟩
        · exact Or.inl hl
        · exact Or.inr ⟨j, List.mem_append_left _ hj, hcj, hdj⟩,
      fun cn hno hyes => absurd hyes (by rw [hno]; intro hx; cases hx),
      by simp⟩
  · obtain ⟨g1, g2, g3, g4, g5, g6, g7, g8, g9, _, g11⟩ := main
    exact ⟨g1, g2, g3, g4, g5, g6, g7, g8, g9,
      fun cn hm => g11 cn (by simpa using hm)⟩
  · intro pre c b hbl hI
    obtain ⟨i1, i2, i3, i4, i5, i6, i7, i8, i9, i10, i11⟩ := hI
    have hmid : c.server.nextMonitorId ≠ 0 := by
      have := i2.2.2.1
      omega
    have char := createDockerStep_char gt dt hid c b hmid
    have hf : List.Forall₂ MonEvolved
        (c.server.monitors ++
          [⟨c.server.nextMonitorId, MonType.docker, b, "", some hid, []⟩])
        (createDockerStep gt dt hid c b).server.monitors := by
      rw [char.1]
      exact forall₂_tagMap _ _ _
    have hevStep := evolves_createDockerStep gt dt hid c b
    have hstepMatch : ∀ cn,
        firstDockerMatch (createDockerStep gt dt hid c b).server.monitors cn hid =
          ((firstDockerMatch (c.server.monitors ++
              [⟨c.server.nextMonitorId, MonType.docker, b, "", some hid, []⟩])
            cn hid).map fun m =>
              if m.id = c.server.nextMonitorId then
                { m with tags := m.tags ++
                    (truthyIds [gt, dt]).map fun t => ⟨t, ""⟩ }
              else m) := by
      intro cn
      rw [char.1, firstDockerMatch_tagMap]
    have hfresh : (firstDockerMatch c.server.monitors b hid).isSome = false →
        firstDockerMatch (createDockerStep gt dt hid c b).server.monitors b hid =
          some { id := c.server.nextMonitorId, type := MonType.docker,
                 name := b, url := "", docker_host := some hid,
                 tags := [] ++ (truthyIds [gt, dt]).map fun t => ⟨t, ""⟩ } := by
      intro hnone
      rw [hstepMatch b]
      unfold firstDockerMatch
      rw [List.find?_append]
      rw [show List.find?
          (fun m => decide (m.type = MonType.docker ∧ m.name = b ∧
            m.docker_host = some hid)) c.server.monitors = none from
        Option.not_isSome_iff_eq_none.mp (by rw [← Bool.not_eq_true] at hnone; exact hnone)]
      rw [List.find?_cons_of_pos _ (by simp)]
      rw [show (Option.none).or (some (⟨c.server.nextMonitorId, MonType.docker,
        b, "", some hid, []⟩ : Monitor)) = some ⟨c.server.nextMonitorId,
        MonType.docker, b, "", some hid, []⟩ from rfl]
      rw [Option.map_some', if_pos rfl]
    refine ⟨char.2.2.2.2.2.trans i1, evolves_trans i2 hevStep,
      char.2.1.trans i3, char.2.2.1.trans i4, char.2.2.2.2.1.trans i5,
      ?_, ?_, ?_, ?_, ?_, ?_⟩
    · intro m' hm' hurl
      obtain ⟨m0, hm0, hev0⟩ := forall₂_mem_right hf m' hm'
      rw [hev0.2.2.2.1] at hurl ⊢
      rw [char.2.2.2.2.1]
      rcases List.mem_append.mp hm0 with hm0 | hm0
      · exact i6 m0 hm0 hurl
      · rw [List.mem_singleton.mp hm0] at hurl
        exact absurd rfl hurl
    · intro u hu
      rw [char.2.2.2.2.1] at hu
      have h1 := i7 u hu
      cases hm : firstUrlMatch c.server.monitors u with
      | none => rw [hm] at h1; cases h1
      | some m =>
        obtain ⟨m2, hm2, _⟩ := firstUrlMatch_evolves c.server _ u hevStep m hm
        rw [hm2]
        rfl
    · intro m' hm' hurl
      obtain ⟨m0, hm0, hev0⟩ := forall₂_mem_right hf m' hm'
      rw [hev0.2.2.2.1] at hurl ⊢
      rcases List.mem_append.mp hm0 with hm0 | hm0
      · exact i8 m0 hm0 hurl
      · rw [List.mem_singleton.mp hm0] at hurl
        exact absurd rfl hurl
    · intro m' hm' hty h' hdh'
      obtain ⟨m0, hm0, hev0⟩ := forall₂_mem_right hf m' hm'
      rw [hev0.2.1] at hty
      rw [hev0.2.2.2.2.1] at hdh'
      rw [hev0.2.2.1]
      rcases List.mem_append.mp hm0 with hm0 | hm0
      · rcases i9 m0 hm0 hty h' hdh' with hl | ⟨j, hj, hcj, hdj⟩
        · exact Or.inl hl
        · refine Or.inr ⟨j, hj, hcj, ?_⟩
          unfold dockerHostId
          rw [show (createDockerStep gt dt hid c b).server.dockerHosts =
            c.server.dockerHosts from char.2.2.1]
          exact hdj
      · rw [List.mem_singleton.mp hm0] at hdh' ⊢
        have hh' : hid = h' := Option.some.inj hdh'
        subst hh'
        refine Or.inr ⟨info, List.mem_append_right _ (by simp),
          (hlc b hbl).2, ?_⟩
        unfold dockerHostId
        rw [show (createDockerStep gt dt hid c b).server.dockerHosts =
          c.server.dockerHosts from char.2.2.1, i4]
        exact hhid0
    · intro cn hno hyes
      rw [hstepMatch cn] at hyes
      cases hfm : firstDockerMatch (c.server.monitors ++
          [⟨c.server.nextMonitorId, MonType.docker, b, "", some hid, []⟩])
          cn hid with
      | none => rw [hfm] at hyes; cases hyes
      | some m0 =>
        unfold firstDockerMatch at hfm
        rw [List.find?_append] at hfm
        cases hfc : List.find?
            (fun m => decide (m.type = MonType.docker ∧ m.name = cn ∧
              m.docker_host = some hid)) c.server.monitors with
        | some mc =>
          refine List.mem_append_left _ (i10 cn hno ?_)
          show (firstDockerMatch c.server.monitors cn hid).isSome = true
          unfold firstDockerMatch
          rw [hfc]
          rfl
        | none =>
          rw [hfc] at hfm
          by_cases hbc : b = cn
          · exact List.mem_append_right _ (by simp [hbc])
          · rw [List.find?_cons_of_neg _ (by simp [hbc])] at hfm
            simp at hfm
    · intro cn hm
      rcases List.mem_append.mp hm with hm | hm
      · exact contDone_mono _ _ _ _ _ _ hevStep (i11 cn hm)
      · rw [List.mem_singleton.mp hm]
        by_cases hcs : (firstDockerMatch c.server.monitors b hid).isSome = true
        · by_cases hc0 : (firstDockerMatch cd0.server.monitors b hid).isSome = true
          · rcases contDone0 b hc0 with hcd | hsnap
            · exact contDone_mono _ _ _ _ _ _ (evolves_trans i2 hevStep) hcd
            · rw [(hlc b hbl).1] at hsnap
              cases hsnap
          · have hbp := i10 b (Bool.not_eq_true _ ▸ hc0) hcs
            exact contDone_mono _ _ _ _ _ _ hevStep (i11 b hbp)
        · refine ⟨_, hfresh (Bool.not_eq_true _ ▸ hcs), fun hg => ?_, fun hd => ?_⟩
          · rw [List.nil_append]
            exact hasTagId_truthyIds [gt, dt] gt hg (by simp)
          · rw [List.nil_append]
            exact hasTagId_truthyIds [gt, dt] dt hd (by simp)

/-! ### Tag resolution, characterised for the phase proofs -/

theorem getOrCreateTagState_resolved (s : KumaState) (n : String) :
    (getOrCreateTagState s n).2.1.monitors = s.monitors ∧
    (getOrCreateTagState s n).2.1.dockerHosts = s.dockerHosts ∧
    (getOrCreateTagState s n).2.1.nextMonitorId = s.nextMonitorId ∧
    (∃ ext, (getOrCreateTagState s n).2.1.tags = s.tags ++ ext) ∧
    resolvedTag (getOrCreateTagState s n).2.1 n = (getOrCreateTagState s n).1 ∧
    (∃ t, (getOrCreateTagState s n).1 = some t) ∧
    (∀ t, resolvedTag s n = some t → (getOrCreateTagState s n).1 = some t) := by
  unfold getOrCreateTagState
  cases hf : s.tags.find? fun t => t.2 == n with
  | some tg =>
    refine ⟨rfl, rfl, rfl, ⟨[], by simp⟩, ?_, ⟨tg.1, rfl⟩, ?_⟩
    · unfold resolvedTag
      rw [hf]
      rfl
    · intro t ht
      unfold resolvedTag at ht
      rw [hf] at ht
      exact ht
  | none =>
    refine ⟨rfl, rfl, rfl, ⟨[(s.nextTagId, n)], rfl⟩, ?_, ⟨s.nextTagId, rfl⟩, ?_⟩
    · show ((s.tags ++ [(s.nextTagId, n)]).find? fun t => t.2 == n).map
        Prod.fst = some s.nextTagId
      rw [List.find?_append, hf]
      rw [List.find?_cons_of_pos _ (by simp)]
      rfl
    · intro t ht
      unfold resolvedTag at ht
      rw [hf] at ht
      cases ht

theorem getOrCreateTagState_found (s : KumaState) (n : String) (t : Nat)
    (h : resolvedTag s n = some t) :
    getOrCreateTagState s n = (some t, s, []) := by
  unfold getOrCreateTagState
  unfold resolvedTag at h
  cases hf : s.tags.find? fun p => p.2 == n with
  | none => rw [hf] at h; cases h
  | some pr =>
    rw [hf] at h
    have hpt : pr.1 = t := Option.some.inj h
    show (some pr.1, s, []) = (some t, s, [])
    rw [hpt]

theorem resolveGroupTag_server (ctx : RunCtx) (g : String) :
    (resolveGroupTag ctx g).2.server.monitors = ctx.server.monitors ∧
    (resolveGroupTag ctx g).2.server.dockerHosts = ctx.server.dockerHosts ∧
    (resolveGroupTag ctx g).2.server.nextMonitorId = ctx.server.nextMonitorId ∧
    (∃ ext, (resolveGroupTag ctx g).2.server.tags = ctx.server.tags ++ ext) ∧
    trGroupTag (resolveGroupTag ctx g).2.server g = (resolveGroupTag ctx g).1 ∧
    (g ≠ "" → ∃ t, (resolveGroupTag ctx g).1 = some t) ∧
    (∀ t, trGroupTag ctx.server g = some t → (resolveGroupTag ctx g).1 = some t) := by
  simp only [resolveGroupTag]
  by_cases hg : g ≠ ""
  · rw [if_pos hg]
    have hres := getOrCreateTagState_resolved ctx.server g
    refine ⟨hres.1, hres.2.1, hres.2.2.1, hres.2.2.2.1, ?_, fun _ => hres.2.2.2.2.2.1,
      fun t ht => ?_⟩
    · unfold trGroupTag
      rw [if_pos hg]
      exact hres.2.2.2.2.1
    · unfold trGroupTag at ht
      rw [if_pos hg] at ht
      exact hres.2.2.2.2.2.2 t ht
  · rw [if_neg hg]
    refine ⟨rfl, rfl, rfl, ⟨[], by simp⟩, ?_, fun hgg => absurd hgg hg, fun t ht => ?_⟩
    · unfold trGroupTag
      rw [if_neg hg]
    · unfold trGroupTag at ht
      rw [if_neg hg] at ht
      cases ht

theorem resolveGroupTag_evolves (ctx : RunCtx) (g : String) :
    Evolves ctx.server (resolveGroupTag ctx g).2.server := by
  have h := resolveGroupTag_server ctx g
  exact evolves_of_forall₂ _ _ (by rw [h.1]; exact forall₂_monEv_refl _)
    h.2.2.2.1 h.2.1 (le_of_eq h.2.2.1.symm)

theorem resolveGroupTag_found (ctx : RunCtx) (g : String) (t : Nat)
    (hg : g ≠ "") (h : resolvedTag ctx.server g = some t) :
    resolveGroupTag ctx g = (some t, ctx) := by
  simp only [resolveGroupTag]
  rw [if_pos hg, getOrCreateTagState_found ctx.server g t h]
  rw [runCtx_update_id ctx ctx.server [] rfl rfl]

theorem resolveGroupTag_empty (ctx : RunCtx) :
    resolveGroupTag ctx "" = (none, ctx) := by
  simp only [resolveGroupTag]
  rw [if_neg (by simp)]
  rw [runCtx_update_id ctx ctx.server [] rfl rfl]

/-! ### Small facts about the filtered lists -/

theorem filteredHosts_subset (hosts_of : String → List String)
    (pats : List String) (info : ServerInfo) :
    ∀ h ∈ filteredHosts hosts_of pats info, h ∈ hosts_of info.url := by
  intro h hm
  unfold filteredHosts at hm
  by_cases hp : pats.isEmpty
  · rw [if_pos hp] at hm; exact hm
  · rw [if_neg hp] at hm; exact (List.mem_filter.mp hm).1

theorem filteredHosts_not_ignored (hosts_of : String → List String)
    (pats : List String) (info : ServerInfo) :
    ∀ h ∈ filteredHosts hosts_of pats info, should_ignore h pats = false := by
  intro h hm
  unfold filteredHosts at hm
  by_cases hp : pats.isEmpty
  · rw [if_pos hp] at hm
    rw [List.isEmpty_iff.mp hp]
    exact should_ignore_nil h
  · rw [if_neg hp] at hm
    have := (List.mem_filter.mp hm).2
    simpa using this

theorem missingContainers_spec (containers : List String)
    (snapshot : List Monitor) (hid : Nat) :
    ∀ cn ∈ missingContainers containers snapshot hid,
      firstDockerMatch snapshot cn hid = none ∧ cn ∈ containers := by
  intro cn hm
  obtain ⟨hc, hnc⟩ := List.mem_filter.mp hm
  refine ⟨?_, hc⟩
  unfold firstDockerMatch
  rw [List.find?_eq_none]
  intro m hmm hpm
  have hp := of_decide_eq_true hpm
  have : cn ∈ existingDockerNames snapshot hid :=
    (existingDockerNames_mem snapshot hid cn).mpr ⟨m, hmm, hp.1, hp.2.1, hp.2.2⟩
  have hcontains : (existingDockerNames snapshot hid).contains cn = true :=
    List.elem_iff.mpr this
  rw [hcontains] at hnc
  simp at hnc

theorem missingContainers_none (containers : List String)
    (snapshot : List Monitor) (hid : Nat) (cn : String) (hc : cn ∈ containers)
    (hn : firstDockerMatch snapshot cn hid = none) :
    cn ∈ missingContainers containers snapshot hid := by
  unfold missingContainers
  rw [List.mem_filter]
  refine ⟨hc, ?_⟩
  simp only [decide_eq_true_eq]
  intro hcontains
  obtain ⟨m, hm, hty, hnm, hdh⟩ := (existingDockerNames_mem snapshot hid cn).mp
    (List.elem_iff.mp hcontains)
  unfold firstDockerMatch at hn
  rw [List.find?_eq_none] at hn
  exact hn m hm (decide_eq_true ⟨hty, hnm, hdh⟩)

theorem dockerTrace_congr (cof : String → List String) (snap0 : List Monitor)
    (ds : List ServerInfo) (s s2 : KumaState)
    (hm : s2.monitors = s.monitors) (hdh : s2.dockerHosts = s.dockerHosts)
    (h : DockerTrace cof snap0 ds s) : DockerTrace cof snap0 ds s2 := by
  intro m2 hm2 hty h' hdh2
  rw [hm] at hm2
  rcases h m2 hm2 hty h' hdh2 with hl | ⟨j, hj, hcj, hdj⟩
  · exact Or.inl hl
  · refine Or.inr ⟨j, hj, hcj, ?_⟩
    unfold dockerHostId
    rw [hdh]
    exact hdj

/-! ### One Traefik group phase -/

/-- One Traefik group: the invariant bundle is preserved, `existing_urls`
grows only by this group's filtered hosts, and the group's postcondition
is established — provided hosts created by earlier groups (in
`existing_urls` but missing from the snapshot) are already settled for
this group's tag. -/
theorem processTraefik_phase (hosts_of : String → List String)
    (pats : List String) (tt : Option Nat) (snap0 : List Monitor)
    (cof : String → List String) (ds : List ServerInfo) (ctx : RunCtx)
    (info : ServerInfo)
    (h1 : ctx.snapshot = snap0)
    (h2 : SnapEvolved snap0 ctx.server)
    (h3 : UrlsCovered ctx) (h4 : UrlsMatched ctx)
    (h5 : 1 ≤ ctx.server.nextMonitorId)
    (h6 : NoIgnored pats ctx.server)
    (h7 : DockerTrace cof snap0 ds ctx.server)
    (hne : ∀ h ∈ hosts_of info.url, h ≠ "")
    (hhole : ∀ h ∈ filteredHosts hosts_of pats info,
      firstUrlMatch snap0 h = none → ctx.existing_urls.contains h = true →
      HostDone (resolveGroupTag ctx info.group).1 tt h ctx.server) :
    (processTraefikServer hosts_of pats false tt ctx info).snapshot = snap0 ∧
    Evolves ctx.server
      (processTraefikServer hosts_of pats false tt ctx info).server ∧
    SnapEvolved snap0
      (processTraefikServer hosts_of pats false tt ctx info).server ∧
    UrlsCovered (processTraefikServer hosts_of pats false tt ctx info) ∧
    UrlsMatched (processTraefikServer hosts_of pats false tt ctx info) ∧
    1 ≤ (processTraefikServer hosts_of pats false tt ctx info).server.nextMonitorId ∧
    NoIgnored pats (processTraefikServer hosts_of pats false tt ctx info).server ∧
    DockerTrace cof snap0 ds
      (processTraefikServer hosts_of pats false tt ctx info).server ∧
    (∀ u, (processTraefikServer hosts_of pats false tt
        ctx info).existing_urls.contains u = true →
      ctx.existing_urls.contains u = true ∨
        u ∈ filteredHosts hosts_of pats info) ∧
    TraefikDone hosts_of pats info tt
      (processTraefikServer hosts_of pats false tt ctx info).server := by
  by_cases h0 : (hosts_of info.url).isEmpty = true
  · have hidp : processTraefikServer hosts_of pats false tt ctx info = ctx := by
      unfold processTraefikServer
      rw [if_pos h0]
    rw [hidp]
    refine ⟨h1, evolves_refl _, h2, h3, h4, h5, h6, h7,
      fun u hu => Or.inl hu, ?_⟩
    intro habs
    rw [h0] at habs
    cases habs
  · have hexp : processTraefikServer hosts_of pats false tt ctx info =
        (missingHosts (filteredHosts hosts_of pats info)
            (traefikTagCheckPhase (filteredHosts hosts_of pats info)
              (resolveGroupTag ctx info.group).1 tt false
              (resolveGroupTag ctx info.group).2).existing_urls).foldl
          (createHttpStep (resolveGroupTag ctx info.group).1 tt)
          (traefikTagCheckPhase (filteredHosts hosts_of pats info)
            (resolveGroupTag ctx info.group).1 tt false
            (resolveGroupTag ctx info.group).2) := by
      simp only [processTraefikServer]
      rw [if_neg h0]
      rfl
    have rGS := resolveGroupTag_server ctx info.group
    have hevA := resolveGroupTag_evolves ctx info.group
    have hsnap1 : (resolveGroupTag ctx info.group).2.snapshot = snap0 :=
      (resolveGroupTag_spec ctx info.group).1.trans h1
    have hex1 : (resolveGroupTag ctx info.group).2.existing_urls =
        ctx.existing_urls := (resolveGroupTag_spec ctx info.group).2.1
    have hse1 : SnapEvolved snap0 (resolveGroupTag ctx info.group).2.server :=
      snapEvolved_evolves _ _ _ h2 hevA
    have CHK : (traefikTagCheckPhase (filteredHosts hosts_of pats info)
        (resolveGroupTag ctx info.group).1 tt false
        (resolveGroupTag ctx info.group).2).snapshot = snap0 ∧
        (traefikTagCheckPhase (filteredHosts hosts_of pats info)
          (resolveGroupTag ctx info.group).1 tt false
          (resolveGroupTag ctx info.group).2).existing_urls =
          (resolveGroupTag ctx info.group).2.existing_urls ∧
        (traefikTagCheckPhase (filteredHosts hosts_of pats info)
          (resolveGroupTag ctx info.group).1 tt false
          (resolveGroupTag ctx info.group).2).server.tags =
          (resolveGroupTag ctx info.group).2.server.tags ∧
        (traefikTagCheckPhase (filteredHosts hosts_of pats info)
          (resolveGroupTag ctx info.group).1 tt false
          (resolveGroupTag ctx info.group).2).server.dockerHosts =
          (resolveGroupTag ctx info.group).2.server.dockerHosts ∧
        (traefikTagCheckPhase (filteredHosts hosts_of pats info)
          (resolveGroupTag ctx info.group).1 tt false
          (resolveGroupTag ctx info.group).2).server.nextMonitorId =
          (resolveGroupTag ctx info.group).2.server.nextMonitorId ∧
        List.Forall₂ MonEvolved (resolveGroupTag ctx info.group).2.server.monitors
          (traefikTagCheckPhase (filteredHosts hosts_of pats info)
            (resolveGroupTag ctx info.group).1 tt false
            (resolveGroupTag ctx info.group).2).server.monitors ∧
        (∀ h ∈ (filteredHosts hosts_of pats info).filter
            (fun h => (resolveGroupTag ctx info.group).2.existing_urls.contains h),
          (firstUrlMatch snap0 h).isSome = true →
          HostDone (resolveGroupTag ctx info.group).1 tt h
            (traefikTagCheckPhase (filteredHosts hosts_of pats info)
              (resolveGroupTag ctx info.group).1 tt false
              (resolveGroupTag ctx info.group).2).server) := by
      unfold traefikTagCheckPhase
      by_cases hgt : truthyId (resolveGroupTag ctx info.group).1 = true
      · rw [if_pos hgt]
        exact traefikCheckFold_spec (resolveGroupTag ctx info.group).1 tt snap0
          ((filteredHosts hosts_of pats info).filter
            (fun h => (resolveGroupTag ctx info.group).2.existing_urls.contains h))
          (resolveGroupTag ctx info.group).2 hsnap1 hse1
      · rw [if_neg hgt]
        refine ⟨hsnap1, rfl, rfl, rfl, rfl, forall₂_monEv_refl _, ?_⟩
        intro h _ hs
        cases hfm : firstUrlMatch snap0 h with
        | none => rw [hfm] at hs; cases hs
        | some m =>
          obtain ⟨m2, hm2, _⟩ := firstUrlMatch_snap snap0 _ h hse1 m hfm
          exact ⟨m2, hm2, fun hg => absurd hg hgt⟩
    obtain ⟨k1, k2, k3, k4, k5, k6, k7⟩ := CHK
    have hevB : Evolves (resolveGroupTag ctx info.group).2.server
        (traefikTagCheckPhase (filteredHosts hosts_of pats info)
          (resolveGroupTag ctx info.group).1 tt false
          (resolveGroupTag ctx info.group).2).server :=
      evolves_of_forall₂ _ _ k6 ⟨[], by rw [k3, List.append_nil]⟩ k4
        (le_of_eq k5.symm)
    have hse2 : SnapEvolved snap0
        (traefikTagCheckPhase (filteredHosts hosts_of pats info)
          (resolveGroupTag ctx info.group).1 tt false
          (resolveGroupTag ctx info.group).2).server :=
      snapEvolved_forall₂ _ _ _ hse1 k6
    have hcov1 : UrlsCovered (resolveGroupTag ctx info.group).2 := by
      intro m hm hurl
      rw [rGS.1] at hm
      rw [hex1]
      exact h3 m hm hurl
    have hmat1 : UrlsMatched (resolveGroupTag ctx info.group).2 := by
      intro u hu
      rw [hex1] at hu
      have := h4 u hu
      rw [show (resolveGroupTag ctx info.group).2.server.monitors =
        ctx.server.monitors from rGS.1]
      exact this
    have hni1 : NoIgnored pats (resolveGroupTag ctx info.group).2.server := by
      intro m hm hurl
      rw [rGS.1] at hm
      exact h6 m hm hurl
    have hdt1 : DockerTrace cof snap0 ds
        (resolveGroupTag ctx info.group).2.server :=
      dockerTrace_congr cof snap0 ds ctx.server _ rGS.1 rGS.2.1 h7
    have hcov2 : UrlsCovered (traefikTagCheckPhase (filteredHosts hosts_of pats info)
        (resolveGroupTag ctx info.group).1 tt false
        (resolveGroupTag ctx info.group).2) :=
      urlsCovered_forall₂ _ _ k6 (fun u hu => by rw [k2]; exact hu) hcov1
    have hmat2 : UrlsMatched (traefikTagCheckPhase (filteredHosts hosts_of pats info)
        (resolveGroupTag ctx info.group).1 tt false
        (resolveGroupTag ctx info.group).2) :=
      urlsMatched_forall₂ _ _ k6 (fun u hu => by rw [k2] at hu; exact hu) hmat1
    have hni2 : NoIgnored pats
        (traefikTagCheckPhase (filteredHosts hosts_of pats info)
          (resolveGroupTag ctx info.group).1 tt false
          (resolveGroupTag ctx info.group).2).server :=
      noIgnored_forall₂ pats _ _ k6 hni1
    have hdt2 : DockerTrace cof snap0 ds
        (traefikTagCheckPhase (filteredHosts hosts_of pats info)
          (resolveGroupTag ctx info.group).1 tt false
          (resolveGroupTag ctx info.group).2).server :=
      dockerTrace_forall₂ cof snap0 ds _ _ k6 k4 hdt1
    have hpos2 : 1 ≤ (traefikTagCheckPhase (filteredHosts hosts_of pats info)
        (resolveGroupTag ctx info.group).1 tt false
        (resolveGroupTag ctx info.group).2).server.nextMonitorId := by
      rw [k5, rGS.2.2.1]
      exact h5
    have hlm : ∀ h ∈ missingHosts (filteredHosts hosts_of pats info)
        (traefikTagCheckPhase (filteredHosts hosts_of pats info)
          (resolveGroupTag ctx info.group).1 tt false
          (resolveGroupTag ctx info.group).2).existing_urls,
        h ≠ "" ∧ should_ignore h pats = false ∧
        (traefikTagCheckPhase (filteredHosts hosts_of pats info)
          (resolveGroupTag ctx info.group).1 tt false
          (resolveGroupTag ctx info.group).2).existing_urls.contains h = false := by
      intro h hm
      have hmL : h ∈ filteredHosts hosts_of pats info := (List.mem_filter.mp hm).1
      exact ⟨hne h (filteredHosts_subset hosts_of pats info h hmL),
        filteredHosts_not_ignored hosts_of pats info h hmL,
        missingHosts_not_contains _ _ h hm⟩
    have CRF := traefikCreateFold_spec (resolveGroupTag ctx info.group).1 tt snap0
      pats cof ds
      (missingHosts (filteredHosts hosts_of pats info)
        (traefikTagCheckPhase (filteredHosts hosts_of pats info)
          (resolveGroupTag ctx info.group).1 tt false
          (resolveGroupTag ctx info.group).2).existing_urls)
      (traefikTagCheckPhase (filteredHosts hosts_of pats info)
        (resolveGroupTag ctx info.group).1 tt false
        (resolveGroupTag ctx info.group).2)
      k1 hpos2 hcov2 hmat2 hni2 hdt2 hlm
    obtain ⟨c1, c2, c3, c4, c5, c6, c7, c8, c9⟩ := CRF
    rw [hexp]
    have hgfin : trGroupTag ((missingHosts (filteredHosts hosts_of pats info)
        (traefikTagCheckPhase (filteredHosts hosts_of pats info)
          (resolveGroupTag ctx info.group).1 tt false
          (resolveGroupTag ctx info.group).2).existing_urls).foldl
        (createHttpStep (resolveGroupTag ctx info.group).1 tt)
        (traefikTagCheckPhase (filteredHosts hosts_of pats info)
          (resolveGroupTag ctx info.group).1 tt false
          (resolveGroupTag ctx info.group).2)).server info.group =
        (resolveGroupTag ctx info.group).1 := by
      rw [trGroupTag_congr _ _ c3, trGroupTag_congr _ _ k3]
      exact rGS.2.2.2.2.1
    refine ⟨c1, evolves_trans (evolves_trans hevA hevB) c2,
      snapEvolved_evolves _ _ _ hse2 c2, c4, c5, ?_, c6, c7, ?_, ?_⟩
    · have := c2.2.2.1
      omega
    · intro u hu
      rcases c8 u hu with hm | hm
      · exact Or.inr (List.mem_filter.mp hm).1
      · rw [k2, hex1] at hm
        exact Or.inl hm
    · intro _
      constructor
      · intro hgne
        obtain ⟨t, ht⟩ := rGS.2.2.2.2.2.1 hgne
        have htg1 : resolvedTag (resolveGroupTag ctx info.group).2.server
            info.group = some t := by
          have := rGS.2.2.2.2.1
          rw [ht] at this
          unfold trGroupTag at this
          rw [if_pos hgne] at this
          exact this
        refine ⟨t, ?_⟩
        rw [resolvedTag_congr _ _ c3, resolvedTag_congr _ _ k3]
        exact htg1
      · intro h hmL
        rw [hgfin]
        by_cases hcx : ctx.existing_urls.contains h = true
        · by_cases hsm : (firstUrlMatch snap0 h).isSome = true
          · have hin : h ∈ (filteredHosts hosts_of pats info).filter
                (fun h => (resolveGroupTag ctx info.group).2.existing_urls.contains h) := by
              rw [List.mem_filter]
              exact ⟨hmL, by rw [hex1]; exact hcx⟩
            exact hostDone_mono _ _ _ _ _ c2 (k7 h hin hsm)
          · have hnone : firstUrlMatch snap0 h = none := by
              cases hfm : firstUrlMatch snap0 h with
              | none => rfl
              | some m => rw [hfm] at hsm; exact absurd rfl hsm
            exact hostDone_mono _ _ _ _ _
              (evolves_trans (evolves_trans hevA hevB) c2)
              (hhole h hmL hnone hcx)
        · have hlmm : h ∈ missingHosts (filteredHosts hosts_of pats info)
              (traefikTagCheckPhase (filteredHosts hosts_of pats info)
                (resolveGroupTag ctx info.group).1 tt false
                (resolveGroupTag ctx info.group).2).existing_urls := by
            unfold missingHosts
            rw [List.mem_filter]
            refine ⟨hmL, ?_⟩
            rw [k2, hex1]
            simp only [decide_eq_true_eq]
            intro hcc
            exact hcx hcc
          exact c9 h hlmm

/-! ### One Docker group phase -/

/-- One Docker group: the invariant bundle is preserved, the trace is
extended by this group, and the group's postcondition is established —
provided earlier groups with other labels sit on other runtime hosts. -/
theorem processDocker_phase (cof : String → List String) (pats : List String)
    (snap0 : List Monitor) (dsDone : List ServerInfo) (ctx : RunCtx)
    (info : ServerInfo)
    (h1 : ctx.snapshot = snap0)
    (h2 : SnapEvolved snap0 ctx.server)
    (h3 : UrlsCovered ctx) (h4 : UrlsMatched ctx)
    (h5 : 1 ≤ ctx.server.nextMonitorId)
    (h6 : NoIgnored pats ctx.server)
    (h7 : DockerTrace cof snap0 dsDone ctx.server)
    (hdone0 : ∀ j ∈ dsDone, DockerDone cof j ctx.server)
    (hprev : ∀ j ∈ dsDone, j.group ≠ info.group →
      ∀ a b, dockerHostId ctx.server j.group = some a →
        dockerHostId ctx.server info.group = some b → a ≠ b) :
    (processDockerServer cof false ctx info).snapshot = snap0 ∧
    Evolves ctx.server (processDockerServer cof false ctx info).server ∧
    SnapEvolved snap0 (processDockerServer cof false ctx info).server ∧
    UrlsCovered (processDockerServer cof false ctx info) ∧
    UrlsMatched (processDockerServer cof false ctx info) ∧
    1 ≤ (processDockerServer cof false ctx info).server.nextMonitorId ∧
    NoIgnored pats (processDockerServer cof false ctx info).server ∧
    DockerTrace cof snap0 (dsDone ++ [info])
      (processDockerServer cof false ctx info).server ∧
    (processDockerServer cof false ctx info).existing_urls =
      ctx.existing_urls ∧
    DockerDone cof info (processDockerServer cof false ctx info).server := by
  have hwk : ∀ s, DockerTrace cof snap0 dsDone s →
      DockerTrace cof snap0 (dsDone ++ [info]) s := by
    intro s h m hm hty h' hdh'
    rcases h m hm hty h' hdh' with hl | ⟨j, hj, hcj, hdj⟩
    · exact Or.inl hl
    · exact Or.inr ⟨j, List.mem_append_left _ hj, hcj, hdj⟩
  by_cases h0 : (cof info.url).isEmpty = true
  · have hidp : processDockerServer cof false ctx info = ctx := by
      simp only [processDockerServer]
      rw [if_pos h0]
    rw [hidp]
    refine ⟨h1, evolves_refl _, h2, h3, h4, h5, h6, hwk ctx.server h7, rfl, ?_⟩
    intro habs
    rw [h0] at habs
    cases habs
  · have rGSA := resolveGroupTag_server ctx info.group
    have hevA := resolveGroupTag_evolves ctx info.group
    have rGSB := resolveGroupTag_server (resolveGroupTag ctx info.group).2 "docker"
    have hevB := resolveGroupTag_evolves (resolveGroupTag ctx info.group).2 "docker"
    have hdkne : ("docker" : String) ≠ "" := by decide
    have hsnapB : (resolveGroupTag (resolveGroupTag ctx info.group).2
        "docker").2.snapshot = snap0 :=
      ((resolveGroupTag_spec _ "docker").1.trans
        (resolveGroupTag_spec ctx info.group).1).trans h1
    have hexB : (resolveGroupTag (resolveGroupTag ctx info.group).2
        "docker").2.existing_urls = ctx.existing_urls :=
      (resolveGroupTag_spec _ "docker").2.1.trans
        (resolveGroupTag_spec ctx info.group).2.1
    have hseB : SnapEvolved snap0 (resolveGroupTag
        (resolveGroupTag ctx info.group).2 "docker").2.server :=
      snapEvolved_evolves _ _ _ (snapEvolved_evolves _ _ _ h2 hevA) hevB
    have hmonB : (resolveGroupTag (resolveGroupTag ctx info.group).2
        "docker").2.server.monitors = ctx.server.monitors :=
      rGSB.1.trans rGSA.1
    have hdhB : (resolveGroupTag (resolveGroupTag ctx info.group).2
        "docker").2.server.dockerHosts = ctx.server.dockerHosts :=
      rGSB.2.1.trans rGSA.2.1
    have hnxB : (resolveGroupTag (resolveGroupTag ctx info.group).2
        "docker").2.server.nextMonitorId = ctx.server.nextMonitorId :=
      rGSB.2.2.1.trans rGSA.2.2.1
    have hdkB : resolvedTag (resolveGroupTag (resolveGroupTag ctx info.group).2
        "docker").2.server "docker" =
        (resolveGroupTag (resolveGroupTag ctx info.group).2 "docker").1 := by
      have := rGSB.2.2.2.2.1
      unfold trGroupTag at this
      rw [if_pos hdkne] at this
      exact this
    have hdkSome : ∃ d, (resolveGroupTag (resolveGroupTag ctx info.group).2
        "docker").1 = some d := rGSB.2.2.2.2.2.1 hdkne
    have hgtB : trGroupTag (resolveGroupTag (resolveGroupTag ctx info.group).2
        "docker").2.server info.group = (resolveGroupTag ctx info.group).1 := by
      by_cases hg : info.group = ""
      · rw [hg, trGroupTag_empty]
        have := rGSA.2.2.2.2.1
        rw [hg, trGroupTag_empty] at this
        exact this.symm
      · obtain ⟨t, ht⟩ := rGSA.2.2.2.2.2.1 hg
        rw [ht]
        refine trGroupTag_mono _ _ _ _ rGSB.2.2.2.1 ?_
        rw [← ht]
        exact rGSA.2.2.2.2.1
    have hgrpSome : info.group ≠ "" →
        ∃ t, resolvedTag (resolveGroupTag (resolveGroupTag ctx info.group).2
          "docker").2.server info.group = some t := by
      intro hg
      obtain ⟨t, ht⟩ := rGSA.2.2.2.2.2.1 hg
      refine ⟨t, ?_⟩
      have := hgtB
      rw [ht] at this
      unfold trGroupTag at this
      rw [if_pos hg] at this
      exact this
    have hcovB : UrlsCovered (resolveGroupTag
        (resolveGroupTag ctx info.group).2 "docker").2 := by
      intro m hm hurl
      rw [hmonB] at hm
      rw [hexB]
      exact h3 m hm hurl
    have hmatB : UrlsMatched (resolveGroupTag
        (resolveGroupTag ctx info.group).2 "docker").2 := by
      intro u hu
      rw [hexB] at hu
      rw [hmonB]
      exact h4 u hu
    have hniB : NoIgnored pats (resolveGroupTag
        (resolveGroupTag ctx info.group).2 "docker").2.server := by
      intro m hm hurl
      rw [hmonB] at hm
      exact h6 m hm hurl
    have hdtB : DockerTrace cof snap0 dsDone (resolveGroupTag
        (resolveGroupTag ctx info.group).2 "docker").2.server :=
      dockerTrace_congr cof snap0 dsDone ctx.server _ hmonB hdhB h7
    have hdoneB : ∀ j ∈ dsDone, DockerDone cof j (resolveGroupTag
        (resolveGroupTag ctx info.group).2 "docker").2.server :=
      fun j hj => dockerDone_mono cof j _ _ (evolves_trans hevA hevB)
        (hdone0 j hj)
    have hevAB := evolves_trans hevA hevB
    simp only [processDockerServer]
    rw [if_neg h0]
    cases hhid : ((resolveGroupTag (resolveGroupTag ctx info.group).2
        "docker").2.server.dockerHosts.find? fun p =>
          p.2 == info.group ++ "-docker").map Prod.fst with
    | none =>
      have hhid' : dockerHostId (resolveGroupTag
          (resolveGroupTag ctx info.group).2 "docker").2.server info.group =
          none := hhid
      refine ⟨hsnapB, hevAB, hseB, hcovB, hmatB, by rw [hnxB]; exact h5, hniB,
        hwk _ hdtB, hexB, ?_⟩
      intro _
      refine ⟨hgrpSome, ?_, ?_⟩
      · obtain ⟨d, hd⟩ := hdkSome
        exact ⟨d, by rw [hdkB]; exact hd⟩
      · intro hid2 hp hnz2 cn hcn
        rw [hhid'] at hp
        cases hp
    | some hid =>
      have hhid' : dockerHostId (resolveGroupTag
          (resolveGroupTag ctx info.group).2 "docker").2.server info.group =
          some hid := hhid
      dsimp only
      by_cases hz : hid = 0
      · rw [if_pos hz]
        refine ⟨hsnapB, hevAB, hseB, hcovB, hmatB, by rw [hnxB]; exact h5, hniB,
          hwk _ hdtB, hexB, ?_⟩
        intro _
        refine ⟨hgrpSome, ?_, ?_⟩
        · obtain ⟨d, hd⟩ := hdkSome
          exact ⟨d, by rw [hdkB]; exact hd⟩
        · intro hid2 hp hnz2 cn hcn
          rw [hhid'] at hp
          have : hid = hid2 := Option.some.inj hp
          rw [← this, hz] at hnz2
          exact absurd rfl hnz2
      · rw [if_neg hz]
        have DCHK : (dockerTagCheckPhase (cof info.url)
            (resolveGroupTag ctx info.group).1
            (resolveGroupTag (resolveGroupTag ctx info.group).2 "docker").1
            hid false
            (resolveGroupTag (resolveGroupTag ctx info.group).2
              "docker").2).snapshot = snap0 ∧
            (dockerTagCheckPhase (cof info.url)
              (resolveGroupTag ctx info.group).1
              (resolveGroupTag (resolveGroupTag ctx info.group).2 "docker").1
              hid false
              (resolveGroupTag (resolveGroupTag ctx info.group).2
                "docker").2).existing_urls =
              (resolveGroupTag (resolveGroupTag ctx info.group).2
                "docker").2.existing_urls ∧
            (dockerTagCheckPhase (cof info.url)
              (resolveGroupTag ctx info.group).1
              (resolveGroupTag (resolveGroupTag ctx info.group).2 "docker").1
              hid false
              (resolveGroupTag (resolveGroupTag ctx info.group).2
                "docker").2).server.tags =
              (resolveGroupTag (resolveGroupTag ctx info.group).2
                "docker").2.server.tags ∧
            (dockerTagCheckPhase (cof info.url)
              (resolveGroupTag ctx info.group).1
              (resolveGroupTag (resolveGroupTag ctx info.group).2 "docker").1
              hid false
              (resolveGroupTag (resolveGroupTag ctx info.group).2
                "docker").2).server.dockerHosts =
              (resolveGroupTag (resolveGroupTag ctx info.group).2
                "docker").2.server.dockerHosts ∧
            (dockerTagCheckPhase (cof info.url)
              (resolveGroupTag ctx info.group).1
              (resolveGroupTag (resolveGroupTag ctx info.group).2 "docker").1
              hid false
              (resolveGroupTag (resolveGroupTag ctx info.group).2
                "docker").2).server.nextMonitorId =
              (resolveGroupTag (resolveGroupTag ctx info.group).2
                "docker").2.server.nextMonitorId ∧
            List.Forall₂ MonEvolved
              (resolveGroupTag (resolveGroupTag ctx info.group).2
                "docker").2.server.monitors
              (dockerTagCheckPhase (cof info.url)
                (resolveGroupTag ctx info.group).1
                (resolveGroupTag (resolveGroupTag ctx info.group).2 "docker").1
                hid false
                (resolveGroupTag (resolveGroupTag ctx info.group).2
                  "docker").2).server.monitors ∧
            (∀ cn ∈ cof info.url, (firstDockerMatch snap0 cn hid).isSome = true →
              ContDone (resolveGroupTag ctx info.group).1
                (resolveGroupTag (resolveGroupTag ctx info.group).2 "docker").1
                hid cn
                (dockerTagCheckPhase (cof info.url)
                  (resolveGroupTag ctx info.group).1
                  (resolveGroupTag (resolveGroupTag ctx info.group).2
                    "docker").1 hid false
                  (resolveGroupTag (resolveGroupTag ctx info.group).2
                    "docker").2).server) := by
          unfold dockerTagCheckPhase
          by_cases hgate : (truthyId (resolveGroupTag ctx info.group).1 ||
              truthyId (resolveGroupTag (resolveGroupTag ctx info.group).2
                "docker").1) = true
          · rw [if_pos hgate]
            exact dockerCheckFold_spec (resolveGroupTag ctx info.group).1
              (resolveGroupTag (resolveGroupTag ctx info.group).2 "docker").1
              hid snap0 (cof info.url)
              (resolveGroupTag (resolveGroupTag ctx info.group).2 "docker").2
              hsnapB hseB
          · rw [if_neg hgate]
            have hga : ¬ truthyId (resolveGroupTag ctx info.group).1 = true :=
              fun hh => hgate (by rw [hh, Bool.true_or])
            have hgb : ¬ truthyId (resolveGroupTag
                (resolveGroupTag ctx info.group).2 "docker").1 = true :=
              fun hh => hgate (by rw [hh, Bool.or_true])
            refine ⟨hsnapB, rfl, rfl, rfl, rfl, forall₂_monEv_refl _, ?_⟩
            intro cn _ hs
            cases hfm : firstDockerMatch snap0 cn hid with
            | none => rw [hfm] at hs; cases hs
            | some m =>
              obtain ⟨m2, hm2, _⟩ :=
                firstDockerMatch_snap snap0 _ cn hid hseB m hfm
              exact ⟨m2, hm2, fun hg => absurd hg hga,
                fun hd => absurd hd hgb⟩
        obtain ⟨d1, d2, d3, d4, d5, d6, d7⟩ := DCHK
        have hevC : Evolves (resolveGroupTag (resolveGroupTag ctx info.group).2
            "docker").2.server
            (dockerTagCheckPhase (cof info.url)
              (resolveGroupTag ctx info.group).1
              (resolveGroupTag (resolveGroupTag ctx info.group).2 "docker").1
              hid false
              (resolveGroupTag (resolveGroupTag ctx info.group).2
                "docker").2).server :=
          evolves_of_forall₂ _ _ d6 ⟨[], by rw [d3, List.append_nil]⟩ d4
            (le_of_eq d5.symm)
        have hseC := snapEvolved_forall₂ _ _ _ hseB d6
        have hcovC := urlsCovered_forall₂ _ _ d6
          (fun u hu => by rw [d2]; exact hu) hcovB
        have hmatC := urlsMatched_forall₂ _ _ d6
          (fun u hu => by rw [d2] at hu; exact hu) hmatB
        have hniC := noIgnored_forall₂ pats _ _ d6 hniB
        have hdtC := dockerTrace_forall₂ cof snap0 dsDone _ _ d6 d4 hdtB
        have hdoneC : ∀ j ∈ dsDone, DockerDone cof j
            (dockerTagCheckPhase (cof info.url)
              (resolveGroupTag ctx info.group).1
              (resolveGroupTag (resolveGroupTag ctx info.group).2 "docker").1
              hid false
              (resolveGroupTag (resolveGroupTag ctx info.group).2
                "docker").2).server :=
          fun j hj => dockerDone_mono cof j _ _ hevC (hdoneB j hj)
        have htagsC : trGroupTag
            (dockerTagCheckPhase (cof info.url)
              (resolveGroupTag ctx info.group).1
              (resolveGroupTag (resolveGroupTag ctx info.group).2 "docker").1
              hid false
              (resolveGroupTag (resolveGroupTag ctx info.group).2
                "docker").2).server info.group =
            (resolveGroupTag ctx info.group).1 :=
          (trGroupTag_congr _ _ d3 info.group).trans hgtB
        have hdkC : resolvedTag
            (dockerTagCheckPhase (cof info.url)
              (resolveGroupTag ctx info.group).1
              (resolveGroupTag (resolveGroupTag ctx info.group).2 "docker").1
              hid false
              (resolveGroupTag (resolveGroupTag ctx info.group).2
                "docker").2).server "docker" =
            (resolveGroupTag (resolveGroupTag ctx info.group).2 "docker").1 :=
          (resolvedTag_congr _ _ d3 "docker").trans hdkB
        have hhidC : dockerHostId
            (dockerTagCheckPhase (cof info.url)
              (resolveGroupTag ctx info.group).1
              (resolveGroupTag (resolveGroupTag ctx info.group).2 "docker").1
              hid false
              (resolveGroupTag (resolveGroupTag ctx info.group).2
                "docker").2).server info.group = some hid :=
          (dockerHostId_congr _ _ info.group d4).trans hhid'
        have hposC : 1 ≤ (dockerTagCheckPhase (cof info.url)
            (resolveGroupTag ctx info.group).1
            (resolveGroupTag (resolveGroupTag ctx info.group).2 "docker").1
            hid false
            (resolveGroupTag (resolveGroupTag ctx info.group).2
              "docker").2).server.nextMonitorId := by
          rw [d5, hnxB]
          exact h5
        have hprevC : ∀ j ∈ dsDone, j.group ≠ info.group →
            ∀ a, dockerHostId (dockerTagCheckPhase (cof info.url)
              (resolveGroupTag ctx info.group).1
              (resolveGroupTag (resolveGroupTag ctx info.group).2 "docker").1
              hid false
              (resolveGroupTag (resolveGroupTag ctx info.group).2
                "docker").2).server j.group = some a → a ≠ hid := by
          intro j hj hjg a ha
          have ha' : dockerHostId ctx.server j.group = some a := by
            rw [← (dockerHostId_congr ctx.server _ j.group (d4.trans hdhB))]
            exact ha
          have hb' : dockerHostId ctx.server info.group = some hid := by
            rw [← (dockerHostId_congr ctx.server _ info.group hdhB)]
            exact hhid'
          exact hprev j hj hjg a hid ha' hb'
        have CRF := dockerCreateFold_spec (resolveGroupTag ctx info.group).1
          (resolveGroupTag (resolveGroupTag ctx info.group).2 "docker").1
          hid snap0 pats cof dsDone info
          (missingContainers (cof info.url) snap0 hid)
          (dockerTagCheckPhase (cof info.url)
            (resolveGroupTag ctx info.group).1
            (resolveGroupTag (resolveGroupTag ctx info.group).2 "docker").1
            hid false
            (resolveGroupTag (resolveGroupTag ctx info.group).2 "docker").2)
          d1 hposC hz hcovC hmatC hniC hdtC hdoneC hprevC htagsC hdkC hhidC
          (missingContainers_spec (cof info.url) snap0 hid)
        obtain ⟨e1, e2, e3, e4, e5, e6, e7, e8, e9, e10⟩ := CRF
        have hexp : dockerCreatePhase (cof info.url)
            (resolveGroupTag ctx info.group).1
            (resolveGroupTag (resolveGroupTag ctx info.group).2 "docker").1 hid
            (dockerTagCheckPhase (cof info.url)
              (resolveGroupTag ctx info.group).1
              (resolveGroupTag (resolveGroupTag ctx info.group).2 "docker").1
              hid false
              (resolveGroupTag (resolveGroupTag ctx info.group).2
                "docker").2) =
            (missingContainers (cof info.url) snap0 hid).foldl
              (createDockerStep (resolveGroupTag ctx info.group).1
                (resolveGroupTag (resolveGroupTag ctx info.group).2
                  "docker").1 hid)
              (dockerTagCheckPhase (cof info.url)
                (resolveGroupTag ctx info.group).1
                (resolveGroupTag (resolveGroupTag ctx info.group).2
                  "docker").1 hid false
                (resolveGroupTag (resolveGroupTag ctx info.group).2
                  "docker").2) := by
          unfold dockerCreatePhase
          rw [d1]
        rw [hexp]
        refine ⟨e1, evolves_trans (evolves_trans hevAB hevC) e2,
          snapEvolved_evolves _ _ _ hseC e2, e6, e7, ?_, e8, e9,
          e5.trans (d2.trans hexB), ?_⟩
        · have := e2.2.2.1
          omega
        · intro _
          refine ⟨?_, ?_, ?_⟩
          · intro hg
            obtain ⟨t, ht⟩ := hgrpSome hg
            refine ⟨t, ?_⟩
            rw [resolvedTag_congr _ _ e3, resolvedTag_congr _ _ d3]
            exact ht
          · obtain ⟨d, hd⟩ := hdkSome
            refine ⟨d, ?_⟩
            rw [resolvedTag_congr _ _ e3, resolvedTag_congr _ _ d3, hdkB]
            exact hd
          · intro hid2 hp hnz2 cn hcn
            have hp' : some hid = some hid2 := by
              rw [← hp, dockerHostId_congr _ _ info.group e4]
              exact hhidC.symm
            have hh2 : hid = hid2 := Option.some.inj hp'
            subst hh2
            rw [show trGroupTag ((missingContainers (cof info.url) snap0
                hid).foldl (createDockerStep (resolveGroupTag ctx info.group).1
                  (resolveGroupTag (resolveGroupTag ctx info.group).2
                    "docker").1 hid)
                (dockerTagCheckPhase (cof info.url)
                  (resolveGroupTag ctx info.group).1
                  (resolveGroupTag (resolveGroupTag ctx info.group).2
                    "docker").1 hid false
                  (resolveGroupTag (resolveGroupTag ctx info.group).2
                    "docker").2)).server info.group =
                (resolveGroupTag ctx info.group).1 from
              (trGroupTag_congr _ _ e3 info.group).trans htagsC]
            rw [show resolvedTag ((missingContainers (cof info.url) snap0
                hid).foldl (createDockerStep (resolveGroupTag ctx info.group).1
                  (resolveGroupTag (resolveGroupTag ctx info.group).2
                    "docker").1 hid)
                (dockerTagCheckPhase (cof info.url)
                  (resolveGroupTag ctx info.group).1
                  (resolveGroupTag (resolveGroupTag ctx info.group).2
                    "docker").1 hid false
                  (resolveGroupTag (resolveGroupTag ctx info.group).2
                    "docker").2)).server "docker" =
                (resolveGroupTag (resolveGroupTag ctx info.group).2
                  "docker").1 from
              (resolvedTag_congr _ _ e3 "docker").trans hdkC]
            by_cases hsm : (firstDockerMatch snap0 cn hid).isSome = true
            · exact contDone_mono _ _ _ _ _ _ e2 (d7 cn hcn hsm)
            · have hnone : firstDockerMatch snap0 cn hid = none := by
                cases hfm : firstDockerMatch snap0 cn hid with
                | none => rfl
                | some m => rw [hfm] at hsm; exact absurd rfl hsm
              exact e10 cn (missingContainers_none (cof info.url) snap0 hid cn
                hcn hnone)

/-! ### The initial context of a run -/

theorem prunePhase_fields (s : KumaState) (pats : List String)
    (delOk : Nat → Bool) :
    (prunePhase s s.monitors pats delOk).1.tags = s.tags ∧
    (prunePhase s s.monitors pats delOk).1.dockerHosts = s.dockerHosts ∧
    (prunePhase s s.monitors pats delOk).1.nextMonitorId = s.nextMonitorId := by
  unfold prunePhase
  by_cases hp : pats.isEmpty
  · rw [if_pos hp]
    exact ⟨rfl, rfl, rfl⟩
  · rw [if_neg hp]
    by_cases htr : (monitorsToRemove s.monitors pats).isEmpty
    · rw [if_pos htr]
      exact ⟨rfl, rfl, rfl⟩
    · rw [if_neg htr]
      exact ⟨(pruneFold_fields delOk _ s []).1, (pruneFold_fields delOk _ s []).2.1,
        (pruneFold_fields delOk _ s []).2.2.1⟩

/-- With always-successful deletions, no ignored monitor survives the
pruning phase. -/
theorem prunePhase_noIgnored (s : KumaState) (pats : List String) :
    NoIgnored pats (prunePhase s s.monitors pats (fun _ => true)).1 := by
  intro m hm hurl
  rw [prunePhase_mem] at hm
  obtain ⟨hm0, hall⟩ := hm
  cases hb : should_ignore m.url pats with
  | false => rfl
  | true =>
    exact absurd rfl (hall m
      (List.mem_filter.mpr ⟨hm0, decide_eq_true ⟨hurl, hb⟩⟩) rfl)

theorem existingUrls_contains (snap : List Monitor) (m : Monitor)
    (hm : m ∈ snap) (hurl : m.url ≠ "") :
    (existingUrls snap).contains m.url = true :=
  List.elem_iff.mpr (List.mem_filter.mpr
    ⟨List.mem_map.mpr ⟨m, hm, rfl⟩, decide_eq_true hurl⟩)

theorem existingUrls_mem (snap : List Monitor) (u : String)
    (hu : (existingUrls snap).contains u = true) : ∃ m ∈ snap, m.url = u := by
  have := List.elem_iff.mp hu
  obtain ⟨h1, _⟩ := List.mem_filter.mp this
  obtain ⟨m, hm, hmu⟩ := List.mem_map.mp h1
  exact ⟨m, hm, hmu⟩

theorem firstUrlMatch_isSome_of (snap : List Monitor) (u : String)
    (h : ∃ m ∈ snap, m.url = u) : (firstUrlMatch snap u).isSome = true := by
  unfold firstUrlMatch
  rw [List.find?_isSome]
  obtain ⟨m, hm, hu⟩ := h
  refine ⟨m, hm, ?_⟩
  rw [hu]
  simp

/-! ### The group folds of one run, end to end -/

/-- Both group folds of one run establish every group's postcondition,
starting from a fresh post-prune context. -/
theorem runFolds_post (hosts_of cof : String → List String)
    (tS dS : List ServerInfo) (pats : List String) (t0 : Nat)
    (snap0 : List Monitor) (ctx0 : RunCtx)
    (b1 : ctx0.snapshot = snap0)
    (b2 : ctx0.server.monitors = snap0)
    (b3 : ctx0.existing_urls = existingUrls snap0)
    (b4 : 1 ≤ ctx0.server.nextMonitorId)
    (b5 : NoIgnored pats ctx0.server)
    (b6 : resolvedTag ctx0.server "traefik" = some t0)
    (Hne : ∀ i ∈ tS, ∀ h ∈ hosts_of i.url, h ≠ "")
    (Hdisj : ∀ i ∈ tS, ∀ j ∈ tS, i.group ≠ j.group →
      ∀ h ∈ hosts_of i.url, h ∉ hosts_of j.url)
    (Hhid : ∀ i ∈ dS, ∀ j ∈ dS, i.group ≠ j.group →
      ∀ a b, dockerHostId ctx0.server i.group = some a →
        dockerHostId ctx0.server j.group = some b → a ≠ b) :
    resolvedTag (dS.foldl (processDockerServer cof false)
      (tS.foldl (processTraefikServer hosts_of pats false (some t0))
        ctx0)).server "traefik" = some t0 ∧
    NoIgnored pats (dS.foldl (processDockerServer cof false)
      (tS.foldl (processTraefikServer hosts_of pats false (some t0))
        ctx0)).server ∧
    (∀ i ∈ tS, TraefikDone hosts_of pats i (some t0)
      (dS.foldl (processDockerServer cof false)
        (tS.foldl (processTraefikServer hosts_of pats false (some t0))
          ctx0)).server) ∧
    (∀ j ∈ dS, DockerDone cof j
      (dS.foldl (processDockerServer cof false)
        (tS.foldl (processTraefikServer hosts_of pats false (some t0))
          ctx0)).server) := by
  have hcov0 : UrlsCovered ctx0 := by
    intro m hm hurl
    rw [b2] at hm
    rw [b3]
    exact existingUrls_contains snap0 m hm hurl
  have hmat0 : UrlsMatched ctx0 := by
    intro u hu
    rw [b3] at hu
    rw [show ctx0.server.monitors = snap0 from b2]
    exact firstUrlMatch_isSome_of snap0 u (existingUrls_mem snap0 u hu)
  have hse0 : SnapEvolved snap0 ctx0.server :=
    ⟨snap0, [], by rw [b2, List.append_nil], forall₂_monEv_refl _⟩
  have hdt0 : DockerTrace cof snap0 [] ctx0.server := by
    intro m hm hty h' hdh'
    rw [b2] at hm
    exact Or.inl ⟨m, hm, hty, rfl, hdh'⟩
  have htr0 : UrlsTraced hosts_of pats snap0 [] ctx0 := by
    intro u hu
    rw [b3] at hu
    exact Or.inl (List.elem_iff.mp hu)
  have TRA := foldl_inv (processTraefikServer hosts_of pats false (some t0)) tS
    (fun tsp c =>
      c.snapshot = snap0 ∧ SnapEvolved snap0 c.server ∧ UrlsCovered c ∧
      UrlsMatched c ∧ 1 ≤ c.server.nextMonitorId ∧ NoIgnored pats c.server ∧
      DockerTrace cof snap0 [] c.server ∧ Evolves ctx0.server c.server ∧
      (∀ i ∈ tsp, i ∈ tS) ∧ UrlsTraced hosts_of pats snap0 tsp c ∧
      (∀ i ∈ tsp, TraefikDone hosts_of pats i (some t0) c.server))
    (by
      intro tsp c info hinfo hI
      obtain ⟨i1, i2, i3, i4, i5, i6, i7, i8, i9, i10, i11⟩ := hI
      have hhole : ∀ h ∈ filteredHosts hosts_of pats info,
          firstUrlMatch snap0 h = none → c.existing_urls.contains h = true →
          HostDone (resolveGroupTag c info.group).1 (some t0) h c.server := by
        intro h hmL hnone hcontains
        rcases i10 h hcontains with hleft | ⟨i', hi', hmem'⟩
        · obtain ⟨h1, _⟩ := List.mem_filter.mp hleft
          obtain ⟨m, hmm, hmu⟩ := List.mem_map.mp h1
          have := firstUrlMatch_isSome_of snap0 h ⟨m, hmm, hmu⟩
          rw [hnone] at this
          cases this
        · have hi'0 := i9 i' hi'
          have hne' : (hosts_of i'.url).isEmpty = false :=
            isEmpty_false_of_mem (filteredHosts_subset hosts_of pats i' h hmem')
          obtain ⟨hgs, hhd⟩ := i11 i' hi' hne'
          have hgeq : i'.group = info.group := by
            by_contra hgne
            exact absurd (filteredHosts_subset _ _ _ h hmL)
              (Hdisj i' hi'0 info hinfo hgne h
                (filteredHosts_subset _ _ _ h hmem'))
          have HD := hhd h hmem'
          rw [hgeq] at HD hgs
          by_cases hgE : info.group = ""
          · rw [hgE, trGroupTag_empty] at HD
            rw [hgE]
            rw [resolveGroupTag_empty]
            exact HD
          · obtain ⟨t, ht⟩ := hgs hgE
            have htg : trGroupTag c.server info.group = some t := by
              unfold trGroupTag
              rw [if_pos hgE]
              exact ht
            rw [htg] at HD
            rw [(resolveGroupTag_server c info.group).2.2.2.2.2.2 t htg]
            exact HD
      have PH := processTraefik_phase hosts_of pats (some t0) snap0 cof [] c info
        i1 i2 i3 i4 i5 i6 i7 (Hne info hinfo) hhole
      obtain ⟨p1, p2, p3, p4, p5, p6, p7, p8, p9, p10⟩ := PH
      refine ⟨p1, p3, p4, p5, p6, p7, p8, evolves_trans i8 p2, ?_, ?_, ?_⟩
      · intro i hi
        rcases List.mem_append.mp hi with hi | hi
        · exact i9 i hi
        · rw [List.mem_singleton.mp hi]
          exact hinfo
      · intro u hu
        rcases p9 u hu with h | h
        · rcases i10 u h with hL | ⟨i', hi', hm'⟩
          · exact Or.inl hL
          · exact Or.inr ⟨i', List.mem_append_left _ hi', hm'⟩
        · exact Or.inr ⟨info, List.mem_append_right _ (by simp), h⟩
      · intro i hi
        rcases List.mem_append.mp hi with hi | hi
        · exact traefikDone_mono _ _ _ _ _ _ p2 (i11 i hi)
        · rw [List.mem_singleton.mp hi]
          exact p10)
    tS (fun b hb => hb) [] ctx0
    ⟨b1, hse0, hcov0, hmat0, b4, b5, hdt0, evolves_refl _, by simp, htr0,
      by simp⟩
  obtain ⟨t1, t2, t3, t4, t5, t6, t7, t8, _, _, t11⟩ := TRA
  have t11' : ∀ i ∈ tS, TraefikDone hosts_of pats i (some t0)
      (tS.foldl (processTraefikServer hosts_of pats false (some t0))
        ctx0).server := fun i hi => t11 i (by simpa using hi)
  have DOC := foldl_inv (processDockerServer cof false) dS
    (fun dsp c =>
      c.snapshot = snap0 ∧ SnapEvolved snap0 c.server ∧ UrlsCovered c ∧
      UrlsMatched c ∧ 1 ≤ c.server.nextMonitorId ∧ NoIgnored pats c.server ∧
      DockerTrace cof snap0 dsp c.server ∧
      Evolves (tS.foldl (processTraefikServer hosts_of pats false (some t0))
        ctx0).server c.server ∧
      (∀ j ∈ dsp, j ∈ dS) ∧ (∀ j ∈ dsp, DockerDone cof j c.server) ∧
      (∀ i ∈ tS, TraefikDone hosts_of pats i (some t0) c.server))
    (by
      intro dsp c info hinfo hJ
      obtain ⟨j1, j2, j3, j4, j5, j6, j7, j8, j9, j10, j11⟩ := hJ
      have hprevP : ∀ j ∈ dsp, j.group ≠ info.group →
          ∀ a b, dockerHostId c.server j.group = some a →
            dockerHostId c.server info.group = some b → a ≠ b := by
        intro j hj hjg a b ha hb
        have hc8 : c.server.dockerHosts = ctx0.server.dockerHosts :=
          j8.2.1.trans t8.2.1
        rw [dockerHostId_congr ctx0.server c.server j.group hc8] at ha
        rw [dockerHostId_congr ctx0.server c.server info.group hc8] at hb
        exact Hhid j (j9 j hj) info hinfo hjg a b ha hb
      have PH := processDocker_phase cof pats snap0 dsp c info
        j1 j2 j3 j4 j5 j6 j7 j10 hprevP
      obtain ⟨q1, q2, q3, q4, q5, q6, q7, q8, q9, q10⟩ := PH
      refine ⟨q1, q3, q4, q5, q6, q7, q8, evolves_trans j8 q2, ?_, ?_, ?_⟩
      · intro j hj
        rcases List.mem_append.mp hj with hj | hj
        · exact j9 j hj
        · rw [List.mem_singleton.mp hj]
          exact hinfo
      · intro j hj
        rcases List.mem_append.mp hj with hj | hj
        · exact dockerDone_mono _ _ _ _ q2 (j10 j hj)
        · rw [List.mem_singleton.mp hj]
          exact q10
      · intro i hi
        exact traefikDone_mono _ _ _ _ _ _ q2 (j11 i hi))
    dS (fun b hb => hb) []
    (tS.foldl (processTraefikServer hosts_of pats false (some t0)) ctx0)
    ⟨t1, t2, t3, t4, t5, t6, t7, evolves_refl _, by simp, by simp, t11'⟩
  obtain ⟨f1, f2, f3, f4, f5, f6, f7, f8, _, f10, f11⟩ := DOC
  have hEvAll : Evolves ctx0.server
      (dS.foldl (processDockerServer cof false)
        (tS.foldl (processTraefikServer hosts_of pats false (some t0))
          ctx0)).server := evolves_trans t8 f8
  refine ⟨resolvedTag_mono _ _ _ _ hEvAll.1 b6, f6, f11, ?_⟩
  intro j hj
  exact f10 j (by simpa using hj)

/-! ### The second run is the identity -/

/-- Pruning a server with no ignored monitor changes nothing. -/
theorem prunePhase_noop (s : KumaState) (pats : List String) (delOk : Nat → Bool)
    (h : NoIgnored pats s) :
    prunePhase s s.monitors pats delOk = (s, s.monitors, []) := by
  unfold prunePhase
  by_cases hp : pats.isEmpty
  · rw [if_pos hp]
  · rw [if_neg hp]
    have htr : monitorsToRemove s.monitors pats = [] := by
      unfold monitorsToRemove
      rw [List.filter_eq_nil_iff]
      intro m hm hd
      obtain ⟨hurl, hig⟩ := of_decide_eq_true hd
      rw [h m hm hurl] at hig
      cases hig
    rw [if_pos (by rw [htr]; rfl)]

/-- An additive reconciliation of a monitor that already carries every
truthy required tag is the identity on the context. -/
theorem reconcileMonitorTags_id (c : RunCtx) (m : Monitor) (gt kt : Option Nat)
    (h1 : truthyId gt = true → hasTagId m.tags gt = true)
    (h2 : truthyId kt = true → hasTagId m.tags kt = true) :
    reconcileMonitorTags c m gt kt false = c := by
  have htoadd : additiveTagsToAdd m.tags gt kt = [] := by
    unfold additiveTagsToAdd
    rw [if_neg (by rintro ⟨ha, hb⟩; rw [h1 hb] at ha; exact ha rfl)]
    rw [if_neg (by rintro ⟨ha, hb⟩; rw [h2 hb] at ha; exact ha rfl)]
    rfl
  unfold reconcileMonitorTags reconcileServer
  rw [if_neg (by simp)]
  rw [if_pos (by rw [htoadd]; rfl)]
  exact runCtx_update_id c c.server [] rfl rfl

/-- A Traefik group whose postcondition already holds is processed
without any effect. -/
theorem processTraefikServer_id (hosts_of : String → List String)
    (pats : List String) (t0 : Nat) (ctx : RunCtx) (info : ServerInfo)
    (hsnap : ctx.snapshot = ctx.server.monitors)
    (hex : ctx.existing_urls = existingUrls ctx.server.monitors)
    (hne : ∀ h ∈ hosts_of info.url, h ≠ "")
    (hdone : TraefikDone hosts_of pats info (some t0) ctx.server) :
    processTraefikServer hosts_of pats false (some t0) ctx info = ctx := by
  by_cases h0 : (hosts_of info.url).isEmpty = true
  · unfold processTraefikServer
    rw [if_pos h0]
  · have h0' : (hosts_of info.url).isEmpty = false := by
      cases hie : (hosts_of info.url).isEmpty with
      | true => exact absurd hie h0
      | false => rfl
    obtain ⟨hgs, hhd⟩ := hdone h0'
    have hres : resolveGroupTag ctx info.group =
        (trGroupTag ctx.server info.group, ctx) := by
      by_cases hg : info.group = ""
      · rw [hg, resolveGroupTag_empty, trGroupTag_empty]
      · obtain ⟨t, ht⟩ := hgs hg
        rw [resolveGroupTag_found ctx info.group t hg ht]
        unfold trGroupTag
        rw [if_pos hg, ht]
    simp only [processTraefikServer]
    rw [if_neg h0, hres]
    dsimp only
    have hchk : traefikTagCheckPhase (filteredHosts hosts_of pats info)
        (trGroupTag ctx.server info.group) (some t0) false ctx = ctx := by
      unfold traefikTagCheckPhase
      by_cases hgt : truthyId (trGroupTag ctx.server info.group) = true
      · rw [if_pos hgt]
        apply foldl_fixed
        intro h hh
        have hmL : h ∈ filteredHosts hosts_of pats info :=
          (List.mem_filter.mp hh).1
        obtain ⟨m, hm, hcond⟩ := hhd h hmL
        unfold reconcileHttpStep
        rw [hsnap,
          show firstUrlMatch ctx.server.monitors h = some m from hm]
        exact reconcileMonitorTags_id ctx m _ _ (fun _ => (hcond hgt).1)
          (fun htt0 => (hcond hgt).2 htt0)
      · rw [if_neg hgt]
    rw [hchk]
    have hmiss : missingHosts (filteredHosts hosts_of pats info)
        ctx.existing_urls = [] := by
      unfold missingHosts
      rw [List.filter_eq_nil_iff]
      intro h hh hd
      obtain ⟨m, hm, _⟩ := hhd h hh
      have hm2 : List.find? (fun m => m.url == h) ctx.server.monitors =
          some m := hm
      have hmb := List.find?_some hm2
      have hurl : m.url = h := eq_of_beq hmb
      have hm' : m ∈ ctx.server.monitors := List.mem_of_find?_eq_some hm
      have hcont : (existingUrls ctx.server.monitors).contains m.url = true :=
        existingUrls_contains ctx.server.monitors m hm'
          (by rw [hurl]; exact hne h (filteredHosts_subset _ _ _ h hh))
      rw [hurl] at hcont
      have := of_decide_eq_true hd
      rw [hex, hcont] at this
      exact this rfl
    unfold traefikCreatePhase
    rw [hmiss]
    rfl

/-- A Docker group whose postcondition already holds is processed without
any effect. -/
theorem processDockerServer_id (cof : String → List String) (ctx : RunCtx)
    (info : ServerInfo)
    (hsnap : ctx.snapshot = ctx.server.monitors)
    (hdone : DockerDone cof info ctx.server) :
    processDockerServer cof false ctx info = ctx := by
  by_cases h0 : (cof info.url).isEmpty = true
  · simp only [processDockerServer]
    rw [if_pos h0]
  · have h0' : (cof info.url).isEmpty = false := by
      cases hie : (cof info.url).isEmpty with
      | true => exact absurd hie h0
      | false => rfl
    obtain ⟨hgs, ⟨d, hd⟩, hc⟩ := hdone h0'
    have hresA : resolveGroupTag ctx info.group =
        (trGroupTag ctx.server info.group, ctx) := by
      by_cases hg : info.group = ""
      · rw [hg, resolveGroupTag_empty, trGroupTag_empty]
      · obtain ⟨t, ht⟩ := hgs hg
        rw [resolveGroupTag_found ctx info.group t hg ht]
        unfold trGroupTag
        rw [if_pos hg, ht]
    have hresB : resolveGroupTag ctx "docker" = (some d, ctx) :=
      resolveGroupTag_found ctx "docker" d (by decide) hd
    simp only [processDockerServer]
    rw [if_neg h0, hresA, hresB]
    cases hhid : ((ctx.server.dockerHosts.find? fun p =>
        p.2 == info.group ++ "-docker").map Prod.fst) with
    | none => rfl
    | some hid =>
      dsimp only
      by_cases hz : hid = 0
      · rw [if_pos hz]
      · rw [if_neg hz]
        have hhid' : dockerHostId ctx.server info.group = some hid := hhid
        have hcc := hc hid hhid' hz
        rw [hd] at hcc
        have hchk : dockerTagCheckPhase (cof info.url)
            (trGroupTag ctx.server info.group) (some d) hid false ctx = ctx := by
          unfold dockerTagCheckPhase
          by_cases hgate : (truthyId (trGroupTag ctx.server info.group) ||
              truthyId (some d)) = true
          · rw [if_pos hgate]
            apply foldl_fixed
            intro cn hcn
            obtain ⟨m, hm, hcd1, hcd2⟩ := hcc cn hcn
            unfold reconcileDockerStep
            rw [hsnap,
              show firstDockerMatch ctx.server.monitors cn hid = some m from hm]
            exact reconcileMonitorTags_id ctx m _ _ hcd1 hcd2
          · rw [if_neg hgate]
        rw [hchk]
        have hmiss : missingContainers (cof info.url) ctx.snapshot hid = [] := by
          rw [hsnap]
          unfold missingContainers
          rw [List.filter_eq_nil_iff]
          intro cn hcn hdc
          obtain ⟨m, hm, _, _⟩ := hcc cn hcn
          have hm' : m ∈ ctx.server.monitors := List.mem_of_find?_eq_some hm
          have hm2 : List.find? (fun m => decide (m.type = MonType.docker ∧
              m.name = cn ∧ m.docker_host = some hid)) ctx.server.monitors =
              some m := hm
          have hpb := List.find?_some hm2
          have hp : m.type = MonType.docker ∧ m.name = cn ∧
              m.docker_host = some hid := of_decide_eq_true hpb
          have hcont : (existingDockerNames ctx.server.monitors hid).contains
              cn = true :=
            List.elem_iff.mpr ((existingDockerNames_mem _ hid cn).mpr
              ⟨m, hm', hp.1, hp.2.1, hp.2.2⟩)
          have := of_decide_eq_true hdc
          rw [hcont] at this
          exact this rfl
        unfold dockerCreatePhase
        rw [hmiss]
        rfl

/-- **C4, amended.**  Running the reconciliation twice in succession with
unchanged external sources, the Additive tag policy and successful
deletions yields an empty mutation log on the second run — zero monitor
creations and zero `add_monitor_tag` calls — provided no host is
discovered by two Traefik groups with different group labels and no two
Docker groups with different labels resolve to the same runtime host
(the stale snapshot makes the unamended claim false in those cases), with
discovered hosts non-empty and server monitor ids positive. -/
theorem C4_second_run_idempotent (hosts_of cof : String → List String)
    (tS dS : List ServerInfo) (pats : List String) (s0 : KumaState)
    (Hpos : 1 ≤ s0.nextMonitorId)
    (Hne : ∀ i ∈ tS, ∀ h ∈ hosts_of i.url, h ≠ "")
    (Hdisj : ∀ i ∈ tS, ∀ j ∈ tS, i.group ≠ j.group →
      ∀ h ∈ hosts_of i.url, h ∉ hosts_of j.url)
    (Hhid : ∀ i ∈ dS, ∀ j ∈ dS, i.group ≠ j.group →
      ∀ a b, dockerHostId s0 i.group = some a →
        dockerHostId s0 j.group = some b → a ≠ b) :
    (sync_monitors hosts_of cof tS dS pats false (fun _ => true)
      (sync_monitors hosts_of cof tS dS pats false (fun _ => true)
        s0).server).events = [] ∧
    creationCount (sync_monitors hosts_of cof tS dS pats false (fun _ => true)
      (sync_monitors hosts_of cof tS dS pats false (fun _ => true)
        s0).server).events = 0 ∧
    tagAddCount (sync_monitors hosts_of cof tS dS pats false (fun _ => true)
      (sync_monitors hosts_of cof tS dS pats false (fun _ => true)
        s0).server).events = 0 := by
  obtain ⟨t0, hrt0⟩ := (getOrCreateTagState_resolved
    (prunePhase s0 s0.monitors pats (fun _ => true)).1 "traefik").2.2.2.2.2.1
  have hrun1 : sync_monitors hosts_of cof tS dS pats false (fun _ => true) s0 =
      dS.foldl (processDockerServer cof false)
        (tS.foldl (processTraefikServer hosts_of pats false (some t0))
          ⟨(getOrCreateTagState
              (prunePhase s0 s0.monitors pats (fun _ => true)).1 "traefik").2.1,
            (prunePhase s0 s0.monitors pats (fun _ => true)).2.1,
            existingUrls (prunePhase s0 s0.monitors pats (fun _ => true)).2.1,
            (prunePhase s0 s0.monitors pats (fun _ => true)).2.2 ++
              (getOrCreateTagState
                (prunePhase s0 s0.monitors pats (fun _ => true)).1
                "traefik").2.2⟩) := by
    simp only [sync_monitors]
    rw [hrt0]
  have pf := prunePhase_fields s0 pats (fun _ => true)
  have gr := getOrCreateTagState_resolved
    (prunePhase s0 s0.monitors pats (fun _ => true)).1 "traefik"
  have hb2 : (getOrCreateTagState
      (prunePhase s0 s0.monitors pats (fun _ => true)).1 "traefik").2.1.monitors =
      (prunePhase s0 s0.monitors pats (fun _ => true)).2.1 :=
    gr.1.trans (prunePhase_snapshot_refreshed s0 pats (fun _ => true)).symm
  have hb4 : 1 ≤ (getOrCreateTagState
      (prunePhase s0 s0.monitors pats (fun _ => true)).1
      "traefik").2.1.nextMonitorId := by
    rw [gr.2.2.1, pf.2.2]
    exact Hpos
  have hb5 : NoIgnored pats (getOrCreateTagState
      (prunePhase s0 s0.monitors pats (fun _ => true)).1 "traefik").2.1 := by
    intro m hm hurl
    rw [gr.1] at hm
    exact prunePhase_noIgnored s0 pats m hm hurl
  have hb6 : resolvedTag (getOrCreateTagState
      (prunePhase s0 s0.monitors pats (fun _ => true)).1 "traefik").2.1
      "traefik" = some t0 := gr.2.2.2.2.1.trans hrt0
  have hdh : (getOrCreateTagState
      (prunePhase s0 s0.monitors pats (fun _ => true)).1
      "traefik").2.1.dockerHosts = s0.dockerHosts := gr.2.1.trans pf.2.1
  have hbH : ∀ i ∈ dS, ∀ j ∈ dS, i.group ≠ j.group →
      ∀ a b, dockerHostId (getOrCreateTagState
          (prunePhase s0 s0.monitors pats (fun _ => true)).1 "traefik").2.1
          i.group = some a →
        dockerHostId (getOrCreateTagState
          (prunePhase s0 s0.monitors pats (fun _ => true)).1 "traefik").2.1
          j.group = some b → a ≠ b := by
    intro i hi j hj hne a b ha hb
    rw [dockerHostId_congr s0 _ i.group hdh] at ha
    rw [dockerHostId_congr s0 _ j.group hdh] at hb
    exact Hhid i hi j hj hne a b ha hb
  have POST := runFolds_post hosts_of cof tS dS pats t0
    (prunePhase s0 s0.monitors pats (fun _ => true)).2.1
    ⟨(getOrCreateTagState
        (prunePhase s0 s0.monitors pats (fun _ => true)).1 "traefik").2.1,
      (prunePhase s0 s0.monitors pats (fun _ => true)).2.1,
      existingUrls (prunePhase s0 s0.monitors pats (fun _ => true)).2.1,
      (prunePhase s0 s0.monitors pats (fun _ => true)).2.2 ++
        (getOrCreateTagState
          (prunePhase s0 s0.monitors pats (fun _ => true)).1 "traefik").2.2⟩
    rfl hb2 rfl hb4 hb5 hb6 Hne Hdisj hbH
  rw [← hrun1] at POST
  obtain ⟨P1, P2, P3, P4⟩ := POST
  generalize hgen : (sync_monitors hosts_of cof tS dS pats false
    (fun _ => true) s0).server = s1 at P1 P2 P3 P4 ⊢
  have hpr2 := prunePhase_noop s1 pats (fun _ => true) P2
  have hgr2 := getOrCreateTagState_found s1 "traefik" t0 P1
  have hrun2 : sync_monitors hosts_of cof tS dS pats false (fun _ => true)
      s1 =
      dS.foldl (processDockerServer cof false)
        (tS.foldl (processTraefikServer hosts_of pats false (some t0))
          ⟨s1, s1.monitors, existingUrls s1.monitors, []⟩) := by
    simp only [sync_monitors]
    rw [hpr2, hgr2]
    rfl
  have hT2 : tS.foldl (processTraefikServer hosts_of pats false (some t0))
      ⟨s1, s1.monitors, existingUrls s1.monitors, []⟩ =
      ⟨s1, s1.monitors, existingUrls s1.monitors, []⟩ :=
    foldl_fixed _ tS _ (fun i hi =>
      processTraefikServer_id hosts_of pats t0 _ i rfl rfl (Hne i hi)
        (P3 i hi))
  have hD2 : dS.foldl (processDockerServer cof false)
      ⟨s1, s1.monitors, existingUrls s1.monitors, []⟩ =
      ⟨s1, s1.monitors, existingUrls s1.monitors, []⟩ :=
    foldl_fixed _ dS _ (fun j hj =>
      processDockerServer_id cof _ j rfl (P4 j hj))
  rw [hrun2, hT2, hD2]
  exact ⟨rfl, rfl, rfl⟩

/-- **C4, witness.**  The amended theorem at one Traefik group and one
Docker group sharing the label `a` over runtime host 7: the second run's
event log is empty. -/
theorem C4_second_run_idempotent_witness :
    (sync_monitors (fun _ => ["https://x"]) (fun _ => ["c"]) [⟨"t1", "a"⟩]
      [⟨"d1", "a"⟩] [] false (fun _ => true)
      (sync_monitors (fun _ => ["https://x"]) (fun _ => ["c"]) [⟨"t1", "a"⟩]
        [⟨"d1", "a"⟩] [] false (fun _ => true)
        ⟨[], [], [(7, "a-docker")], 1, 1⟩).server).events = [] ∧
    creationCount (sync_monitors (fun _ => ["https://x"]) (fun _ => ["c"])
      [⟨"t1", "a"⟩] [⟨"d1", "a"⟩] [] false (fun _ => true)
      (sync_monitors (fun _ => ["https://x"]) (fun _ => ["c"]) [⟨"t1", "a"⟩]
        [⟨"d1", "a"⟩] [] false (fun _ => true)
        ⟨[], [], [(7, "a-docker")], 1, 1⟩).server).events = 0 ∧
    tagAddCount (sync_monitors (fun _ => ["https://x"]) (fun _ => ["c"])
      [⟨"t1", "a"⟩] [⟨"d1", "a"⟩] [] false (fun _ => true)
      (sync_monitors (fun _ => ["https://x"]) (fun _ => ["c"]) [⟨"t1", "a"⟩]
        [⟨"d1", "a"⟩] [] false (fun _ => true)
        ⟨[], [], [(7, "a-docker")], 1, 1⟩).server).events = 0 :=
  C4_second_run_idempotent (fun _ => ["https://x"]) (fun _ => ["c"])
    [⟨"t1", "a"⟩] [⟨"d1", "a"⟩] [] ⟨[], [], [(7, "a-docker")], 1, 1⟩
    (by decide) (by decide)
    (by
      intro i hi j hj hne h hm
      rw [List.mem_singleton.mp hi, List.mem_singleton.mp hj] at hne
      exact absurd rfl hne)
    (by
      intro i hi j hj hne a b ha hb
      rw [List.mem_singleton.mp hi, List.mem_singleton.mp hj] at hne
      exact absurd rfl hne)

end SyncMon

